import Mathlib

/-!
# Route reconciliation (`router/rebuild/rebuild.go`)

A shallow embedding of `RebuildRoutes` and of the collaborators it talks to.
The application and the router are Go interfaces; here they are records of
state-passing functions over an arbitrary world state `σ`.  Every interface
call the routine makes is logged, together with what it returned, in a trace,
so that statements about which calls are issued, and in which order, are
statements about a list.

Left out: the `log.Debugf` lines, which touch neither the application nor the
router.  Pointers to URLs (`*url.URL`) are the URLs themselves, and the order
in which `range` visits `expectedMap` is a parameter (`Runtime.rangeOrder`).
-/

namespace Rebuild

/-! ## The program -/

/-- Go `error` values as far as `RebuildRoutes` distinguishes them: the two
sentinels of package `router` it compares against, and everything else. -/
inductive Error where
  | ErrBackendExists
  | ErrCNameExists
  | other (msg : String)
deriving DecidableEq, Repr

/-- The part of `net/url.URL` the routine reads (`Host`) plus two further
fields so that distinct addresses may share a host. -/
structure URL where
  Scheme : String
  Host : String
  Path : String
deriving DecidableEq, Repr

/-- `type RebuildRoutesResult struct { Added []string; Removed []string }`. -/
structure RebuildRoutesResult where
  Added : List String
  Removed : List String
deriving DecidableEq, Repr

/-- `map[string]string`, the router options of an application. -/
abbrev Opts := List (String × String)

/-- The optional capability `router.OptsRouter`. -/
structure OptsRouter (σ : Type) where
  AddBackendOpts : String → Opts → σ → Option Error × σ

/-- The optional capability `router.CNameRouter`. -/
structure CNameRouter (σ : Type) where
  SetCName : String → String → σ → Option Error × σ

/-- The methods of `router.Router` used by `RebuildRoutes`.  The two type
assertions `r.(router.OptsRouter)` and `r.(router.CNameRouter)` are the two
optional fields. -/
structure Router (σ : Type) where
  AddBackend : String → σ → Option Error × σ
  AddRoute : String → URL → σ → Option Error × σ
  RemoveRoute : String → URL → σ → Option Error × σ
  Routes : String → σ → (List URL × Option Error) × σ
  asOptsRouter : Option (OptsRouter σ)
  asCNameRouter : Option (CNameRouter σ)

/-- The interface `RebuildApp`, without `InternalLock` and `Unlock`, which
`RebuildRoutes` never calls.  The three getters are plain values. -/
structure RebuildApp (σ : Type) where
  GetRouterOpts : Opts
  GetName : String
  GetCname : List String
  GetRouter : σ → Except Error (Router σ) × σ
  RoutableAddresses : σ → (List URL × Option Error) × σ
  UpdateAddr : σ → Option Error × σ

/-- One interface call together with what it returned. -/
inductive Call where
  | GetRouter (err : Option Error)
  | AddBackend (name : String) (err : Option Error)
  | AddBackendOpts (name : String) (opts : Opts) (err : Option Error)
  | UpdateAddr (err : Option Error)
  | SetCName (cname name : String) (err : Option Error)
  | Routes (name : String) (ret : List URL) (err : Option Error)
  | RoutableAddresses (ret : List URL) (err : Option Error)
  | AddRoute (name : String) (address : URL) (err : Option Error)
  | RemoveRoute (name : String) (address : URL) (err : Option Error)
deriving DecidableEq, Repr

/-- What the Go runtime and standard library contribute: `(*url.URL).String`
and the order in which `range` visits the entries of a map, which Go leaves
unspecified; any rearrangement of the entries is allowed. -/
structure Runtime where
  urlString : URL → String
  rangeOrder : List (String × URL) → List (String × URL)
  rangeOrder_perm : ∀ m, (rangeOrder m).Perm m

/-- The contents of `expectedMap : map[string]*url.URL`, one pair per key. -/
abbrev HostMap := List (String × URL)

/-- `_, isPresent := m[k]`. -/
def mapHas (m : HostMap) (k : String) : Bool :=
  m.any (fun p => p.1 == k)

/-- `delete(m, k)`. -/
def mapDelete (m : HostMap) (k : String) : HostMap :=
  m.filter (fun p => !(p.1 == k))

/-- `m[k] = v`: an existing entry for `k` is replaced. -/
def mapSet (m : HostMap) (k : String) (v : URL) : HostMap :=
  mapDelete m k ++ [(k, v)]

/-- Lines 62-70: `expectedMap[addr.Host] = &addresses[i]` for each address. -/
def buildExpected (addresses : List URL) : HostMap :=
  addresses.foldl (fun m addr => mapSet m addr.Host addr) []

/-- Lines 71-78: walk the old routes; a route whose host is still in the map
takes the entry out of the map, any other route is appended to `toRemove`. -/
def diffRoutes : List URL → HostMap → HostMap × List URL
  | [], m => (m, [])
  | url :: rest, m =>
    if mapHas m url.Host then
      diffRoutes rest (mapDelete m url.Host)
    else
      ((diffRoutes rest m).1, url :: (diffRoutes rest m).2)

/-- The final value of a call to `RebuildRoutes`, the world it leaves behind
and the calls it made. -/
structure Outcome (σ : Type) where
  result : Option RebuildRoutesResult
  err : Option Error
  state : σ
  trace : List Call

/-- Put calls made earlier in front of an outcome's trace. -/
def Outcome.after {σ : Type} (pre : List Call) (o : Outcome σ) : Outcome σ :=
  { o with trace := pre ++ o.trace }

/-- What a loop over router operations leaves behind: the error that stopped
it (if any), the strings accumulated so far, the world, the calls made. -/
structure LoopState (σ : Type) where
  err : Option Error
  acc : List String
  state : σ
  trace : List Call

/-- Lines 80-86: `AddRoute` for each entry, in the order `range` yields. -/
def addRoutes {σ : Type} (rt : Runtime) (r : Router σ) (name : String) :
    List URL → σ → LoopState σ
  | [], s => ⟨none, [], s, []⟩
  | toAddUrl :: rest, s =>
    match r.AddRoute name toAddUrl s with
    | (some e, s') => ⟨some e, [], s', [Call.AddRoute name toAddUrl (some e)]⟩
    | (none, s') =>
      let l := addRoutes rt r name rest s'
      ⟨l.err, rt.urlString toAddUrl :: l.acc, l.state,
        Call.AddRoute name toAddUrl none :: l.trace⟩

/-- Lines 87-93: `RemoveRoute` for each element of `toRemove`. -/
def removeRoutes {σ : Type} (rt : Runtime) (r : Router σ) (name : String) :
    List URL → σ → LoopState σ
  | [], s => ⟨none, [], s, []⟩
  | toRemoveUrl :: rest, s =>
    match r.RemoveRoute name toRemoveUrl s with
    | (some e, s') => ⟨some e, [], s', [Call.RemoveRoute name toRemoveUrl (some e)]⟩
    | (none, s') =>
      let l := removeRoutes rt r name rest s'
      ⟨l.err, rt.urlString toRemoveUrl :: l.acc, l.state,
        Call.RemoveRoute name toRemoveUrl none :: l.trace⟩

/-- Lines 79-96: apply the additions, then the removals. -/
def applyRoutes {σ : Type} (rt : Runtime) (r : Router σ) (name : String)
    (toAdd toRemove : List URL) (s : σ) : Outcome σ :=
  let a := addRoutes rt r name toAdd s
  match a.err with
  | some e => ⟨none, some e, a.state, a.trace⟩
  | none =>
    let d := removeRoutes rt r name toRemove a.state
    match d.err with
    | some e => ⟨none, some e, d.state, a.trace ++ d.trace⟩
    | none => ⟨some ⟨a.acc, d.acc⟩, none, d.state, a.trace ++ d.trace⟩

/-- The values `range expectedMap` yields once the old routes are diffed. -/
def toAddOf (rt : Runtime) (oldRoutes addresses : List URL) : List URL :=
  (rt.rangeOrder (diffRoutes oldRoutes (buildExpected addresses)).1).map Prod.snd

/-- The slice `toRemove` once the old routes are diffed. -/
def toRemoveOf (oldRoutes addresses : List URL) : List URL :=
  (diffRoutes oldRoutes (buildExpected addresses)).2

/-- Lines 57-96: fetch the routes and the addresses, diff, apply. -/
def reconcile {σ : Type} (rt : Runtime) (app : RebuildApp σ) (r : Router σ) (s : σ) :
    Outcome σ :=
  match r.Routes app.GetName s with
  | ((oldRoutes, some e), s1) => ⟨none, some e, s1, [Call.Routes app.GetName oldRoutes (some e)]⟩
  | ((oldRoutes, none), s1) =>
    match app.RoutableAddresses s1 with
    | ((addresses, some e), s2) =>
      ⟨none, some e, s2,
        [Call.Routes app.GetName oldRoutes none, Call.RoutableAddresses addresses (some e)]⟩
    | ((addresses, none), s2) =>
      (applyRoutes rt r app.GetName (toAddOf rt oldRoutes addresses)
          (toRemoveOf oldRoutes addresses) s2).after
        [Call.Routes app.GetName oldRoutes none, Call.RoutableAddresses addresses none]

/-- Line 52: `err != nil && err != router.ErrCNameExists`. -/
def cnameFatal (err : Option Error) : Bool :=
  match err with
  | none => false
  | some e => decide (e ≠ Error.ErrCNameExists)

/-- Lines 50-55: `SetCName` for each cname; `ErrCNameExists` is let through.
Returns the error that stopped the loop (if any), the world and the calls. -/
def bindCNames {σ : Type} (c : CNameRouter σ) (name : String) :
    List String → σ → Option Error × σ × List Call
  | [], s => (none, s, [])
  | cname :: rest, s =>
    if cnameFatal (c.SetCName cname name s).1 then
      ((c.SetCName cname name s).1, (c.SetCName cname name s).2,
        [Call.SetCName cname name (c.SetCName cname name s).1])
    else
      ((bindCNames c name rest (c.SetCName cname name s).2).1,
        (bindCNames c name rest (c.SetCName cname name s).2).2.1,
        Call.SetCName cname name (c.SetCName cname name s).1 ::
          (bindCNames c name rest (c.SetCName cname name s).2).2.2)

/-- Lines 49-96: the cname step, when the router has the capability, and the
route reconciliation after it. -/
def afterUpdateAddr {σ : Type} (rt : Runtime) (app : RebuildApp σ) (r : Router σ) (s : σ) :
    Outcome σ :=
  match r.asCNameRouter with
  | some cnameRouter =>
    match bindCNames cnameRouter app.GetName app.GetCname s with
    | (some e, s', tr) => ⟨none, some e, s', tr⟩
    | (none, s', tr) => (reconcile rt app r s').after tr
  | none => reconcile rt app r s

/-- Lines 45-96: everything after the backend is registered. -/
def afterBackend {σ : Type} (rt : Runtime) (app : RebuildApp σ) (r : Router σ) (s : σ) :
    Outcome σ :=
  match app.UpdateAddr s with
  | (some e, s') => ⟨none, some e, s', [Call.UpdateAddr (some e)]⟩
  | (none, s') => (afterUpdateAddr rt app r s').after [Call.UpdateAddr none]

/-- Lines 37-41: `AddBackendOpts` when the router is an `OptsRouter`,
`AddBackend` otherwise.  Returns the error, the world and the call made. -/
def registerBackend {σ : Type} (app : RebuildApp σ) (r : Router σ) (s : σ) :
    Option Error × σ × Call :=
  match r.asOptsRouter with
  | some optsRouter =>
    ((optsRouter.AddBackendOpts app.GetName app.GetRouterOpts s).1,
      (optsRouter.AddBackendOpts app.GetName app.GetRouterOpts s).2,
      Call.AddBackendOpts app.GetName app.GetRouterOpts
        (optsRouter.AddBackendOpts app.GetName app.GetRouterOpts s).1)
  | none =>
    ((r.AddBackend app.GetName s).1, (r.AddBackend app.GetName s).2,
      Call.AddBackend app.GetName (r.AddBackend app.GetName s).1)

/-- Line 42: `err != nil && err != router.ErrBackendExists`. -/
def backendFatal (err : Option Error) : Bool :=
  match err with
  | none => false
  | some e => decide (e ≠ Error.ErrBackendExists)

/-- Lines 37-96: register the backend and, unless that failed with something
other than `ErrBackendExists`, go on. -/
def withRouter {σ : Type} (rt : Runtime) (app : RebuildApp σ) (r : Router σ) (s : σ) :
    Outcome σ :=
  if backendFatal (registerBackend app r s).1 then
    ⟨none, (registerBackend app r s).1, (registerBackend app r s).2.1,
      [(registerBackend app r s).2.2]⟩
  else
    (afterBackend rt app r (registerBackend app r s).2.1).after [(registerBackend app r s).2.2]

/-- `func RebuildRoutes(app RebuildApp) (*RebuildRoutesResult, error)`. -/
def RebuildRoutes {σ : Type} (rt : Runtime) (app : RebuildApp σ) (s : σ) : Outcome σ :=
  match app.GetRouter s with
  | (Except.error e, s') => ⟨none, some e, s', [Call.GetRouter (some e)]⟩
  | (Except.ok r, s') => (withRouter rt app r s').after [Call.GetRouter none]

/-! ## Predicates used in the proofs -/

/-- The two facts that hold of `expectedMap` throughout: one entry per key,
and every entry is filed under the host of its address. -/
structure HostKeyed (m : HostMap) : Prop where
  nodup : (m.map Prod.fst).Nodup
  host : ∀ p ∈ m, p.2.Host = p.1

/-- The old routes that are not put on `toRemove`: each takes its host out of
the map. -/
def keptRoutes : List URL → HostMap → List URL
  | [], _ => []
  | url :: rest, m =>
    if mapHas m url.Host then url :: keptRoutes rest (mapDelete m url.Host)
    else keptRoutes rest m

/-! ## Reading a trace -/

/-- The place of a call in the order of steps: `GetRouter`, backend
registration, `UpdateAddr`, `SetCName`, `Routes`, `RoutableAddresses`,
`AddRoute`, `RemoveRoute`. -/
def Call.rank : Call → Nat
  | Call.GetRouter _ => 0
  | Call.AddBackend _ _ => 1
  | Call.AddBackendOpts _ _ _ => 1
  | Call.UpdateAddr _ => 2
  | Call.SetCName _ _ _ => 3
  | Call.Routes _ _ _ => 4
  | Call.RoutableAddresses _ _ => 5
  | Call.AddRoute _ _ _ => 6
  | Call.RemoveRoute _ _ _ => 7

/-- The error a call returned. -/
def Call.err : Call → Option Error
  | Call.GetRouter e => e
  | Call.AddBackend _ e => e
  | Call.AddBackendOpts _ _ e => e
  | Call.UpdateAddr e => e
  | Call.SetCName _ _ e => e
  | Call.Routes _ _ e => e
  | Call.RoutableAddresses _ e => e
  | Call.AddRoute _ _ e => e
  | Call.RemoveRoute _ _ e => e

/-- Whether what a call returned makes `RebuildRoutes` return: any error,
except `ErrBackendExists` from backend registration and `ErrCNameExists`
from `SetCName`. -/
def Call.fatal : Call → Bool
  | Call.AddBackend _ e => backendFatal e
  | Call.AddBackendOpts _ _ e => backendFatal e
  | Call.SetCName _ _ e => cnameFatal e
  | c => c.err.isSome

/-- The steps that sit in a loop and may be taken several times. -/
def Call.repeats : Call → Bool
  | Call.SetCName _ _ _ => true
  | Call.AddRoute _ _ _ => true
  | Call.RemoveRoute _ _ _ => true
  | _ => false

/-- The relation between a call and any call made later in the same pass: the
earlier one did not fail fatally, and it belongs to an earlier step or to
the same loop. -/
def Call.precedes (a b : Call) : Prop :=
  a.fatal = false ∧ (a.rank < b.rank ∨ (a.rank = b.rank ∧ a.repeats = true))

/-- The address of an `AddRoute` call. -/
def Call.added? : Call → Option URL
  | Call.AddRoute _ u _ => some u
  | _ => none

/-- The route of a `RemoveRoute` call. -/
def Call.removed? : Call → Option URL
  | Call.RemoveRoute _ u _ => some u
  | _ => none

/-- The cname of a `SetCName` call. -/
def Call.cname? : Call → Option String
  | Call.SetCName cname _ _ => some cname
  | _ => none

/-- The addresses passed to `AddRoute`, in call order. -/
def addedOf (trace : List Call) : List URL := trace.filterMap Call.added?

/-- The routes passed to `RemoveRoute`, in call order. -/
def removedOf (trace : List Call) : List URL := trace.filterMap Call.removed?

/-- The cnames passed to `SetCName`, in call order. -/
def cnamesOf (trace : List Call) : List String := trace.filterMap Call.cname?

/-- The backend-registration calls. -/
def Call.isBackend : Call → Bool
  | Call.AddBackend _ _ => true
  | Call.AddBackendOpts _ _ _ => true
  | _ => false

/-- The calls that change the route set: `AddRoute` and `RemoveRoute`. -/
def Call.isRouteOp : Call → Bool
  | Call.AddRoute _ _ _ => true
  | Call.RemoveRoute _ _ _ => true
  | _ => false

/-- The calls of the steps that come after `UpdateAddr`. -/
def Call.isAfterUpdateAddr : Call → Bool
  | Call.SetCName _ _ _ => true
  | Call.Routes _ _ _ => true
  | Call.RoutableAddresses _ _ => true
  | Call.AddRoute _ _ _ => true
  | Call.RemoveRoute _ _ _ => true
  | _ => false

/-! ## The cname loop taken to its end -/

/-- The world left behind when `SetCName` is called for each of `cnames` in
turn, starting in the world `s`, whatever the calls return. -/
def cnameWorld {σ : Type} (c : CNameRouter σ) (name : String) : List String → σ → σ
  | [], s => s
  | cname :: rest, s => cnameWorld c name rest (c.SetCName cname name s).2

/-- The calls made when `SetCName` is called for each of `cnames` in turn,
starting in the world `s`: each with the error the router returned in the
world the calls before it left. -/
def cnameCalls {σ : Type} (c : CNameRouter σ) (name : String) : List String → σ → List Call
  | [], _ => []
  | cname :: rest, s =>
    Call.SetCName cname name (c.SetCName cname name s).1 ::
      cnameCalls c name rest (c.SetCName cname name s).2

/-! ## The shape of a pass -/

/-- What holds of the outcome of the part of a pass that starts at step `lo`:
the calls are in step order and only the last one can have failed fatally,
no step other than the two optional ones (`SetCName`, `AddRoute`) is skipped,
and the returned pair is either a result with a nil error or a nil result
with the error of the last call. -/
structure Good {σ : Type} (lo : Nat) (o : Outcome σ) : Prop where
  sorted : o.trace.Pairwise Call.precedes
  lower : ∀ c ∈ o.trace, lo ≤ c.rank
  mandatory : ∀ c ∈ o.trace, ∀ k, lo ≤ k → k < c.rank → k ≠ 3 → k ≠ 6 →
    ∃ a ∈ o.trace, a.rank = k
  ok : o.err = none → (∃ res, o.result = some res) ∧ (∀ c ∈ o.trace, c.fatal = false) ∧
    (lo ≤ 5 → ∃ c ∈ o.trace, c.rank = 5)
  failed : ∀ e, o.err = some e → o.result = none ∧
    ∃ c, o.trace.getLast? = some c ∧ c.fatal = true ∧ c.err = some e

/-! ## Passes that get as far as the diff -/

/-- The pass fetched the routes `oldRoutes` and the addresses `addresses` and
went on to apply their diff: its outcome is that of lines 79-96 on the diff,
after calls of the steps before `Routes`. -/
def Reached {σ : Type} (rt : Runtime) (app : RebuildApp σ) (o : Outcome σ)
    (oldRoutes addresses : List URL) : Prop :=
  ∃ (r : Router σ) (s : σ) (pre : List Call), (∀ c ∈ pre, c.rank < 4) ∧
    o = (applyRoutes rt r app.GetName (toAddOf rt oldRoutes addresses)
      (toRemoveOf oldRoutes addresses) s).after
        (pre ++ [Call.Routes app.GetName oldRoutes none, Call.RoutableAddresses addresses none])

/-- What the trace and the result of a pass that got as far as the diff say
about the diff. -/
structure Applied {σ : Type} (rt : Runtime) (app : RebuildApp σ) (o : Outcome σ)
    (oldRoutes addresses : List URL) : Prop where
  added_prefix : addedOf o.trace <+: toAddOf rt oldRoutes addresses
  removed_prefix : removedOf o.trace <+: toRemoveOf oldRoutes addresses
  added_all : (∀ c ∈ o.trace, c.rank = 6 → c.err = none) →
    addedOf o.trace = toAddOf rt oldRoutes addresses
  removed_after : removedOf o.trace ≠ [] → addedOf o.trace = toAddOf rt oldRoutes addresses
  done : o.err = none → addedOf o.trace = toAddOf rt oldRoutes addresses ∧
    removedOf o.trace = toRemoveOf oldRoutes addresses ∧
    o.result = some ⟨(toAddOf rt oldRoutes addresses).map rt.urlString,
      (toRemoveOf oldRoutes addresses).map rt.urlString⟩
  fetched : ∀ n l e, Call.Routes n l e ∈ o.trace → n = app.GetName ∧ l = oldRoutes ∧ e = none
  names : ∀ n u e, Call.AddRoute n u e ∈ o.trace ∨ Call.RemoveRoute n u e ∈ o.trace →
    n = app.GetName

/-! ## Worlds in which only route operations touch the routes -/

/-- For a router: neither backend registration, nor `SetCName`, nor `Routes`
changes what `obs` sees of the world. -/
structure RouterFrame {σ β : Type} (app : RebuildApp σ) (r : Router σ) (obs : σ → β) :
    Prop where
  backend : ∀ s, obs (registerBackend app r s).2.1 = obs s
  setCName : ∀ c, r.asCNameRouter = some c →
    ∀ cname s, obs (c.SetCName cname app.GetName s).2 = obs s
  routes : ∀ s, obs (r.Routes app.GetName s).2 = obs s

/-- For an application: no call other than `AddRoute` and `RemoveRoute`
changes what `obs` sees of the world. -/
structure Frame {σ β : Type} (app : RebuildApp σ) (obs : σ → β) : Prop where
  getRouter : ∀ s, obs (app.GetRouter s).2 = obs s
  updateAddr : ∀ s, obs (app.UpdateAddr s).2 = obs s
  addresses : ∀ s, obs (app.RoutableAddresses s).2 = obs s
  router : ∀ s r, (app.GetRouter s).1 = Except.ok r → RouterFrame app r obs

/-- The steps before `Routes` all went through: with the router `r`, from
the world `s` to the world `s4`, making the calls `pre`. -/
structure Prelude {σ : Type} (app : RebuildApp σ) (s : σ) (r : Router σ) (s4 : σ)
    (pre : List Call) : Prop where
  router : (app.GetRouter s).1 = Except.ok r
  frame : ∀ (β : Type) (obs : σ → β), Frame app obs → obs s4 = obs s
  early : ∀ c ∈ pre, c.rank < 4
  backend : ∃ s1, backendFatal (registerBackend app r s1).1 = false
  updateAddr : ∃ s2, (app.UpdateAddr s2).1 = none
  setCName : ∀ c, r.asCNameRouter = some c →
    ∀ cn ∈ app.GetCname, ∃ s3, cnameFatal (c.SetCName cn app.GetName s3).1 = false

/-- One of the steps before `Routes` fails: `GetRouter`, or with the router
it returned the backend registration, `UpdateAddr` or the cname loop. -/
def PreludeFails {σ : Type} (app : RebuildApp σ) (s : σ) : Prop :=
  (∃ e, (app.GetRouter s).1 = Except.error e) ∨
    ∃ r, (app.GetRouter s).1 = Except.ok r ∧
      ((∃ s1, backendFatal (registerBackend app r s1).1 = true) ∨
        (∃ s2 e, (app.UpdateAddr s2).1 = some e) ∨
        ∃ c s3 e, r.asCNameRouter = some c ∧
          (bindCNames c app.GetName app.GetCname s3).1 = some e)

/-! ## Routers that faithfully reflect the route operations -/

/-- The application `app`, whose desired addresses are `addresses`, is routed
by `r`, and `r` faithfully reflects the operations applied to it: the world
holds a set of routes `routeSet` for the application that `Routes` lists
(each route once), `AddRoute` adds to, `RemoveRoute` takes from, and no other
call changes. -/
structure Faithful {σ : Type} (app : RebuildApp σ) (r : Router σ)
    (routeSet : σ → Finset URL) (addresses : List URL) : Prop where
  router : ∀ s, (app.GetRouter s).1 = Except.ok r
  frame : Frame app routeSet
  listing : ∀ s, (r.Routes app.GetName s).1.2 = none ∧
    (r.Routes app.GetName s).1.1.Nodup ∧ (r.Routes app.GetName s).1.1.toFinset = routeSet s
  addRoute : ∀ s u, (r.AddRoute app.GetName u s).1 = none →
    routeSet (r.AddRoute app.GetName u s).2 = insert u (routeSet s)
  removeRoute : ∀ s u, (r.RemoveRoute app.GetName u s).1 = none →
    routeSet (r.RemoveRoute app.GetName u s).2 = (routeSet s).erase u
  desired : ∀ s, (app.RoutableAddresses s).1 = (addresses, none)

/-- Whether one of the steps before `Routes` fails does not depend on the
world in which it is taken. -/
structure Repeatable {σ : Type} (app : RebuildApp σ) (r : Router σ) : Prop where
  backend : ∀ s s', backendFatal (registerBackend app r s).1 =
    backendFatal (registerBackend app r s').1
  updateAddr : ∀ s s', (app.UpdateAddr s).1 = none → (app.UpdateAddr s').1 = none
  setCName : ∀ c, r.asCNameRouter = some c → ∀ cname s s',
    cnameFatal (c.SetCName cname app.GetName s).1 =
      cnameFatal (c.SetCName cname app.GetName s').1

/-- The routes a faithful router holds after a pass without error: the kept
ones and the added ones. -/
def finalRoutes (rt : Runtime) (oldRoutes addresses : List URL) : List URL :=
  keptRoutes oldRoutes (buildExpected addresses) ++ toAddOf rt oldRoutes addresses

/-! ## A router kept in memory, for concrete runs -/

/-- A router whose state is the list of routes of the one backend it has.
Registering the backend again and binding a cname again report the two
tolerated errors. -/
def memRouter : Router (List URL) where
  AddBackend := fun _ s => (some Error.ErrBackendExists, s)
  AddRoute := fun _ u s => (none, s ++ [u])
  RemoveRoute := fun _ u s => (none, s.filter (fun v => decide (v ≠ u)))
  Routes := fun _ s => ((s.dedup, none), s)
  asOptsRouter := none
  asCNameRouter := some ⟨fun _ _ s => (some Error.ErrCNameExists, s)⟩

/-- An application called `app` with the given addresses and cnames, routed
by `memRouter`. -/
def memApp (addresses : List URL) (cnames : List String) : RebuildApp (List URL) where
  GetRouterOpts := []
  GetName := "app"
  GetCname := cnames
  GetRouter := fun s => (Except.ok memRouter, s)
  RoutableAddresses := fun s => ((addresses, none), s)
  UpdateAddr := fun s => (none, s)

/-- A runtime whose `range` visits the entries in the order they are stored. -/
def plainRuntime : Runtime where
  urlString := fun u => u.Scheme ++ "://" ++ u.Host ++ u.Path
  rangeOrder := id
  rangeOrder_perm := fun m => List.Perm.refl m

/-- Three addresses on three hosts. -/
def urlA : URL := ⟨"http", "10.0.0.1:8080", ""⟩

/-- The second address. -/
def urlB : URL := ⟨"http", "10.0.0.2:8080", ""⟩

/-- The third address. -/
def urlC : URL := ⟨"http", "10.0.0.3:8080", ""⟩

/-- The second address over another scheme: same host, another address. -/
def urlB2 : URL := ⟨"https", "10.0.0.2:8080", ""⟩

/-- A router like `memRouter` whose `AddRoute` always fails. -/
def brokenRouter : Router (List URL) where
  AddBackend := fun _ s => (none, s)
  AddRoute := fun _ _ s => (some (Error.other "backend down"), s)
  RemoveRoute := fun _ u s => (none, s.filter (fun v => decide (v ≠ u)))
  Routes := fun _ s => ((s.dedup, none), s)
  asOptsRouter := none
  asCNameRouter := none

/-- An application routed by `brokenRouter`. -/
def brokenApp (addresses : List URL) : RebuildApp (List URL) where
  GetRouterOpts := []
  GetName := "app"
  GetCname := []
  GetRouter := fun s => (Except.ok brokenRouter, s)
  RoutableAddresses := fun s => ((addresses, none), s)
  UpdateAddr := fun s => (none, s)

/-- An application routed by `memRouter` whose `UpdateAddr` always fails. -/
def stuckApp (addresses : List URL) : RebuildApp (List URL) where
  GetRouterOpts := []
  GetName := "app"
  GetCname := []
  GetRouter := fun s => (Except.ok memRouter, s)
  RoutableAddresses := fun s => ((addresses, none), s)
  UpdateAddr := fun s => (some (Error.other "no address"), s)

/-! ## A router that keeps a registry, for concrete runs -/

/-- The world of a router that keeps track of its backends (each with the
options it was registered with) and of the cnames bound, as well as of the
routes, which it stores and lists as they come, the same route twice if it
was stored twice. -/
structure Registry where
  backends : List (String × Opts)
  cnames : List String
  routes : List URL
deriving DecidableEq, Repr

/-- Whether a backend of that name is registered. -/
def Registry.hasBackend (s : Registry) (name : String) : Bool :=
  s.backends.any (fun b => b.1 == name)

/-- The `CNameRouter` capability over a registry: a cname is bound unless it
is empty (an error) or bound already (`ErrCNameExists`). -/
def registryCNames : CNameRouter Registry where
  SetCName := fun cname _ s =>
    if cname = "" then (some (Error.other "invalid cname"), s)
    else if cname ∈ s.cnames then (some Error.ErrCNameExists, s)
    else (none, { s with cnames := s.cnames ++ [cname] })

/-- A router over a registry.  A backend is registered unless its name is
empty (an error) or taken (`ErrBackendExists`); cnames are bound as above;
`RemoveRoute` takes out every stored route equal to its argument. -/
def registryRouter : Router Registry where
  AddBackend := fun name s =>
    if name = "" then (some (Error.other "invalid backend name"), s)
    else if s.hasBackend name then (some Error.ErrBackendExists, s)
    else (none, { s with backends := s.backends ++ [(name, [])] })
  AddRoute := fun _ u s => (none, { s with routes := s.routes ++ [u] })
  RemoveRoute := fun _ u s =>
    (none, { s with routes := s.routes.filter (fun v => decide (v ≠ u)) })
  Routes := fun _ s => ((s.routes, none), s)
  asOptsRouter := none
  asCNameRouter := some registryCNames

/-- The same router with the `OptsRouter` capability: the backend is
registered with the options given. -/
def registryOptsRouter : Router Registry :=
  { registryRouter with
    asOptsRouter := some ⟨fun name opts s =>
      if name = "" then (some (Error.other "invalid backend name"), s)
      else if s.hasBackend name then (some Error.ErrBackendExists, s)
      else (none, { s with backends := s.backends ++ [(name, opts)] })⟩ }

/-- An application with the given name, options, addresses and cnames,
routed by `r`. -/
def registryApp (r : Router Registry) (name : String) (opts : Opts)
    (addresses : List URL) (cnames : List String) : RebuildApp Registry where
  GetRouterOpts := opts
  GetName := name
  GetCname := cnames
  GetRouter := fun s => (Except.ok r, s)
  RoutableAddresses := fun s => ((addresses, none), s)
  UpdateAddr := fun s => (none, s)

end Rebuild

namespace Kubernetes

/-! ## Polling, pod readiness, cleanup and naming (`provision/kubernetes`)

The functions of this package are known here from their tests
(`helpers_test.go`) and from the specification.  Time is counted in polls: a
cluster is seen as the sequence of states it shows at the successive polls. -/

/-- A `time.Duration` as far as polling needs it: the number of further
polls that fit in the window after the first one, and its `%v` text. -/
structure Duration where
  polls : Nat
  text : String
deriving DecidableEq, Repr

/-- What a wait returns (an error message, or none for nil) and how many
times it evaluated its predicate. -/
structure WaitResult where
  err : Option String
  evaluations : Nat
deriving DecidableEq, Repr

/-- Modelled from the spec: the loop of `waitFor` (BoundedPoll, §4.1), whose
source is not in the repository.  The predicate is evaluated; an error is
returned as it is, also when `done` is true (`TestWaitFor`, third case);
`done` without error ends the wait with nil; otherwise the wait goes on to
the next poll if one is left in the window and fails with
`timeout after <duration>` if none is.  `fn i` is what the `i`-th evaluation
of the predicate returns. -/
def waitForFrom (text : String) (fn : Nat → Bool × Option String) : Nat → Nat → WaitResult
  | 0, i =>
    match fn i with
    | (_, some e) => ⟨some e, i + 1⟩
    | (true, none) => ⟨none, i + 1⟩
    | (false, none) => ⟨some ("timeout after " ++ text), i + 1⟩
  | left + 1, i =>
    match fn i with
    | (_, some e) => ⟨some e, i + 1⟩
    | (true, none) => ⟨none, i + 1⟩
    | (false, none) => waitForFrom text fn left (i + 1)

/-- Modelled from the spec: `waitFor(timeout, fn)` (BoundedPoll, §4.1), whose
source is not in the repository: the loop above, from the first evaluation,
with the polls that fit in `timeout`. -/
def waitFor (timeout : Duration) (fn : Nat → Bool × Option String) : WaitResult :=
  waitForFrom timeout.text fn timeout.polls 0

/-- `v1.PodPhase`. -/
inductive PodPhase where
  | Pending
  | Running
  | Succeeded
  | Failed
  | Unknown
deriving DecidableEq, Repr

/-- The string value of a `v1.PodPhase`. -/
def PodPhase.text : PodPhase → String
  | PodPhase.Pending => "Pending"
  | PodPhase.Running => "Running"
  | PodPhase.Succeeded => "Succeeded"
  | PodPhase.Failed => "Failed"
  | PodPhase.Unknown => "Unknown"

/-- `v1.ContainerStateTerminated`, the fields that are reported. -/
structure ContainerStateTerminated where
  ExitCode : Int
  Reason : String
  Message : String
deriving DecidableEq, Repr

/-- `v1.ContainerState`: `Running` says whether the pointer of that name is
set, `Terminated` is the pointer of that name; both unset is a container
that is neither running nor terminated. -/
structure ContainerState where
  Running : Bool
  Terminated : Option ContainerStateTerminated
deriving DecidableEq, Repr

/-- `v1.ContainerStatus`, the fields the tests set. -/
structure ContainerStatus where
  Name : String
  State : ContainerState
deriving DecidableEq, Repr

/-- `v1.Pod`, the fields the tests set: name and labels of its metadata,
phase, message and container statuses of its status. -/
structure Pod where
  Name : String
  Labels : List (String × String)
  Phase : PodPhase
  Message : String
  ContainerStatuses : List ContainerStatus
deriving DecidableEq, Repr

/-- `v1.Event`, the fields the tests set: kind and name of the involved
object, and the message. -/
structure Event where
  InvolvedKind : String
  InvolvedName : String
  Message : String
deriving DecidableEq, Repr

/-- The pods and the events of the one namespace of a cluster, events in the
order they were recorded. -/
structure Cluster where
  pods : List Pod
  events : List Event
deriving DecidableEq, Repr

/-- The text `%q` gives for a string with nothing to escape. -/
def quote (s : String) : String :=
  "\"" ++ s ++ "\""

/-- Modelled from the spec: ReadinessOutcome (§3, §9), the result of one
poll, whose declaration is not in the repository. -/
inductive ReadinessOutcome where
  | Pending
  | Ready
  | Fatal (reason : String)
deriving DecidableEq, Repr

/-- Modelled from the spec: what a poll returns to `waitFor` for an outcome,
`(done, err)`; the polls themselves are not in the repository. -/
def ReadinessOutcome.toPoll : ReadinessOutcome → Bool × Option String
  | ReadinessOutcome.Pending => (false, none)
  | ReadinessOutcome.Ready => (true, none)
  | ReadinessOutcome.Fatal reason => (true, some reason)

/-- Fetching a pod by name. -/
def getPod (c : Cluster) (name : String) : Option Pod :=
  c.pods.find? (fun p => p.Name == name)

/-- Modelled from the spec: the event lookup of §4.2, whose source is not in
the repository: the most recent cluster event that has the pod as its
involved object. -/
def lastEventFor (c : Cluster) (name : String) : Option Event :=
  (c.events.filter (fun e => e.InvolvedKind == "Pod" && e.InvolvedName == name)).getLast?

/-- Modelled from the spec: the reason reported for a pod in phase `Failed`
(§4.2), whose source is not in the repository: the event's message if an
event is found, otherwise the pod's status message, otherwise the phase
alone; the three texts are those `TestWaitForPod` expects. -/
def failedReason (c : Cluster) (pod : Pod) : String :=
  match lastEventFor c pod.Name with
  | some evt => "invalid pod phase " ++ quote pod.Phase.text ++ ": " ++ evt.Message
  | none =>
    if pod.Message = "" then "invalid pod phase " ++ quote pod.Phase.text
    else "invalid pod phase " ++ quote pod.Phase.text ++ "(" ++ quote pod.Message ++ ")"

/-- Modelled from the spec: one poll of `waitForPod` (§4.2), whose source is
not in the repository.  The pod is fetched; an absent pod is fatal, before
any look at phases; `Succeeded` is success; `Pending` is polled again;
`Running` is success in running mode and polled again otherwise; `Unknown`
is fatal with the phase alone (`TestWaitForPod`); `Failed` is fatal with the
reason above. -/
def classifyPod (c : Cluster) (name : String) (running : Bool) : ReadinessOutcome :=
  match getPod c name with
  | none => ReadinessOutcome.Fatal ("Pod " ++ quote name ++ " not found")
  | some pod =>
    match pod.Phase with
    | PodPhase.Succeeded => ReadinessOutcome.Ready
    | PodPhase.Pending => ReadinessOutcome.Pending
    | PodPhase.Running => if running then ReadinessOutcome.Ready else ReadinessOutcome.Pending
    | PodPhase.Unknown =>
      ReadinessOutcome.Fatal ("invalid pod phase " ++ quote PodPhase.Unknown.text)
    | PodPhase.Failed => ReadinessOutcome.Fatal (failedReason c pod)

/-- Modelled from the spec: `waitForPod(client, podName, running, timeout)`
(§4.2), whose source is not in the repository: the poll above under
`waitFor`.  `cluster i` is the cluster as the `i`-th poll sees it. -/
def waitForPod (cluster : Nat → Cluster) (podName : String) (running : Bool)
    (timeout : Duration) : WaitResult :=
  waitFor timeout (fun i => (classifyPod (cluster i) podName running).toPoll)

/-- Modelled from the spec: the first container status, in list order, that
is in the terminated state (§4.2); the loop over the statuses is not in the
repository. -/
def firstTerminated : List ContainerStatus → Option (ContainerStatus × ContainerStateTerminated)
  | [] => none
  | st :: rest =>
    match st.State.Terminated with
    | some t => some (st, t)
    | none => firstTerminated rest

/-- Modelled from the spec: the reason reported for a terminated container
(§4.2), whose source is not in the repository. -/
def terminationReason (st : ContainerStatus) (t : ContainerStateTerminated) : String :=
  "unexpected container " ++ quote st.Name ++ " termination: Exit " ++ toString t.ExitCode ++
    " - Reason: " ++ quote t.Reason ++ " - Message: " ++ quote t.Message

/-- Modelled from the spec: the classification of a vector of container
statuses (§4.2), whose source is not in the repository: a terminated
container is fatal, whatever the others do; otherwise all running is
success; otherwise the pod is polled again. -/
def classifyContainers (statuses : List ContainerStatus) : ReadinessOutcome :=
  match firstTerminated statuses with
  | some (st, t) => ReadinessOutcome.Fatal (terminationReason st t)
  | none =>
    if statuses.all (fun st => st.State.Running) then ReadinessOutcome.Ready
    else ReadinessOutcome.Pending

/-- Modelled from the spec: one poll of `waitForPodContainersRunning` (§4.2),
whose source is not in the repository: the poll of `waitForPod` in running
mode and, where that one is satisfied, the classification of the pod's
container statuses. -/
def classifyRunning (c : Cluster) (name : String) : ReadinessOutcome :=
  match classifyPod c name true with
  | ReadinessOutcome.Ready =>
    match getPod c name with
    | some pod => classifyContainers pod.ContainerStatuses
    | none => ReadinessOutcome.Fatal ("Pod " ++ quote name ++ " not found")
  | other => other

/-- Modelled from the spec: `waitForPodContainersRunning(client, podName,
timeout)` (§4.2), whose source is not in the repository. -/
def waitForPodContainersRunning (cluster : Nat → Cluster) (podName : String)
    (timeout : Duration) : WaitResult :=
  waitFor timeout (fun i => (classifyRunning (cluster i) podName).toPoll)

/-- A label selector made of equalities, `a=x,b=y` being `[("a", "x"),
("b", "y")]`: the labels match when each key has the value asked for. -/
def selectorMatches (selector labels : List (String × String)) : Bool :=
  selector.all (fun q => labels.lookup q.1 == some q.2)

/-- What a delete can fail with: the not-found condition, which callers can
tell from any other error. -/
inductive DeleteError where
  | NotFound
  | Other (msg : String)
deriving DecidableEq, Repr

/-- Deleting a pod by name.  A pod that is not there is not found; a pod that
is there is taken out unless the cluster refuses, which `fail` decides. -/
def deletePod (fail : String → Option String) (name : String) (c : Cluster) :
    Option DeleteError × Cluster :=
  match getPod c name with
  | none => (some DeleteError.NotFound, c)
  | some _ =>
    match fail name with
    | some e => (some (DeleteError.Other e), c)
    | none => (none, { c with pods := c.pods.filter (fun p => !(p.Name == name)) })

/-- Modelled from the spec: the batch of deletes of a selector-scoped cleanup
(ResourceReaper, §4.3), whose source is not in the repository: the pods are
deleted one by one; not-found is let through, any other failure stops the
batch and is returned. -/
def deletePods (fail : String → Option String) : List String → Cluster → Option String × Cluster
  | [], c => (none, c)
  | name :: rest, c =>
    match deletePod fail name c with
    | (some (DeleteError.Other e), c') => (some e, c')
    | (_, c') => deletePods fail rest c'

/-- Modelled from the spec: `cleanupPods(client, opts)` (ResourceReaper,
§4.3), whose source is not in the repository: the pods matching the label
selector are listed, then deleted by name. -/
def cleanupPods (fail : String → Option String) (selector : List (String × String))
    (c : Cluster) : Option String × Cluster :=
  deletePods fail
    ((c.pods.filter (fun p => selectorMatches selector p.Labels)).map Pod.Name) c

/-- `metav1.ObjectMeta`, its two maps. -/
structure ObjectMeta where
  Labels : List (String × String)
  Annotations : List (String × String)
deriving DecidableEq, Repr

/-- `provision.LabelSet`, as `TestLabelSetFromMeta` builds it. -/
structure LabelSet where
  Labels : List (String × String)
  Prefix : String
deriving DecidableEq, Repr

/-- Modelled from the spec: the constant `tsuruLabelPrefix`, whose
declaration is not in the repository; the tests write the prefixed keys as
`tsuru.io/...`. -/
def tsuruLabelPrefix : String := "tsuru.io/"

/-- `m[k] = v` on a map of strings. -/
def setKey (m : List (String × String)) (k v : String) : List (String × String) :=
  m.filter (fun p => !(p.1 == k)) ++ [(k, v)]

/-- Modelled from the spec: `labelSetFromMeta(meta)` (LabelSetBuilder, §4.4),
whose source is not in the repository: the entries of the labels, then those
of the annotations, are put into one map, which goes with the platform
prefix. -/
def labelSetFromMeta (meta : ObjectMeta) : LabelSet :=
  ⟨(meta.Labels ++ meta.Annotations).foldl (fun m p => setKey m p.1 p.2) [], tsuruLabelPrefix⟩

/-- Modelled from the spec: underscores become hyphens (§8); the replacement
is not in the repository. -/
def hyphenate (c : Char) : Char :=
  if c = '_' then '-' else c

/-- Modelled from the spec: the normalisation of a name that goes into a
resource name (§8), whose source is not in the repository: underscores are
replaced by hyphens and the result is put in lower case. -/
def kubeName (s : String) : String :=
  String.mk ((s.data.map hyphenate).map Char.toLower)

/-- Modelled from the spec: `deploymentNameForApp(a, process)` (§8), whose
source is not in the repository, on the name of the application: the two
normalised names joined by a hyphen. -/
def deploymentNameForApp (appName process : String) : String :=
  kubeName appName ++ "-" ++ kubeName process

/-- The pod of the tests, `pod1`, with a phase, a status message and
container statuses. -/
def testPod (phase : PodPhase) (message : String) (statuses : List ContainerStatus) : Pod :=
  ⟨"pod1", [], phase, message, statuses⟩

/-- A pod of `TestCleanupPods`: a name and the label `a`. -/
def labelledPod (name value : String) : Pod :=
  ⟨name, [("a", value)], PodPhase.Running, "", []⟩

end Kubernetes

namespace Rebuild

/-! ## The map of expected hosts -/

theorem mapHas_iff (m : HostMap) (k : String) :
    mapHas m k = true ↔ k ∈ m.map Prod.fst := by
  induction m with
  | nil => simp [mapHas]
  | cons p m ih =>
    simp only [mapHas, List.any_cons, Bool.or_eq_true, beq_iff_eq, List.map_cons,
      List.mem_cons] at ih ⊢
    rw [ih]
    constructor
    · rintro (h | h)
      · exact Or.inl h.symm
      · exact Or.inr h
    · rintro (h | h)
      · exact Or.inl h.symm
      · exact Or.inr h

theorem mem_mapDelete (m : HostMap) (k : String) (p : String × URL) :
    p ∈ mapDelete m k ↔ p ∈ m ∧ p.1 ≠ k := by
  simp [mapDelete]

theorem keys_mapDelete (m : HostMap) (k : String) :
    (mapDelete m k).map Prod.fst = (m.map Prod.fst).filter (fun h => !(h == k)) := by
  simp [mapDelete, List.filter_map, Function.comp_def]

theorem mapDelete_of_not_mem (m : HostMap) (k : String) (h : k ∉ m.map Prod.fst) :
    mapDelete m k = m := by
  rw [mapDelete, List.filter_eq_self]
  intro p hp
  have : p.1 ≠ k := fun e => h (e ▸ List.mem_map_of_mem Prod.fst hp)
  simpa using this

theorem HostKeyed.nil : HostKeyed [] :=
  ⟨by simp, by simp⟩

theorem HostKeyed.mapDelete {m : HostMap} (hm : HostKeyed m) (k : String) :
    HostKeyed (mapDelete m k) := by
  refine ⟨?_, ?_⟩
  · rw [keys_mapDelete]
    exact hm.nodup.filter _
  · intro p hp
    exact hm.host p ((mem_mapDelete m k p).1 hp).1

theorem HostKeyed.mapSet {m : HostMap} (hm : HostKeyed m) (a : URL) :
    HostKeyed (mapSet m a.Host a) := by
  refine ⟨?_, ?_⟩
  · simp only [Rebuild.mapSet, List.map_append, List.map_cons, List.map_nil]
    rw [List.nodup_append]
    refine ⟨(hm.mapDelete a.Host).nodup, by simp, ?_⟩
    intro k hk hk'
    rw [keys_mapDelete] at hk
    simp only [List.mem_singleton] at hk'
    simp [hk'] at hk
  · intro p hp
    simp only [Rebuild.mapSet, List.mem_append, List.mem_singleton] at hp
    rcases hp with hp | hp
    · exact (hm.mapDelete a.Host).host p hp
    · simp [hp]

theorem mem_keys_mapSet (m : HostMap) (k : String) (v : URL) (h : String) :
    h ∈ (mapSet m k v).map Prod.fst ↔ h ∈ m.map Prod.fst ∨ h = k := by
  simp only [mapSet, List.map_append, List.mem_append, keys_mapDelete, List.mem_filter,
    List.map_cons, List.map_nil, List.mem_singleton]
  by_cases e : h = k <;> simp [e]

theorem foldl_mapSet_keyed (addresses : List URL) :
    ∀ m : HostMap, HostKeyed m →
      HostKeyed (addresses.foldl (fun m addr => mapSet m addr.Host addr) m) := by
  induction addresses with
  | nil => intro m hm; simpa using hm
  | cons a rest ih => intro m hm; exact ih _ (hm.mapSet a)

theorem mem_keys_foldl_mapSet (addresses : List URL) (h : String) :
    ∀ m : HostMap,
      h ∈ (addresses.foldl (fun m addr => mapSet m addr.Host addr) m).map Prod.fst ↔
        h ∈ m.map Prod.fst ∨ h ∈ addresses.map URL.Host := by
  induction addresses with
  | nil => intro m; simp
  | cons a rest ih =>
    intro m
    rw [List.foldl_cons, ih, mem_keys_mapSet]
    simp only [List.map_cons, List.mem_cons]
    tauto

theorem mem_foldl_mapSet (addresses : List URL) (p : String × URL) :
    ∀ m : HostMap, p ∈ addresses.foldl (fun m addr => mapSet m addr.Host addr) m →
      p ∈ m ∨ p.2 ∈ addresses := by
  induction addresses with
  | nil => intro m hp; exact Or.inl (by simpa using hp)
  | cons a rest ih =>
    intro m hp
    rcases ih _ hp with h | h
    · simp only [mapSet, List.mem_append, List.mem_singleton] at h
      rcases h with h | h
      · exact Or.inl ((mem_mapDelete m a.Host p).1 h).1
      · exact Or.inr (by simp [h])
    · exact Or.inr (List.mem_cons_of_mem _ h)

theorem buildExpected_keyed (addresses : List URL) : HostKeyed (buildExpected addresses) :=
  foldl_mapSet_keyed addresses [] HostKeyed.nil

theorem mem_keys_buildExpected (addresses : List URL) (h : String) :
    h ∈ (buildExpected addresses).map Prod.fst ↔ h ∈ addresses.map URL.Host := by
  simpa using mem_keys_foldl_mapSet addresses h []

theorem mem_buildExpected (addresses : List URL) (p : String × URL)
    (hp : p ∈ buildExpected addresses) : p.2 ∈ addresses := by
  simpa using mem_foldl_mapSet addresses p [] hp

/-! ## The diff of the old routes against the expected hosts -/

theorem diffRoutes_fst (routes : List URL) :
    ∀ m : HostMap, (diffRoutes routes m).1 =
      m.filter (fun p => decide (p.1 ∉ routes.map URL.Host)) := by
  induction routes with
  | nil => intro m; simp [diffRoutes]
  | cons u rest ih =>
    intro m
    rw [diffRoutes]
    split
    · rw [ih, mapDelete, List.filter_filter]
      apply List.filter_congr
      intro p _
      by_cases e : p.1 = u.Host <;> simp [e]
    · rename_i hu
      rw [ih]
      apply List.filter_congr
      intro p hp
      have : p.1 ≠ u.Host := by
        intro e
        exact hu ((mapHas_iff m u.Host).2 (e ▸ List.mem_map_of_mem Prod.fst hp))
      simp [this]

theorem diffRoutes_append (pre post : List URL) :
    ∀ m : HostMap, diffRoutes (pre ++ post) m =
      ((diffRoutes post (diffRoutes pre m).1).1,
        (diffRoutes pre m).2 ++ (diffRoutes post (diffRoutes pre m).1).2) := by
  induction pre with
  | nil => intro m; simp [diffRoutes]
  | cons u rest ih =>
    intro m
    rw [List.cons_append, diffRoutes, diffRoutes]
    split
    · rw [ih]
    · rw [ih]; simp

theorem diffRoutes_snd_sublist (routes : List URL) :
    ∀ m : HostMap, (diffRoutes routes m).2.Sublist routes := by
  induction routes with
  | nil => intro m; simp [diffRoutes]
  | cons u rest ih =>
    intro m
    rw [diffRoutes]
    split
    · exact (ih _).cons u
    · exact (ih m).cons₂ u

theorem keptRoutes_perm (routes : List URL) :
    ∀ m : HostMap, routes.Perm (keptRoutes routes m ++ (diffRoutes routes m).2) := by
  induction routes with
  | nil => intro m; simp [diffRoutes, keptRoutes]
  | cons u rest ih =>
    intro m
    rw [diffRoutes, keptRoutes]
    split
    · simpa using (ih (mapDelete m u.Host)).cons u
    · exact ((ih m).cons u).trans List.perm_middle.symm

theorem mem_hosts_keptRoutes (routes : List URL) (h : String) :
    ∀ m : HostMap, h ∈ (keptRoutes routes m).map URL.Host ↔
      h ∈ m.map Prod.fst ∧ h ∈ routes.map URL.Host := by
  induction routes with
  | nil => intro m; simp [keptRoutes]
  | cons u rest ih =>
    intro m
    rw [keptRoutes]
    split
    · rename_i hu
      have hu' := (mapHas_iff m u.Host).1 hu
      simp only [List.map_cons, List.mem_cons, ih, keys_mapDelete, List.mem_filter]
      by_cases e : h = u.Host
      · subst e; simp [hu']
      · simp [e]
    · rename_i hu
      have hu' : u.Host ∉ m.map Prod.fst := fun c => hu ((mapHas_iff m u.Host).2 c)
      simp only [List.map_cons, List.mem_cons, ih]
      constructor
      · rintro ⟨a, b⟩; exact ⟨a, Or.inr b⟩
      · rintro ⟨a, b | b⟩
        · exact absurd (b ▸ a) hu'
        · exact ⟨a, b⟩

theorem keptRoutes_hosts_nodup (routes : List URL) :
    ∀ m : HostMap, ((keptRoutes routes m).map URL.Host).Nodup := by
  induction routes with
  | nil => intro m; simp [keptRoutes]
  | cons u rest ih =>
    intro m
    rw [keptRoutes]
    split
    · rw [List.map_cons, List.nodup_cons]
      refine ⟨?_, ih _⟩
      rw [mem_hosts_keptRoutes, keys_mapDelete]
      simp
    · exact ih m

/-- A route at a given place of the list is put on `toRemove` unless its host
is expected and no earlier route has that host. -/
theorem diffRoutes_snd_split (pre post : List URL) (u : URL) (m : HostMap) :
    (diffRoutes (pre ++ u :: post) m).2 =
      (diffRoutes pre m).2 ++
        ((if u.Host ∈ m.map Prod.fst ∧ u.Host ∉ pre.map URL.Host then [] else [u]) ++
          (diffRoutes post (diffRoutes (pre ++ [u]) m).1).2) := by
  have hsplit : pre ++ u :: post = (pre ++ [u]) ++ post := by simp
  rw [hsplit, diffRoutes_append (pre ++ [u]) post, diffRoutes_append pre [u]]
  simp only [diffRoutes, List.append_assoc]
  have hhas : mapHas (diffRoutes pre m).1 u.Host = true ↔
      (u.Host ∈ m.map Prod.fst ∧ u.Host ∉ pre.map URL.Host) := by
    rw [mapHas_iff, diffRoutes_fst]
    simp only [List.mem_map, List.mem_filter, decide_eq_true_eq]
    constructor
    · rintro ⟨p, ⟨hp, hn⟩, e⟩
      exact ⟨⟨p, hp, e⟩, e ▸ hn⟩
    · rintro ⟨⟨p, hp, e⟩, hn⟩
      exact ⟨p, ⟨hp, e ▸ hn⟩, e⟩
  by_cases c : mapHas (diffRoutes pre m).1 u.Host = true
  · simp [c, hhas.1 c]
  · have c' : ¬(u.Host ∈ m.map Prod.fst ∧ u.Host ∉ pre.map URL.Host) := fun x => c (hhas.2 x)
    rw [if_neg c']
    simp [c]

/-! ## The two route loops -/

theorem addRoutes_ok {σ : Type} (rt : Runtime) (r : Router σ) (name : String) (l : List URL) :
    ∀ s : σ, (addRoutes rt r name l s).err = none →
      (addRoutes rt r name l s).trace = l.map (fun u => Call.AddRoute name u none) ∧
        (addRoutes rt r name l s).acc = l.map rt.urlString := by
  induction l with
  | nil => intro s _; simp [addRoutes]
  | cons u rest ih =>
    intro s h
    rw [addRoutes] at h ⊢
    split at h
    · simp at h
    · rename_i s' heq
      simp only [heq]
      simp only at h
      simp [ih s' h]

theorem addRoutes_err {σ : Type} (rt : Runtime) (r : Router σ) (name : String) (l : List URL)
    (e : Error) :
    ∀ s : σ, (addRoutes rt r name l s).err = some e →
      ∃ pre u post, l = pre ++ u :: post ∧
        (addRoutes rt r name l s).trace =
          pre.map (fun u => Call.AddRoute name u none) ++ [Call.AddRoute name u (some e)] := by
  induction l with
  | nil => intro s h; simp [addRoutes] at h
  | cons u rest ih =>
    intro s h
    rw [addRoutes] at h ⊢
    split at h
    · rename_i e' s' heq
      simp only [heq]
      simp only [Option.some.injEq] at h
      exact ⟨[], u, rest, by simp, by simp [h]⟩
    · rename_i s' heq
      simp only [heq]
      simp only at h
      obtain ⟨pre, v, post, hl, ht⟩ := ih s' h
      exact ⟨u :: pre, v, post, by simp [hl], by simp [ht]⟩

theorem removeRoutes_ok {σ : Type} (rt : Runtime) (r : Router σ) (name : String)
    (l : List URL) :
    ∀ s : σ, (removeRoutes rt r name l s).err = none →
      (removeRoutes rt r name l s).trace = l.map (fun u => Call.RemoveRoute name u none) ∧
        (removeRoutes rt r name l s).acc = l.map rt.urlString := by
  induction l with
  | nil => intro s _; simp [removeRoutes]
  | cons u rest ih =>
    intro s h
    rw [removeRoutes] at h ⊢
    split at h
    · simp at h
    · rename_i s' heq
      simp only [heq]
      simp only at h
      simp [ih s' h]

theorem removeRoutes_err {σ : Type} (rt : Runtime) (r : Router σ) (name : String)
    (l : List URL) (e : Error) :
    ∀ s : σ, (removeRoutes rt r name l s).err = some e →
      ∃ pre u post, l = pre ++ u :: post ∧
        (removeRoutes rt r name l s).trace =
          pre.map (fun u => Call.RemoveRoute name u none) ++
            [Call.RemoveRoute name u (some e)] := by
  induction l with
  | nil => intro s h; simp [removeRoutes] at h
  | cons u rest ih =>
    intro s h
    rw [removeRoutes] at h ⊢
    split at h
    · rename_i e' s' heq
      simp only [heq]
      simp only [Option.some.injEq] at h
      exact ⟨[], u, rest, by simp, by simp [h]⟩
    · rename_i s' heq
      simp only [heq]
      simp only at h
      obtain ⟨pre, v, post, hl, ht⟩ := ih s' h
      exact ⟨u :: pre, v, post, by simp [hl], by simp [ht]⟩

/-! ## Composing well-shaped outcomes -/

theorem Good.single {σ : Type} (c : Call) (e : Error) (s : σ) (hf : c.fatal = true)
    (he : c.err = some e) : Good c.rank (⟨none, some e, s, [c]⟩ : Outcome σ) := by
  refine ⟨by simp, by simp, ?_, by simp, ?_⟩
  · intro a ha k hk hk'
    simp only [List.mem_singleton] at ha
    subst ha
    omega
  · intro e' he'
    simp only [Option.some.injEq] at he'
    subst he'
    exact ⟨rfl, c, by simp, hf, he⟩

theorem Good.after_one {σ : Type} {k : Nat} {o : Outcome σ} (h : Good (k + 1) o) (c : Call)
    (hr : c.rank = k) (hf : c.fatal = false) :
    Good k (o.after [c]) := by
  refine ⟨?_, ?_, ?_, ?_, ?_⟩
  · simp only [Outcome.after, List.singleton_append, List.pairwise_cons]
    refine ⟨?_, h.sorted⟩
    intro b hb
    have := h.lower b hb
    exact ⟨hf, Or.inl (by omega)⟩
  · intro b hb
    simp only [Outcome.after, List.singleton_append, List.mem_cons] at hb
    rcases hb with hb | hb
    · subst hb; omega
    · have := h.lower b hb; omega
  · intro b hb j hj hj' h3 h6
    simp only [Outcome.after, List.singleton_append, List.mem_cons] at hb ⊢
    rcases hb with hb | hb
    · subst hb; omega
    · by_cases e : j = k
      · exact ⟨c, Or.inl rfl, by omega⟩
      · obtain ⟨a, ha, hak⟩ := h.mandatory b hb j (by omega) hj' h3 h6
        exact ⟨a, Or.inr ha, hak⟩
  · intro he
    obtain ⟨hres, hall, h5⟩ := h.ok he
    refine ⟨hres, ?_, ?_⟩
    · intro b hb
      simp only [Outcome.after, List.singleton_append, List.mem_cons] at hb
      rcases hb with hb | hb
      · subst hb; exact hf
      · exact hall b hb
    · intro hk
      simp only [Outcome.after, List.singleton_append, List.mem_cons]
      by_cases e : k = 5
      · exact ⟨c, Or.inl rfl, by omega⟩
      · obtain ⟨a, ha, hak⟩ := h5 (by omega)
        exact ⟨a, Or.inr ha, hak⟩
  · intro e he
    obtain ⟨hres, a, hlast, haf, hae⟩ := h.failed e he
    refine ⟨hres, a, ?_, haf, hae⟩
    simp only [Outcome.after, List.singleton_append]
    cases htr : o.trace with
    | nil => rw [htr] at hlast; simp at hlast
    | cons x xs =>
      rw [htr] at hlast
      rw [List.getLast?_cons_cons]
      exact hlast

/-- A run of non-fatal calls of one loop may be put in front of calls of the
same or later steps. -/
theorem segment_pairwise (k : Nat) (seg rest : List Call)
    (hseg : ∀ c ∈ seg, c.fatal = false ∧ c.repeats = true ∧ c.rank = k)
    (hrest : ∀ b ∈ rest, k ≤ b.rank) (hp : rest.Pairwise Call.precedes) :
    (seg ++ rest).Pairwise Call.precedes := by
  rw [List.pairwise_append]
  refine ⟨?_, hp, ?_⟩
  · apply List.pairwise_of_forall_mem_list
    intro a ha b hb
    obtain ⟨h1, h2, h3⟩ := hseg a ha
    obtain ⟨_, _, h3'⟩ := hseg b hb
    exact ⟨h1, Or.inr ⟨by omega, h2⟩⟩
  · intro a ha b hb
    obtain ⟨h1, h2, h3⟩ := hseg a ha
    have := hrest b hb
    refine ⟨h1, ?_⟩
    by_cases e : a.rank = b.rank
    · exact Or.inr ⟨e, h2⟩
    · exact Or.inl (by omega)

/-- The three ways lines 79-96 can end: an `AddRoute` fails, a `RemoveRoute`
fails after every addition went through, or nothing fails. -/
theorem applyRoutes_cases {σ : Type} (rt : Runtime) (r : Router σ) (name : String)
    (toAdd toRemove : List URL) (s : σ) :
    (∃ e pre u post, toAdd = pre ++ u :: post ∧
      (applyRoutes rt r name toAdd toRemove s).err = some e ∧
      (applyRoutes rt r name toAdd toRemove s).result = none ∧
      (applyRoutes rt r name toAdd toRemove s).trace =
        pre.map (fun u => Call.AddRoute name u none) ++ [Call.AddRoute name u (some e)]) ∨
    (∃ e pre u post, toRemove = pre ++ u :: post ∧
      (applyRoutes rt r name toAdd toRemove s).err = some e ∧
      (applyRoutes rt r name toAdd toRemove s).result = none ∧
      (applyRoutes rt r name toAdd toRemove s).trace =
        toAdd.map (fun u => Call.AddRoute name u none) ++
          (pre.map (fun u => Call.RemoveRoute name u none) ++
            [Call.RemoveRoute name u (some e)])) ∨
    ((applyRoutes rt r name toAdd toRemove s).err = none ∧
      (applyRoutes rt r name toAdd toRemove s).result =
        some ⟨toAdd.map rt.urlString, toRemove.map rt.urlString⟩ ∧
      (applyRoutes rt r name toAdd toRemove s).trace =
        toAdd.map (fun u => Call.AddRoute name u none) ++
          toRemove.map (fun u => Call.RemoveRoute name u none)) := by
  unfold applyRoutes
  cases ha : (addRoutes rt r name toAdd s).err with
  | some e =>
    obtain ⟨pre, u, post, hl, ht⟩ := addRoutes_err rt r name toAdd e s ha
    exact Or.inl ⟨e, pre, u, post, hl, by simp [ha], by simp [ha], by simp [ha, ht]⟩
  | none =>
    obtain ⟨hat, haa⟩ := addRoutes_ok rt r name toAdd s ha
    cases hd : (removeRoutes rt r name toRemove (addRoutes rt r name toAdd s).state).err with
    | some e =>
      obtain ⟨pre, u, post, hl, ht⟩ := removeRoutes_err rt r name toRemove e _ hd
      exact Or.inr (Or.inl ⟨e, pre, u, post, hl, by simp [ha, hd], by simp [ha, hd],
        by simp [ha, hd, hat, ht]⟩)
    | none =>
      obtain ⟨hdt, hda⟩ := removeRoutes_ok rt r name toRemove _ hd
      exact Or.inr (Or.inr ⟨by simp [ha, hd], by simp [ha, hd, haa, hda],
        by simp [ha, hd, hat, hdt]⟩)

theorem applyRoutes_good {σ : Type} (rt : Runtime) (r : Router σ) (name : String)
    (toAdd toRemove : List URL) (s : σ) :
    Good 6 (applyRoutes rt r name toAdd toRemove s) := by
  rcases applyRoutes_cases rt r name toAdd toRemove s with
    ⟨e, pre, u, post, _, he, hr, ht⟩ | ⟨e, pre, u, post, _, he, hr, ht⟩ | ⟨he, hr, ht⟩
  · refine ⟨?_, ?_, ?_, ?_, ?_⟩
    · rw [ht]
      refine segment_pairwise 6 _ _ ?_ ?_ (List.pairwise_singleton _ _)
      · intro c hc
        simp only [List.mem_map] at hc
        obtain ⟨v, _, rfl⟩ := hc
        simp [Call.fatal, Call.err, Call.repeats, Call.rank]
      · simp [Call.rank]
    · rw [ht]
      intro c hc
      simp only [List.mem_append, List.mem_map, List.mem_singleton] at hc
      rcases hc with ⟨v, _, rfl⟩ | rfl <;> simp [Call.rank]
    · rw [ht]
      intro c hc k hk hk'
      simp only [List.mem_append, List.mem_map, List.mem_singleton] at hc
      rcases hc with ⟨v, _, rfl⟩ | rfl <;> simp only [Call.rank] at hk' <;> omega
    · intro h; rw [he] at h; simp at h
    · intro e' h
      rw [he] at h
      simp only [Option.some.injEq] at h
      subst h
      exact ⟨hr, Call.AddRoute name u (some e), by simp [ht], by simp [Call.fatal, Call.err],
        by simp [Call.err]⟩
  · refine ⟨?_, ?_, ?_, ?_, ?_⟩
    · rw [ht]
      refine segment_pairwise 6 _ _ ?_ ?_
        (segment_pairwise 7 _ _ ?_ ?_ (List.pairwise_singleton _ _))
      · intro c hc
        simp only [List.mem_map] at hc
        obtain ⟨v, _, rfl⟩ := hc
        simp [Call.fatal, Call.err, Call.repeats, Call.rank]
      · intro c hc
        simp only [List.mem_append, List.mem_map, List.mem_singleton] at hc
        rcases hc with ⟨v, _, rfl⟩ | rfl <;> simp [Call.rank]
      · intro c hc
        simp only [List.mem_map] at hc
        obtain ⟨v, _, rfl⟩ := hc
        simp [Call.fatal, Call.err, Call.repeats, Call.rank]
      · simp [Call.rank]
    · rw [ht]
      intro c hc
      simp only [List.mem_append, List.mem_map, List.mem_singleton] at hc
      rcases hc with ⟨v, _, rfl⟩ | ⟨v, _, rfl⟩ | rfl <;> simp [Call.rank]
    · rw [ht]
      intro c hc k hk hk'
      simp only [List.mem_append, List.mem_map, List.mem_singleton] at hc
      rcases hc with ⟨v, _, rfl⟩ | ⟨v, _, rfl⟩ | rfl <;> simp only [Call.rank] at hk' <;> omega
    · intro h; rw [he] at h; simp at h
    · intro e' h
      rw [he] at h
      simp only [Option.some.injEq] at h
      subst h
      refine ⟨hr, Call.RemoveRoute name u (some e), ?_, by simp [Call.fatal, Call.err],
        by simp [Call.err]⟩
      rw [ht, ← List.append_assoc]
      simp
  · refine ⟨?_, ?_, ?_, ?_, ?_⟩
    · rw [ht, ← List.append_nil (toRemove.map _)]
      refine segment_pairwise 6 _ _ ?_ ?_ (segment_pairwise 7 _ _ ?_ ?_ List.Pairwise.nil)
      · intro c hc
        simp only [List.mem_map] at hc
        obtain ⟨v, _, rfl⟩ := hc
        simp [Call.fatal, Call.err, Call.repeats, Call.rank]
      · intro c hc
        simp only [List.append_nil, List.mem_map] at hc
        obtain ⟨v, _, rfl⟩ := hc
        simp [Call.rank]
      · intro c hc
        simp only [List.mem_map] at hc
        obtain ⟨v, _, rfl⟩ := hc
        simp [Call.fatal, Call.err, Call.repeats, Call.rank]
      · simp
    · rw [ht]
      intro c hc
      simp only [List.mem_append, List.mem_map] at hc
      rcases hc with ⟨v, _, rfl⟩ | ⟨v, _, rfl⟩ <;> simp [Call.rank]
    · rw [ht]
      intro c hc k hk hk'
      simp only [List.mem_append, List.mem_map] at hc
      rcases hc with ⟨v, _, rfl⟩ | ⟨v, _, rfl⟩ <;> simp only [Call.rank] at hk' <;> omega
    · intro _
      refine ⟨⟨_, hr⟩, ?_, by omega⟩
      rw [ht]
      intro c hc
      simp only [List.mem_append, List.mem_map] at hc
      rcases hc with ⟨v, _, rfl⟩ | ⟨v, _, rfl⟩ <;> simp [Call.fatal, Call.err]
    · intro e' h; rw [he] at h; simp at h

theorem Outcome.after_cons {σ : Type} (a : Call) (l : List Call) (o : Outcome σ) :
    o.after (a :: l) = (o.after l).after [a] := by
  simp [Outcome.after]

theorem Good.after_segment {σ : Type} {o : Outcome σ} (h : Good 4 o) (seg : List Call)
    (hseg : ∀ c ∈ seg, c.fatal = false ∧ c.repeats = true ∧ c.rank = 3) :
    Good 3 (o.after seg) := by
  refine ⟨?_, ?_, ?_, ?_, ?_⟩
  · exact segment_pairwise 3 seg o.trace hseg
      (fun b hb => by have := h.lower b hb; omega) h.sorted
  · intro b hb
    simp only [Outcome.after, List.mem_append] at hb
    rcases hb with hb | hb
    · rw [(hseg b hb).2.2]
    · have := h.lower b hb; omega
  · intro b hb j hj hj' h3 h6
    simp only [Outcome.after, List.mem_append] at hb ⊢
    rcases hb with hb | hb
    · rw [(hseg b hb).2.2] at hj'; omega
    · obtain ⟨a, ha, hak⟩ := h.mandatory b hb j (by omega) hj' h3 h6
      exact ⟨a, Or.inr ha, hak⟩
  · intro he
    obtain ⟨hres, hall, h5⟩ := h.ok he
    refine ⟨hres, ?_, ?_⟩
    · intro b hb
      simp only [Outcome.after, List.mem_append] at hb
      rcases hb with hb | hb
      · exact (hseg b hb).1
      · exact hall b hb
    · intro _
      obtain ⟨a, ha, hak⟩ := h5 (by omega)
      exact ⟨a, by simp [Outcome.after, ha], hak⟩
  · intro e he
    obtain ⟨hres, a, hlast, haf, hae⟩ := h.failed e he
    refine ⟨hres, a, ?_, haf, hae⟩
    have hne : o.trace ≠ [] := by
      intro hnil
      rw [hnil] at hlast
      simp at hlast
    simp only [Outcome.after]
    rw [List.getLast?_append_of_ne_nil _ hne]
    exact hlast

theorem Good.segment_failed {σ : Type} (seg : List Call) (c : Call) (e : Error) (s : σ)
    (hseg : ∀ c ∈ seg, c.fatal = false ∧ c.repeats = true ∧ c.rank = 3)
    (hr : c.rank = 3) (hf : c.fatal = true) (he : c.err = some e) :
    Good 3 (⟨none, some e, s, seg ++ [c]⟩ : Outcome σ) := by
  refine ⟨?_, ?_, ?_, by simp, ?_⟩
  · exact segment_pairwise 3 seg [c] hseg (by simp [hr]) (List.pairwise_singleton _ _)
  · intro b hb
    simp only [List.mem_append, List.mem_singleton] at hb
    rcases hb with hb | rfl
    · rw [(hseg b hb).2.2]
    · omega
  · intro b hb j hj hj'
    simp only [List.mem_append, List.mem_singleton] at hb
    rcases hb with hb | rfl
    · rw [(hseg b hb).2.2] at hj'; omega
    · omega
  · intro e' he'
    simp only [Option.some.injEq] at he'
    subst he'
    exact ⟨rfl, c, by simp, hf, he⟩

theorem Good.from_four {σ : Type} {o : Outcome σ} (h : Good 4 o) : Good 3 o := by
  have := h.after_segment [] (by simp)
  simpa [Outcome.after] using this

/-! ## The cname loop -/

theorem bindCNames_calls {σ : Type} (c : CNameRouter σ) (name : String) (cnames : List String) :
    ∀ s : σ, ∀ x ∈ (bindCNames c name cnames s).2.2, ∃ cn e, x = Call.SetCName cn name e := by
  induction cnames with
  | nil => intro s x hx; simp [bindCNames] at hx
  | cons cn rest ih =>
    intro s x hx
    rw [bindCNames] at hx
    split at hx
    · simp only [List.mem_singleton] at hx
      exact ⟨cn, _, hx⟩
    · simp only [List.mem_cons] at hx
      rcases hx with hx | hx
      · exact ⟨cn, _, hx⟩
      · exact ih _ x hx

theorem bindCNames_ok {σ : Type} (c : CNameRouter σ) (name : String) (cnames : List String) :
    ∀ s : σ, (bindCNames c name cnames s).1 = none →
      cnamesOf (bindCNames c name cnames s).2.2 = cnames ∧
        ∀ x ∈ (bindCNames c name cnames s).2.2, x.fatal = false := by
  induction cnames with
  | nil => intro s _; simp [bindCNames, cnamesOf]
  | cons cn rest ih =>
    intro s h
    rw [bindCNames] at h ⊢
    split at h
    · rename_i hf
      simp only at h
      rw [h] at hf
      simp [cnameFatal] at hf
    · rename_i hf
      simp only at h
      obtain ⟨h1, h2⟩ := ih _ h
      simp only [hf, Bool.false_eq_true, if_false]
      refine ⟨?_, ?_⟩
      · simp only [cnamesOf, List.filterMap_cons, Call.cname?] at h1 ⊢
        rw [h1]
      · intro x hx
        simp only [List.mem_cons] at hx
        rcases hx with rfl | hx
        · simpa [Call.fatal] using hf
        · exact h2 x hx

theorem bindCNames_err {σ : Type} (c : CNameRouter σ) (name : String) (cnames : List String)
    (e : Error) :
    ∀ s : σ, (bindCNames c name cnames s).1 = some e →
      ∃ seg cn post, cnames = cnamesOf seg ++ cn :: post ∧ cnameFatal (some e) = true ∧
        (bindCNames c name cnames s).2.2 = seg ++ [Call.SetCName cn name (some e)] ∧
        ∀ x ∈ seg, x.fatal = false ∧ ∃ cn' e', x = Call.SetCName cn' name e' := by
  induction cnames with
  | nil => intro s h; simp [bindCNames] at h
  | cons cn rest ih =>
    intro s h
    rw [bindCNames] at h ⊢
    split at h
    · rename_i hf
      simp only at h
      rw [h] at hf
      refine ⟨[], cn, rest, by simp [cnamesOf], hf, ?_, by simp⟩
      rw [h]
      simp [hf]
    · rename_i hf
      simp only at h
      obtain ⟨seg, cn', post, h1, h2, h3, h4⟩ := ih _ h
      simp only [hf, Bool.false_eq_true, if_false]
      refine ⟨Call.SetCName cn name (c.SetCName cn name s).1 :: seg, cn', post, ?_, h2, ?_, ?_⟩
      · simp only [cnamesOf, List.filterMap_cons, Call.cname?, List.cons_append] at h1 ⊢
        rw [h1]
      · rw [h3]; simp
      · intro x hx
        simp only [List.mem_cons] at hx
        rcases hx with rfl | hx
        · exact ⟨by simpa [Call.fatal] using hf, cn, _, rfl⟩
        · exact h4 x hx

/-! ## Every stage of `RebuildRoutes` is well shaped -/

theorem reconcile_good {σ : Type} (rt : Runtime) (app : RebuildApp σ) (r : Router σ) (s : σ) :
    Good 4 (reconcile rt app r s) := by
  unfold reconcile
  split
  · rename_i oldRoutes e s1 _
    exact Good.single (Call.Routes app.GetName oldRoutes (some e)) e s1 (by simp [Call.fatal, Call.err])
      (by simp [Call.err])
  · rename_i oldRoutes s1 _
    split
    · rename_i addresses e s2 _
      exact (Good.single (Call.RoutableAddresses addresses (some e)) e s2
        (by simp [Call.fatal, Call.err]) (by simp [Call.err])).after_one
          (Call.Routes app.GetName oldRoutes none) rfl (by simp [Call.fatal, Call.err])
    · rename_i addresses s2 _
      rw [Outcome.after_cons]
      exact ((applyRoutes_good rt r app.GetName _ _ s2).after_one
        (Call.RoutableAddresses addresses none) rfl (by simp [Call.fatal, Call.err])).after_one
          (Call.Routes app.GetName oldRoutes none) rfl (by simp [Call.fatal, Call.err])

theorem afterUpdateAddr_good {σ : Type} (rt : Runtime) (app : RebuildApp σ) (r : Router σ)
    (s : σ) : Good 3 (afterUpdateAddr rt app r s) := by
  unfold afterUpdateAddr
  split
  · rename_i cnameRouter _
    split
    · rename_i e s' tr heq
      have he : (bindCNames cnameRouter app.GetName app.GetCname s).1 = some e := by rw [heq]
      obtain ⟨seg, cn, post, _, hf, ht, hseg⟩ := bindCNames_err _ _ _ e s he
      have htr : tr = seg ++ [Call.SetCName cn app.GetName (some e)] := by
        rw [← ht, heq]
      rw [htr]
      refine Good.segment_failed seg _ e s' ?_ rfl (by simpa [Call.fatal] using hf)
        (by simp [Call.err])
      intro x hx
      obtain ⟨h1, cn', e', rfl⟩ := hseg x hx
      exact ⟨h1, rfl, rfl⟩
    · rename_i s' tr heq
      have he : (bindCNames cnameRouter app.GetName app.GetCname s).1 = none := by rw [heq]
      have htr : tr = (bindCNames cnameRouter app.GetName app.GetCname s).2.2 := by rw [heq]
      refine (reconcile_good rt app r s').after_segment tr ?_
      intro x hx
      rw [htr] at hx
      obtain ⟨cn', e', rfl⟩ := bindCNames_calls _ _ _ s x hx
      exact ⟨(bindCNames_ok _ _ _ s he).2 _ hx, rfl, rfl⟩
  · exact (reconcile_good rt app r s).from_four

theorem afterBackend_good {σ : Type} (rt : Runtime) (app : RebuildApp σ) (r : Router σ)
    (s : σ) : Good 2 (afterBackend rt app r s) := by
  unfold afterBackend
  split
  · rename_i e s' _
    exact Good.single (Call.UpdateAddr (some e)) e s' (by simp [Call.fatal, Call.err])
      (by simp [Call.err])
  · rename_i s' _
    exact (afterUpdateAddr_good rt app r s').after_one (Call.UpdateAddr none) rfl
      (by simp [Call.fatal, Call.err])

theorem registerBackend_call {σ : Type} (app : RebuildApp σ) (r : Router σ) (s : σ) :
    (registerBackend app r s).2.2.rank = 1 ∧
      (registerBackend app r s).2.2.err = (registerBackend app r s).1 ∧
      (registerBackend app r s).2.2.fatal = backendFatal (registerBackend app r s).1 := by
  unfold registerBackend
  split <;> simp [Call.rank, Call.err, Call.fatal]

theorem withRouter_good {σ : Type} (rt : Runtime) (app : RebuildApp σ) (r : Router σ)
    (s : σ) : Good 1 (withRouter rt app r s) := by
  unfold withRouter
  obtain ⟨h1, h2, h3⟩ := registerBackend_call app r s
  split
  · rename_i hf
    cases he : (registerBackend app r s).1 with
    | none => rw [he] at hf; simp [backendFatal] at hf
    | some e =>
      have := Good.single (registerBackend app r s).2.2 e (registerBackend app r s).2.1
        (by rw [h3]; exact hf) (by rw [h2, he])
      rw [h1] at this
      exact this
  · rename_i hf
    exact (afterBackend_good rt app r _).after_one _ h1 (by rw [h3]; simpa using hf)

/-- Every pass of `RebuildRoutes` is well shaped from its first step on. -/
theorem RebuildRoutes_good {σ : Type} (rt : Runtime) (app : RebuildApp σ) (s : σ) :
    Good 0 (RebuildRoutes rt app s) := by
  unfold RebuildRoutes
  split
  · rename_i e s' _
    exact Good.single (Call.GetRouter (some e)) e s' (by simp [Call.fatal, Call.err])
      (by simp [Call.err])
  · rename_i r s' _
    exact (withRouter_good rt app r s').after_one (Call.GetRouter none) rfl
      (by simp [Call.fatal, Call.err])

/-! ## Consequences of the shape, call by call -/

/-- A call that failed fatally is the last call of the pass. -/
theorem Good.fatal_last {σ : Type} {lo : Nat} {o : Outcome σ} (h : Good lo o)
    (pre post : List Call) (c : Call) (ht : o.trace = pre ++ c :: post)
    (hf : c.fatal = true) : post = [] := by
  have hs := h.sorted
  rw [ht, List.pairwise_append] at hs
  cases post with
  | nil => rfl
  | cons b rest =>
    have := (List.pairwise_cons.1 hs.2.1).1 b (List.mem_cons_self _ _)
    rw [this.1] at hf
    exact absurd hf (by simp)

/-- A pass in which some call failed fatally returns a nil result and the
error of that call. -/
theorem Good.fatal_returned {σ : Type} {lo : Nat} {o : Outcome σ} (h : Good lo o)
    (c : Call) (hc : c ∈ o.trace) (hf : c.fatal = true) :
    o.result = none ∧ o.err = c.err := by
  cases he : o.err with
  | none =>
    have := (h.ok he).2.1 c hc
    rw [this] at hf
    exact absurd hf (by simp)
  | some e =>
    obtain ⟨hres, c', hlast, _, hce⟩ := h.failed e he
    obtain ⟨pre, post, ht⟩ := List.append_of_mem hc
    have hpost := h.fatal_last pre post c ht hf
    subst hpost
    rw [ht] at hlast
    simp only [List.getLast?_append, List.getLast?_singleton, Option.or,
      Option.some.injEq] at hlast
    subst hlast
    exact ⟨hres, hce.symm⟩

/-- Any call made before another one did not fail fatally and belongs to an
earlier step or to the same loop. -/
theorem Good.earlier {σ : Type} {lo : Nat} {o : Outcome σ} (h : Good lo o)
    (pre post : List Call) (c : Call) (ht : o.trace = pre ++ c :: post) :
    ∀ a ∈ pre, a.precedes c := by
  have hs := h.sorted
  rw [ht, List.pairwise_append] at hs
  intro a ha
  exact hs.2.2 a ha c (List.mem_cons_self _ _)

/-- Before any call, every earlier step other than the two optional ones has
been taken and did not fail fatally. -/
theorem Good.taken_before {σ : Type} {lo : Nat} {o : Outcome σ} (h : Good lo o)
    (pre post : List Call) (c : Call) (ht : o.trace = pre ++ c :: post)
    (k : Nat) (hlo : lo ≤ k) (hk : k < c.rank) (h3 : k ≠ 3) (h6 : k ≠ 6) :
    ∃ a ∈ pre, a.rank = k ∧ a.fatal = false := by
  have hc : c ∈ o.trace := by rw [ht]; simp
  obtain ⟨a, ha, hak⟩ := h.mandatory c hc k hlo hk h3 h6
  rw [ht] at ha
  simp only [List.mem_append, List.mem_cons] at ha
  rcases ha with ha | rfl | ha
  · exact ⟨a, ha, hak, (h.earlier pre post c ht a ha).1⟩
  · omega
  · have hs := h.sorted
    rw [ht, List.pairwise_append] at hs
    have := (List.pairwise_cons.1 hs.2.1).1 a ha
    rcases this.2 with h' | h'
    · omega
    · omega

theorem backendFatal_eq_false (e : Option Error) :
    backendFatal e = false ↔ e = none ∨ e = some Error.ErrBackendExists := by
  cases e with
  | none => simp [backendFatal]
  | some e => simp [backendFatal]

theorem cnameFatal_eq_false (e : Option Error) :
    cnameFatal e = false ↔ e = none ∨ e = some Error.ErrCNameExists := by
  cases e with
  | none => simp [cnameFatal]
  | some e => simp [cnameFatal]

/-- The calls of the third step that did not fail. -/
theorem rank_two_ok (a : Call) (hr : a.rank = 2) (hf : a.fatal = false) :
    a = Call.UpdateAddr none := by
  cases a <;> simp [Call.rank] at hr
  simpa [Call.fatal, Call.err] using hf

theorem Reached.after {σ : Type} {rt : Runtime} {app : RebuildApp σ} {o : Outcome σ}
    {oldRoutes addresses : List URL} (h : Reached rt app o oldRoutes addresses)
    (pre : List Call) (hpre : ∀ c ∈ pre, c.rank < 4) :
    Reached rt app (o.after pre) oldRoutes addresses := by
  obtain ⟨r, s, pre0, h0, rfl⟩ := h
  refine ⟨r, s, pre ++ pre0, ?_, by simp [Outcome.after]⟩
  intro c hc
  simp only [List.mem_append] at hc
  rcases hc with hc | hc
  · exact hpre c hc
  · exact h0 c hc

theorem reconcile_reached {σ : Type} (rt : Runtime) (app : RebuildApp σ) (r : Router σ)
    (s : σ) (addresses : List URL)
    (h : Call.RoutableAddresses addresses none ∈ (reconcile rt app r s).trace) :
    ∃ oldRoutes, Reached rt app (reconcile rt app r s) oldRoutes addresses := by
  unfold reconcile at h ⊢
  split at h
  · simp at h
  · rename_i oldRoutes s1 heq
    split at h
    · simp at h
    · rename_i addresses' s2 heq2
      simp only [Outcome.after, List.cons_append, List.nil_append, List.mem_cons,
        Call.RoutableAddresses.injEq, and_true, reduceCtorEq, false_or] at h
      have hA : addresses = addresses' := by
        rcases h with h | h
        · exact h
        · have := (applyRoutes_good rt r app.GetName _ _ s2).lower _ h
          simp [Call.rank] at this
      subst hA
      exact ⟨oldRoutes, r, s2, [], by simp, by simp⟩

theorem afterUpdateAddr_reached {σ : Type} (rt : Runtime) (app : RebuildApp σ) (r : Router σ)
    (s : σ) (addresses : List URL)
    (h : Call.RoutableAddresses addresses none ∈ (afterUpdateAddr rt app r s).trace) :
    ∃ oldRoutes, Reached rt app (afterUpdateAddr rt app r s) oldRoutes addresses := by
  unfold afterUpdateAddr at h ⊢
  split at h
  · rename_i cnameRouter hc
    have hcalls := bindCNames_calls cnameRouter app.GetName app.GetCname s
    split at h
    · rename_i e s' tr heq
      rw [heq] at hcalls
      obtain ⟨cn, e', hx⟩ := hcalls _ h
      simp at hx
    · rename_i s' tr heq
      rw [heq] at hcalls
      simp only [Outcome.after, List.mem_append] at h
      rcases h with h | h
      · obtain ⟨cn, e', hx⟩ := hcalls _ h
        simp at hx
      · obtain ⟨oldRoutes, hr⟩ := reconcile_reached rt app r s' addresses h
        refine ⟨oldRoutes, hr.after tr ?_⟩
        intro c hc
        obtain ⟨cn, e', rfl⟩ := hcalls c hc
        simp [Call.rank]
  · exact reconcile_reached rt app r s addresses h

theorem afterBackend_reached {σ : Type} (rt : Runtime) (app : RebuildApp σ) (r : Router σ)
    (s : σ) (addresses : List URL)
    (h : Call.RoutableAddresses addresses none ∈ (afterBackend rt app r s).trace) :
    ∃ oldRoutes, Reached rt app (afterBackend rt app r s) oldRoutes addresses := by
  unfold afterBackend at h ⊢
  split at h
  · simp at h
  · rename_i s' heq
    simp only [Outcome.after, List.singleton_append, List.mem_cons, reduceCtorEq,
      false_or] at h
    obtain ⟨oldRoutes, hr⟩ := afterUpdateAddr_reached rt app r s' addresses h
    exact ⟨oldRoutes, hr.after _ (by simp [Call.rank])⟩

theorem withRouter_reached {σ : Type} (rt : Runtime) (app : RebuildApp σ) (r : Router σ)
    (s : σ) (addresses : List URL)
    (h : Call.RoutableAddresses addresses none ∈ (withRouter rt app r s).trace) :
    ∃ oldRoutes, Reached rt app (withRouter rt app r s) oldRoutes addresses := by
  have hb := (registerBackend_call app r s).1
  unfold withRouter at h ⊢
  split at h
  · simp only [List.mem_singleton] at h
    rw [← h] at hb
    simp [Call.rank] at hb
  · rename_i hf
    simp only [hf, if_false]
    simp only [Outcome.after, List.singleton_append, List.mem_cons] at h
    rcases h with h | h
    · rw [← h] at hb
      simp [Call.rank] at hb
    · obtain ⟨oldRoutes, hr⟩ := afterBackend_reached rt app r _ addresses h
      refine ⟨oldRoutes, hr.after _ ?_⟩
      intro c hc
      simp only [List.mem_singleton] at hc
      rw [hc, hb]
      omega

/-- A pass whose trace shows `RoutableAddresses` returning without error got
as far as applying the diff of the routes it had fetched. -/
theorem RebuildRoutes_reached {σ : Type} (rt : Runtime) (app : RebuildApp σ) (s : σ)
    (addresses : List URL)
    (h : Call.RoutableAddresses addresses none ∈ (RebuildRoutes rt app s).trace) :
    ∃ oldRoutes, Reached rt app (RebuildRoutes rt app s) oldRoutes addresses := by
  unfold RebuildRoutes at h ⊢
  split at h
  · simp at h
  · rename_i r s' heq
    simp only [Outcome.after, List.singleton_append, List.mem_cons, reduceCtorEq,
      false_or] at h
    obtain ⟨oldRoutes, hr⟩ := withRouter_reached rt app r s' addresses h
    exact ⟨oldRoutes, hr.after _ (by simp [Call.rank])⟩

theorem addedOf_append (l₁ l₂ : List Call) : addedOf (l₁ ++ l₂) = addedOf l₁ ++ addedOf l₂ := by
  simp [addedOf, List.filterMap_append]

theorem removedOf_append (l₁ l₂ : List Call) :
    removedOf (l₁ ++ l₂) = removedOf l₁ ++ removedOf l₂ := by
  simp [removedOf, List.filterMap_append]

theorem addedOf_adds (name : String) (e : Option Error) (l : List URL) :
    addedOf (l.map (fun u => Call.AddRoute name u e)) = l := by
  induction l with
  | nil => rfl
  | cons u rest ih => simpa [addedOf, Call.added?] using ih

theorem removedOf_removes (name : String) (e : Option Error) (l : List URL) :
    removedOf (l.map (fun u => Call.RemoveRoute name u e)) = l := by
  induction l with
  | nil => rfl
  | cons u rest ih => simpa [removedOf, Call.removed?] using ih

theorem addedOf_eq_nil (l : List Call) (h : ∀ c ∈ l, c.rank ≠ 6) : addedOf l = [] := by
  induction l with
  | nil => rfl
  | cons c rest ih =>
    have hc := h c (List.mem_cons_self _ _)
    have := ih (fun x hx => h x (List.mem_cons_of_mem _ hx))
    cases c <;> simp_all [addedOf, Call.added?, Call.rank]

theorem removedOf_eq_nil (l : List Call) (h : ∀ c ∈ l, c.rank ≠ 7) : removedOf l = [] := by
  induction l with
  | nil => rfl
  | cons c rest ih =>
    have hc := h c (List.mem_cons_self _ _)
    have := ih (fun x hx => h x (List.mem_cons_of_mem _ hx))
    cases c <;> simp_all [removedOf, Call.removed?, Call.rank]

theorem mem_addedOf (l : List Call) (u : URL) :
    u ∈ addedOf l ↔ ∃ n e, Call.AddRoute n u e ∈ l := by
  simp only [addedOf, List.mem_filterMap]
  constructor
  · rintro ⟨c, hc, h⟩
    cases c <;> simp [Call.added?] at h
    subst h
    exact ⟨_, _, hc⟩
  · rintro ⟨n, e, h⟩
    exact ⟨_, h, rfl⟩

theorem mem_removedOf (l : List Call) (u : URL) :
    u ∈ removedOf l ↔ ∃ n e, Call.RemoveRoute n u e ∈ l := by
  simp only [removedOf, List.mem_filterMap]
  constructor
  · rintro ⟨c, hc, h⟩
    cases c <;> simp [Call.removed?] at h
    subst h
    exact ⟨_, _, hc⟩
  · rintro ⟨n, e, h⟩
    exact ⟨_, h, rfl⟩

theorem Reached.applied {σ : Type} {rt : Runtime} {app : RebuildApp σ} {o : Outcome σ}
    {oldRoutes addresses : List URL} (h : Reached rt app o oldRoutes addresses) :
    Applied rt app o oldRoutes addresses := by
  obtain ⟨r, s, pre, hpre, rfl⟩ := h
  have hpa : addedOf pre = [] := addedOf_eq_nil pre (fun c hc => by have := hpre c hc; omega)
  have hpr : removedOf pre = [] :=
    removedOf_eq_nil pre (fun c hc => by have := hpre c hc; omega)
  have hA : ∀ tr, addedOf ((pre ++ [Call.Routes app.GetName oldRoutes none,
      Call.RoutableAddresses addresses none]) ++ tr) = addedOf tr := by
    intro tr
    rw [addedOf_append, addedOf_append, hpa]
    simp [addedOf, Call.added?]
  have hR : ∀ tr, removedOf ((pre ++ [Call.Routes app.GetName oldRoutes none,
      Call.RoutableAddresses addresses none]) ++ tr) = removedOf tr := by
    intro tr
    rw [removedOf_append, removedOf_append, hpr]
    simp [removedOf, Call.removed?]
  have hmem : ∀ c, c ∈ pre → c.rank < 4 := hpre
  rcases applyRoutes_cases rt r app.GetName (toAddOf rt oldRoutes addresses)
      (toRemoveOf oldRoutes addresses) s with
    ⟨e, p, u, q, hl, he, hr, ht⟩ | ⟨e, p, u, q, hl, he, hr, ht⟩ | ⟨he, hr, ht⟩
  · have hadd : addedOf (Outcome.after (pre ++ [Call.Routes app.GetName oldRoutes none,
        Call.RoutableAddresses addresses none]) (applyRoutes rt r app.GetName
          (toAddOf rt oldRoutes addresses) (toRemoveOf oldRoutes addresses) s)).trace =
        p ++ [u] := by
      simp only [Outcome.after, hA, ht, addedOf_append, addedOf_adds]
      simp [addedOf, Call.added?]
    have hrem : removedOf (Outcome.after (pre ++ [Call.Routes app.GetName oldRoutes none,
        Call.RoutableAddresses addresses none]) (applyRoutes rt r app.GetName
          (toAddOf rt oldRoutes addresses) (toRemoveOf oldRoutes addresses) s)).trace =
        [] := by
      simp only [Outcome.after, hR, ht]
      apply removedOf_eq_nil
      intro c hc
      simp only [List.mem_append, List.mem_map, List.mem_singleton] at hc
      rcases hc with ⟨v, _, rfl⟩ | rfl <;> simp [Call.rank]
    refine ⟨?_, ?_, ?_, ?_, ?_, ?_, ?_⟩
    · rw [hadd, hl]
      exact ⟨q, by simp⟩
    · rw [hrem]
      exact List.nil_prefix
    · intro hall
      have := hall (Call.AddRoute app.GetName u (some e))
        (by simp [Outcome.after, ht]) rfl
      simp [Call.err] at this
    · intro hne
      exact absurd hrem hne
    · intro h0
      simp only [Outcome.after] at h0
      rw [he] at h0
      simp at h0
    · intro n l e' hc
      simp only [Outcome.after, ht, List.mem_append, List.mem_cons, List.mem_map,
        List.mem_singleton, Call.Routes.injEq, reduceCtorEq, List.not_mem_nil, or_false,
        and_false, exists_false, false_or] at hc
      rcases hc with hc | hc
      · have := hmem _ hc
        simp [Call.rank] at this
      · exact hc
    · intro n v e' hc
      simp only [Outcome.after, ht, List.mem_append, List.mem_cons, List.mem_map,
        List.mem_singleton, reduceCtorEq, List.not_mem_nil, or_false, false_or] at hc
      rcases hc with (hc | ⟨_, _, hc⟩ | hc) | (hc | hc)
      · have := hmem _ hc
        simp [Call.rank] at this
      · simp only [Call.AddRoute.injEq] at hc
        exact hc.1.symm
      · simp only [Call.AddRoute.injEq] at hc
        exact hc.1
      · have := hmem _ hc
        simp [Call.rank] at this
      · simp at hc
  · have hadd : addedOf (Outcome.after (pre ++ [Call.Routes app.GetName oldRoutes none,
        Call.RoutableAddresses addresses none]) (applyRoutes rt r app.GetName
          (toAddOf rt oldRoutes addresses) (toRemoveOf oldRoutes addresses) s)).trace =
        toAddOf rt oldRoutes addresses := by
      simp only [Outcome.after, hA, ht, addedOf_append, addedOf_adds]
      rw [addedOf_eq_nil, addedOf_eq_nil] <;> simp [Call.rank]
    have hrem : removedOf (Outcome.after (pre ++ [Call.Routes app.GetName oldRoutes none,
        Call.RoutableAddresses addresses none]) (applyRoutes rt r app.GetName
          (toAddOf rt oldRoutes addresses) (toRemoveOf oldRoutes addresses) s)).trace =
        p ++ [u] := by
      simp only [Outcome.after, hR, ht, removedOf_append, removedOf_removes]
      rw [removedOf_eq_nil]
      · simp [removedOf, Call.removed?]
      · simp [Call.rank]
    refine ⟨?_, ?_, ?_, ?_, ?_, ?_, ?_⟩
    · rw [hadd]
    · rw [hrem, hl]
      exact ⟨q, by simp⟩
    · intro _
      exact hadd
    · intro _
      exact hadd
    · intro h0
      simp only [Outcome.after] at h0
      rw [he] at h0
      simp at h0
    · intro n l e' hc
      simp only [Outcome.after, ht, List.mem_append, List.mem_cons, List.mem_map,
        List.mem_singleton, Call.Routes.injEq, reduceCtorEq, List.not_mem_nil, or_false,
        and_false, exists_false, false_or] at hc
      rcases hc with hc | hc
      · have := hmem _ hc
        simp [Call.rank] at this
      · exact hc
    · intro n v e' hc
      simp only [Outcome.after, ht, List.mem_append, List.mem_cons, List.mem_map,
        List.mem_singleton, reduceCtorEq, List.not_mem_nil, or_false, false_or,
        and_false, exists_false] at hc
      rcases hc with (hc | ⟨_, _, hc⟩) | (hc | ⟨_, _, hc⟩ | hc)
      · have := hmem _ hc
        simp [Call.rank] at this
      · simp only [Call.AddRoute.injEq] at hc
        exact hc.1.symm
      · have := hmem _ hc
        simp [Call.rank] at this
      · simp only [Call.RemoveRoute.injEq] at hc
        exact hc.1.symm
      · simp only [Call.RemoveRoute.injEq] at hc
        exact hc.1
  · have hadd : addedOf (Outcome.after (pre ++ [Call.Routes app.GetName oldRoutes none,
        Call.RoutableAddresses addresses none]) (applyRoutes rt r app.GetName
          (toAddOf rt oldRoutes addresses) (toRemoveOf oldRoutes addresses) s)).trace =
        toAddOf rt oldRoutes addresses := by
      simp only [Outcome.after, hA, ht, addedOf_append, addedOf_adds]
      rw [addedOf_eq_nil] <;> simp [Call.rank]
    have hrem : removedOf (Outcome.after (pre ++ [Call.Routes app.GetName oldRoutes none,
        Call.RoutableAddresses addresses none]) (applyRoutes rt r app.GetName
          (toAddOf rt oldRoutes addresses) (toRemoveOf oldRoutes addresses) s)).trace =
        toRemoveOf oldRoutes addresses := by
      simp only [Outcome.after, hR, ht, removedOf_append, removedOf_removes]
      rw [removedOf_eq_nil] <;> simp [Call.rank]
    refine ⟨?_, ?_, ?_, ?_, ?_, ?_, ?_⟩
    · rw [hadd]
    · rw [hrem]
    · intro _
      exact hadd
    · intro _
      exact hadd
    · intro _
      exact ⟨hadd, hrem, hr⟩
    · intro n l e' hc
      simp only [Outcome.after, ht, List.mem_append, List.mem_cons, List.mem_map,
        List.mem_singleton, Call.Routes.injEq, reduceCtorEq, List.not_mem_nil, or_false,
        and_false, exists_false, false_or] at hc
      rcases hc with hc | hc
      · have := hmem _ hc
        simp [Call.rank] at this
      · exact hc
    · intro n v e' hc
      simp only [Outcome.after, ht, List.mem_append, List.mem_cons, List.mem_map,
        List.mem_singleton, reduceCtorEq, List.not_mem_nil, or_false, false_or,
        and_false, exists_false] at hc
      rcases hc with (hc | ⟨_, _, hc⟩) | (hc | ⟨_, _, hc⟩)
      · have := hmem _ hc
        simp [Call.rank] at this
      · simp only [Call.AddRoute.injEq] at hc
        exact hc.1.symm
      · have := hmem _ hc
        simp [Call.rank] at this
      · simp only [Call.RemoveRoute.injEq] at hc
        exact hc.1.symm

/-! ## What is added and what is removed -/

theorem toAddOf_hosts_perm (rt : Runtime) (oldRoutes addresses : List URL) :
    ((toAddOf rt oldRoutes addresses).map URL.Host).Perm
      (((buildExpected addresses).map Prod.fst).filter
        (fun h => decide (h ∉ oldRoutes.map URL.Host))) := by
  have hk := buildExpected_keyed addresses
  have hperm := rt.rangeOrder_perm (diffRoutes oldRoutes (buildExpected addresses)).1
  have h1 : (toAddOf rt oldRoutes addresses).map URL.Host =
      (rt.rangeOrder (diffRoutes oldRoutes (buildExpected addresses)).1).map Prod.fst := by
    rw [toAddOf, List.map_map]
    apply List.map_congr_left
    intro p hp
    have hp' := hperm.subset hp
    rw [diffRoutes_fst] at hp'
    exact hk.host p (List.mem_filter.1 hp').1
  rw [h1]
  refine (hperm.map Prod.fst).trans ?_
  rw [diffRoutes_fst, List.filter_map]
  rfl

theorem toAddOf_hosts_nodup (rt : Runtime) (oldRoutes addresses : List URL) :
    ((toAddOf rt oldRoutes addresses).map URL.Host).Nodup :=
  (toAddOf_hosts_perm rt oldRoutes addresses).nodup_iff.2
    ((buildExpected_keyed addresses).nodup.filter _)

theorem mem_toAddOf_hosts (rt : Runtime) (oldRoutes addresses : List URL) (h : String) :
    h ∈ (toAddOf rt oldRoutes addresses).map URL.Host ↔
      h ∈ addresses.map URL.Host ∧ h ∉ oldRoutes.map URL.Host := by
  rw [(toAddOf_hosts_perm rt oldRoutes addresses).mem_iff, List.mem_filter,
    mem_keys_buildExpected]
  simp

theorem toAddOf_subset (rt : Runtime) (oldRoutes addresses : List URL) :
    ∀ v ∈ toAddOf rt oldRoutes addresses, v ∈ addresses := by
  intro v hv
  simp only [toAddOf, List.mem_map] at hv
  obtain ⟨p, hp, rfl⟩ := hv
  have hp' := (rt.rangeOrder_perm _).subset hp
  rw [diffRoutes_fst] at hp'
  exact mem_buildExpected addresses p (List.mem_filter.1 hp').1

theorem toAddOf_length (rt : Runtime) (oldRoutes addresses : List URL) :
    (toAddOf rt oldRoutes addresses).length =
      ((addresses.map URL.Host).toFinset \ (oldRoutes.map URL.Host).toFinset).card := by
  rw [← List.length_map (toAddOf rt oldRoutes addresses) URL.Host,
    ← List.toFinset_card_of_nodup (toAddOf_hosts_nodup rt oldRoutes addresses)]
  congr 1
  ext h
  simp only [List.mem_toFinset, Finset.mem_sdiff]
  exact mem_toAddOf_hosts rt oldRoutes addresses h

theorem toRemoveOf_sublist (oldRoutes addresses : List URL) :
    (toRemoveOf oldRoutes addresses).Sublist oldRoutes :=
  diffRoutes_snd_sublist oldRoutes _

/-- A route whose host is not expected is removed. -/
theorem mem_toRemoveOf_of_unexpected (oldRoutes addresses : List URL) (u : URL)
    (hu : u ∈ oldRoutes) (hh : u.Host ∉ addresses.map URL.Host) :
    u ∈ toRemoveOf oldRoutes addresses := by
  obtain ⟨pre, post, rfl⟩ := List.append_of_mem hu
  rw [toRemoveOf, diffRoutes_snd_split]
  have : ¬(u.Host ∈ (buildExpected addresses).map Prod.fst ∧ u.Host ∉ pre.map URL.Host) := by
    rw [mem_keys_buildExpected]
    exact fun c => hh c.1
  rw [if_neg this]
  simp

/-- A later route with the host of an earlier one is removed. -/
theorem mem_toRemoveOf_of_repeated (pre post addresses : List URL) (u : URL)
    (hh : u.Host ∈ pre.map URL.Host) :
    u ∈ toRemoveOf (pre ++ u :: post) addresses := by
  rw [toRemoveOf, diffRoutes_snd_split]
  have : ¬(u.Host ∈ (buildExpected addresses).map Prod.fst ∧ u.Host ∉ pre.map URL.Host) :=
    fun c => c.2 hh
  rw [if_neg this]
  simp

/-- The first route of an expected host is not removed, as long as the same
route does not come again further down the list. -/
theorem not_mem_toRemoveOf_of_first (pre post addresses : List URL) (u : URL)
    (hh : u.Host ∈ addresses.map URL.Host) (hpre : u.Host ∉ pre.map URL.Host)
    (hpost : u ∉ post) :
    u ∉ toRemoveOf (pre ++ u :: post) addresses := by
  rw [toRemoveOf, diffRoutes_snd_split]
  have hc : u.Host ∈ (buildExpected addresses).map Prod.fst ∧ u.Host ∉ pre.map URL.Host :=
    ⟨(mem_keys_buildExpected addresses u.Host).2 hh, hpre⟩
  rw [if_pos hc]
  simp only [List.nil_append, List.mem_append, not_or]
  refine ⟨?_, ?_⟩
  · intro h
    exact hpre (List.mem_map_of_mem URL.Host ((diffRoutes_snd_sublist pre _).subset h))
  · intro h
    exact hpost ((diffRoutes_snd_sublist post _).subset h)

/-- The first route of an expected host is on `toRemove` exactly when the
same route comes again further down the list. -/
theorem mem_toRemoveOf_first_iff (pre post addresses : List URL) (u : URL)
    (hh : u.Host ∈ addresses.map URL.Host) (hpre : u.Host ∉ pre.map URL.Host) :
    u ∈ toRemoveOf (pre ++ u :: post) addresses ↔ u ∈ post := by
  constructor
  · intro h
    by_contra hpost
    exact not_mem_toRemoveOf_of_first pre post addresses u hh hpre hpost h
  · intro h
    obtain ⟨p1, p2, rfl⟩ := List.append_of_mem h
    have : pre ++ u :: (p1 ++ u :: p2) = (pre ++ u :: p1) ++ u :: p2 := by simp
    rw [this]
    exact mem_toRemoveOf_of_repeated (pre ++ u :: p1) p2 addresses u (by simp)

/-- Of the routes of one host, `toRemove` holds all of them when the host is
not in the map, and all but the first when it is. -/
theorem diffRoutes_snd_filter (h : String) (routes : List URL) :
    ∀ m : HostMap, (diffRoutes routes m).2.filter (fun u => decide (u.Host = h)) =
      if h ∈ m.map Prod.fst then (routes.filter (fun u => decide (u.Host = h))).tail
      else routes.filter (fun u => decide (u.Host = h)) := by
  induction routes with
  | nil => intro m; simp [diffRoutes]
  | cons url rest ih =>
    intro m
    rw [diffRoutes]
    by_cases hm : mapHas m url.Host = true
    · rw [if_pos hm, ih]
      have hk := (mapHas_iff m url.Host).1 hm
      by_cases hu : url.Host = h
      · subst hu
        have hd : url.Host ∉ (mapDelete m url.Host).map Prod.fst := by
          rw [keys_mapDelete]
          simp
        rw [if_neg hd, if_pos hk]
        simp
      · have hd : h ∈ (mapDelete m url.Host).map Prod.fst ↔ h ∈ m.map Prod.fst := by
          rw [keys_mapDelete, List.mem_filter]
          have : h ≠ url.Host := fun e => hu e.symm
          simp [this]
        simp only [hd, List.filter_cons, hu, decide_False, Bool.false_eq_true, if_false]
    · rw [if_neg hm]
      have hk : url.Host ∉ m.map Prod.fst := fun c => hm ((mapHas_iff m url.Host).2 c)
      by_cases hu : url.Host = h
      · subst hu
        simp only [List.filter_cons, decide_True, if_true, ih, if_neg hk]
      · simp only [List.filter_cons, hu, decide_False, Bool.false_eq_true, if_false, ih]

theorem toRemoveOf_filter_host (oldRoutes addresses : List URL) (h : String)
    (hh : h ∈ addresses.map URL.Host) :
    (toRemoveOf oldRoutes addresses).filter (fun u => decide (u.Host = h)) =
      (oldRoutes.filter (fun u => decide (u.Host = h))).tail := by
  rw [toRemoveOf, diffRoutes_snd_filter, if_pos ((mem_keys_buildExpected addresses h).2 hh)]

/-! ## The claims about traces -/

/-- C6 (step order).  Wherever a call stands in the trace of a pass: if it is
`UpdateAddr`, a backend-registration call that returned nil or
`ErrBackendExists` stands before it; if it is `SetCName`, `Routes`,
`RoutableAddresses`, `AddRoute` or `RemoveRoute`, an `UpdateAddr` that
returned nil stands before it. -/
theorem step_order {σ : Type} (rt : Runtime) (app : RebuildApp σ) (s : σ)
    (pre post : List Call) (c : Call)
    (ht : (RebuildRoutes rt app s).trace = pre ++ c :: post) :
    ((∃ e, c = Call.UpdateAddr e) →
        ∃ b ∈ pre, b.isBackend = true ∧
          (b.err = none ∨ b.err = some Error.ErrBackendExists)) ∧
      (c.isAfterUpdateAddr = true → Call.UpdateAddr none ∈ pre) := by
  have hg := RebuildRoutes_good rt app s
  refine ⟨?_, ?_⟩
  · rintro ⟨e, rfl⟩
    obtain ⟨a, ha, hr, hf⟩ := hg.taken_before pre post _ ht 1 (by omega)
      (by simp [Call.rank]) (by omega) (by omega)
    refine ⟨a, ha, ?_, ?_⟩
    · cases a <;> simp [Call.rank] at hr <;> rfl
    · cases a <;> simp [Call.rank] at hr <;>
        simpa [Call.fatal, Call.err, backendFatal_eq_false] using hf
  · intro hc
    obtain ⟨a, ha, hr, hf⟩ := hg.taken_before pre post _ ht 2 (by omega)
      (by cases c <;> simp [Call.isAfterUpdateAddr] at hc <;> simp [Call.rank])
      (by omega) (by omega)
    rw [← rank_two_ok a hr hf]
    exact ha

/-- C7 (a failing route operation aborts the pass).  An `AddRoute` or
`RemoveRoute` call that returns an error is the last call of the pass, and
the pass returns a nil result with exactly that error.  In a pass that got
its addresses and in which no route operation returned an error, the error
is nil and the result lists the string of every address passed to
`AddRoute` and of every route passed to `RemoveRoute`. -/
theorem route_failure_aborts {σ : Type} (rt : Runtime) (app : RebuildApp σ) (s : σ) :
    (∀ (pre post : List Call) (c : Call) (e : Error),
        (RebuildRoutes rt app s).trace = pre ++ c :: post → c.isRouteOp = true →
          c.err = some e →
            post = [] ∧ (RebuildRoutes rt app s).err = some e ∧
              (RebuildRoutes rt app s).result = none) ∧
      (∀ addresses : List URL,
        Call.RoutableAddresses addresses none ∈ (RebuildRoutes rt app s).trace →
          (∀ c ∈ (RebuildRoutes rt app s).trace, c.isRouteOp = true → c.err = none) →
            (RebuildRoutes rt app s).err = none ∧
              (RebuildRoutes rt app s).result =
                some ⟨(addedOf (RebuildRoutes rt app s).trace).map rt.urlString,
                  (removedOf (RebuildRoutes rt app s).trace).map rt.urlString⟩) := by
  have hg := RebuildRoutes_good rt app s
  refine ⟨?_, ?_⟩
  · intro pre post c e ht hc he
    have hf : c.fatal = true := by
      cases c <;> simp [Call.isRouteOp] at hc <;> simp [Call.fatal, he]
    have hmem : c ∈ (RebuildRoutes rt app s).trace := by rw [ht]; simp
    obtain ⟨h1, h2⟩ := hg.fatal_returned c hmem hf
    exact ⟨hg.fatal_last pre post c ht hf, by rw [h2, he], h1⟩
  · intro addresses hA hall
    obtain ⟨oldRoutes, hr⟩ := RebuildRoutes_reached rt app s addresses hA
    have happ := hr.applied
    have herr : (RebuildRoutes rt app s).err = none := by
      cases he : (RebuildRoutes rt app s).err with
      | none => rfl
      | some e =>
        exfalso
        obtain ⟨_, c, hlast, hf, hce⟩ := hg.failed e he
        have hc : c ∈ (RebuildRoutes rt app s).trace := List.mem_of_getLast?_eq_some hlast
        obtain ⟨pre, post, ht⟩ := List.append_of_mem hc
        have hpost := hg.fatal_last pre post c ht hf
        subst hpost
        have hA' := hA
        rw [ht] at hA'
        simp only [List.mem_append, List.mem_singleton] at hA'
        rcases hA' with hA' | hA'
        · have hp := hg.earlier pre [] c ht _ hA'
          have hro : c.isRouteOp = true := by
            rcases hp.2 with h | h
            · cases c <;> simp [Call.rank] at h <;> rfl
            · simp [Call.repeats] at h
          have := hall c hc hro
          rw [this] at hce
          simp at hce
        · rw [← hA'] at hf
          simp [Call.fatal, Call.err] at hf
    obtain ⟨h1, h2, h3⟩ := happ.done herr
    exact ⟨herr, by rw [h3, h1, h2]⟩

/-- In a pass that returns no error, no call returned an error other than
the two tolerated ones, and the routes and the addresses were fetched. -/
theorem success_reached {σ : Type} (rt : Runtime) (app : RebuildApp σ) (s : σ)
    (h : (RebuildRoutes rt app s).err = none) :
    ∃ oldRoutes addresses,
      Call.Routes app.GetName oldRoutes none ∈ (RebuildRoutes rt app s).trace ∧
        Call.RoutableAddresses addresses none ∈ (RebuildRoutes rt app s).trace ∧
        Reached rt app (RebuildRoutes rt app s) oldRoutes addresses := by
  have hg := RebuildRoutes_good rt app s
  obtain ⟨_, hall, h5⟩ := hg.ok h
  obtain ⟨c, hc, hr⟩ := h5 (by omega)
  have hf := hall c hc
  have hcA : ∃ addresses, c = Call.RoutableAddresses addresses none := by
    cases c <;> simp [Call.rank] at hr
    rename_i ret err
    simp only [Call.fatal, Call.err] at hf
    cases err with
    | none => exact ⟨ret, rfl⟩
    | some e => simp at hf
  obtain ⟨addresses, rfl⟩ := hcA
  obtain ⟨oldRoutes, hreach⟩ := RebuildRoutes_reached rt app s addresses hc
  refine ⟨oldRoutes, addresses, ?_, hc, hreach⟩
  obtain ⟨r, s', pre, _, heq⟩ := hreach
  rw [heq]
  simp [Outcome.after]

/-- C9 (content of the result).  A pass that returns no error returns a
result whose `Added` holds, call by call, the string of the address passed
to each `AddRoute`, and whose `Removed` holds, call by call, the string of
the route passed to each `RemoveRoute`; the removed routes come in the
order they have in the list `Routes` returned; with no such call both
sequences are empty. -/
theorem result_content {σ : Type} (rt : Runtime) (app : RebuildApp σ) (s : σ)
    (h : (RebuildRoutes rt app s).err = none) :
    ∃ res, (RebuildRoutes rt app s).result = some res ∧
      res.Added = (addedOf (RebuildRoutes rt app s).trace).map rt.urlString ∧
      res.Removed = (removedOf (RebuildRoutes rt app s).trace).map rt.urlString ∧
      (∃ oldRoutes, Call.Routes app.GetName oldRoutes none ∈ (RebuildRoutes rt app s).trace ∧
        (removedOf (RebuildRoutes rt app s).trace).Sublist oldRoutes) ∧
      (addedOf (RebuildRoutes rt app s).trace = [] →
        removedOf (RebuildRoutes rt app s).trace = [] → res = ⟨[], []⟩) := by
  obtain ⟨oldRoutes, addresses, hO, _, hreach⟩ := success_reached rt app s h
  obtain ⟨h1, h2, h3⟩ := hreach.applied.done h
  refine ⟨_, h3, by rw [h1], by rw [h2], ⟨oldRoutes, hO, ?_⟩, ?_⟩
  · rw [h2]
    exact toRemoveOf_sublist oldRoutes addresses
  · intro ha hr
    rw [← h1, ← h2, ha, hr]
    rfl

/-- C10 (minimality of the applied diff).  In a pass that fetched the routes
`oldRoutes` and the addresses `addresses`: no `AddRoute` is for a host of a
fetched route, no two `AddRoute` calls are for the same host, no host is
both added and removed, and the number of `AddRoute` calls is at most the
number of distinct desired hosts that no fetched route has, and equal to it
when no `AddRoute` call returned an error (as in every pass that returns a
result). -/
theorem minimal_diff {σ : Type} (rt : Runtime) (app : RebuildApp σ) (s : σ)
    (oldRoutes addresses : List URL) (n : String) (e : Option Error)
    (hO : Call.Routes n oldRoutes e ∈ (RebuildRoutes rt app s).trace)
    (hA : Call.RoutableAddresses addresses none ∈ (RebuildRoutes rt app s).trace) :
    (∀ v ∈ addedOf (RebuildRoutes rt app s).trace, v.Host ∉ oldRoutes.map URL.Host) ∧
      ((addedOf (RebuildRoutes rt app s).trace).map URL.Host).Nodup ∧
      (∀ v ∈ addedOf (RebuildRoutes rt app s).trace,
        ∀ w ∈ removedOf (RebuildRoutes rt app s).trace, v.Host ≠ w.Host) ∧
      (addedOf (RebuildRoutes rt app s).trace).length ≤
        ((addresses.map URL.Host).toFinset \ (oldRoutes.map URL.Host).toFinset).card ∧
      ((∀ c ∈ (RebuildRoutes rt app s).trace, c.rank = 6 → c.err = none) →
        (addedOf (RebuildRoutes rt app s).trace).length =
          ((addresses.map URL.Host).toFinset \ (oldRoutes.map URL.Host).toFinset).card) := by
  obtain ⟨oldRoutes', hreach⟩ := RebuildRoutes_reached rt app s addresses hA
  have happ := hreach.applied
  obtain ⟨_, hl, _⟩ := happ.fetched n oldRoutes e hO
  subst hl
  have hsub : ∀ v ∈ addedOf (RebuildRoutes rt app s).trace,
      v ∈ toAddOf rt oldRoutes addresses := fun v hv => happ.added_prefix.subset hv
  have hnot : ∀ v ∈ addedOf (RebuildRoutes rt app s).trace,
      v.Host ∉ oldRoutes.map URL.Host := by
    intro v hv
    exact ((mem_toAddOf_hosts rt oldRoutes addresses v.Host).1
      (List.mem_map_of_mem URL.Host (hsub v hv))).2
  refine ⟨hnot, ?_, ?_, ?_, ?_⟩
  · exact ((happ.added_prefix.sublist.map URL.Host).nodup
      (toAddOf_hosts_nodup rt oldRoutes addresses))
  · intro v hv w hw heq
    have hw' : w ∈ oldRoutes :=
      (toRemoveOf_sublist oldRoutes addresses).subset (happ.removed_prefix.subset hw)
    exact hnot v hv (heq ▸ List.mem_map_of_mem URL.Host hw')
  · rw [← toAddOf_length rt oldRoutes addresses]
    exact happ.added_prefix.length_le
  · intro hall
    rw [happ.added_all hall, toAddOf_length]

/-- In a pass that returns no error, every address passed to `AddRoute` and
every route passed to `RemoveRoute` was passed with the application's name
and the call returned nil. -/
theorem success_calls {σ : Type} (rt : Runtime) (app : RebuildApp σ) (s : σ)
    (oldRoutes addresses : List URL)
    (hreach : Reached rt app (RebuildRoutes rt app s) oldRoutes addresses)
    (h : (RebuildRoutes rt app s).err = none) :
    (∀ v ∈ toAddOf rt oldRoutes addresses,
        Call.AddRoute app.GetName v none ∈ (RebuildRoutes rt app s).trace) ∧
      (∀ v ∈ toRemoveOf oldRoutes addresses,
        Call.RemoveRoute app.GetName v none ∈ (RebuildRoutes rt app s).trace) := by
  have hg := RebuildRoutes_good rt app s
  have happ := hreach.applied
  obtain ⟨h1, h2, _⟩ := happ.done h
  obtain ⟨_, hall, _⟩ := hg.ok h
  refine ⟨?_, ?_⟩
  · intro v hv
    rw [← h1, mem_addedOf] at hv
    obtain ⟨n, e, hc⟩ := hv
    have hn := happ.names n v e (Or.inl hc)
    have hf := hall _ hc
    subst hn
    cases e with
    | none => exact hc
    | some e => simp [Call.fatal, Call.err] at hf
  · intro v hv
    rw [← h2, mem_removedOf] at hv
    obtain ⟨n, e, hc⟩ := hv
    have hn := happ.names n v e (Or.inr hc)
    have hf := hall _ hc
    subst hn
    cases e with
    | none => exact hc
    | some e => simp [Call.fatal, Call.err] at hf

/-- C3, amended (diff by host).  In a pass that returns no error, with
`oldRoutes` the routes fetched and `addresses` the desired addresses:
(i) the first route of each desired host is kept, that is, `RemoveRoute` is
not called on it, unless the same route stands again further down the list:
`RemoveRoute` is called on it exactly when it does (in `[B, B]` the second
entry is removed, and that is a call of `RemoveRoute` on `B`); and
`AddRoute` is called for no host that any fetched route has;
(ii) every fetched route whose host is not desired is passed to
`RemoveRoute`; (iii) for every desired host that no fetched route has,
`AddRoute` is called with a desired address of that host. -/
theorem diff_by_host {σ : Type} (rt : Runtime) (app : RebuildApp σ) (s : σ)
    (oldRoutes addresses : List URL) (n : String) (e : Option Error)
    (hO : Call.Routes n oldRoutes e ∈ (RebuildRoutes rt app s).trace)
    (hA : Call.RoutableAddresses addresses none ∈ (RebuildRoutes rt app s).trace)
    (hok : (RebuildRoutes rt app s).err = none) :
    (∀ (pre post : List URL) (u : URL), oldRoutes = pre ++ u :: post →
        u.Host ∈ addresses.map URL.Host → u.Host ∉ pre.map URL.Host →
          (u ∈ removedOf (RebuildRoutes rt app s).trace ↔ u ∈ post)) ∧
      (∀ u ∈ oldRoutes, ∀ v ∈ addedOf (RebuildRoutes rt app s).trace, v.Host ≠ u.Host) ∧
      (∀ u ∈ oldRoutes, u.Host ∉ addresses.map URL.Host →
        Call.RemoveRoute app.GetName u none ∈ (RebuildRoutes rt app s).trace) ∧
      (∀ h ∈ addresses.map URL.Host, h ∉ oldRoutes.map URL.Host →
        ∃ a ∈ addresses, a.Host = h ∧
          Call.AddRoute app.GetName a none ∈ (RebuildRoutes rt app s).trace) := by
  obtain ⟨oldRoutes', hreach⟩ := RebuildRoutes_reached rt app s addresses hA
  have happ := hreach.applied
  obtain ⟨_, hl, _⟩ := happ.fetched n oldRoutes e hO
  subst hl
  obtain ⟨h1, h2, _⟩ := happ.done hok
  obtain ⟨hadd, hrem⟩ := success_calls rt app s oldRoutes addresses hreach hok
  refine ⟨?_, ?_, ?_, ?_⟩
  · intro pre post u hsplit hh hpre
    rw [h2, hsplit]
    exact mem_toRemoveOf_first_iff pre post addresses u hh hpre
  · intro u hu v hv heq
    rw [h1] at hv
    exact ((mem_toAddOf_hosts rt oldRoutes addresses v.Host).1
      (List.mem_map_of_mem URL.Host hv)).2 (heq ▸ List.mem_map_of_mem URL.Host hu)
  · intro u hu hh
    exact hrem u (mem_toRemoveOf_of_unexpected oldRoutes addresses u hu hh)
  · intro h hh hno
    have hmem := (mem_toAddOf_hosts rt oldRoutes addresses h).2 ⟨hh, hno⟩
    obtain ⟨a, ha, rfl⟩ := List.mem_map.1 hmem
    exact ⟨a, toAddOf_subset rt oldRoutes addresses a ha, rfl, hadd a ha⟩

/-! ## The claims about backend registration and aliases -/

theorem RebuildRoutes_of_router {σ : Type} (rt : Runtime) (app : RebuildApp σ) (s s1 : σ)
    (r : Router σ) (hr : app.GetRouter s = (Except.ok r, s1)) :
    RebuildRoutes rt app s = (withRouter rt app r s1).after [Call.GetRouter none] := by
  unfold RebuildRoutes
  rw [hr]

theorem isBackend_rank (c : Call) (h : c.isBackend = true) : c.rank = 1 := by
  cases c <;> simp [Call.isBackend] at h <;> rfl

/-- How a pass goes on from the backend registration, in terms of what
`registerBackend` returns. -/
theorem withRouter_cases {σ : Type} (rt : Runtime) (app : RebuildApp σ) (s s1 : σ)
    (r : Router σ) (hr : app.GetRouter s = (Except.ok r, s1)) :
    (registerBackend app r s1).2.2 ∈ (RebuildRoutes rt app s).trace ∧
      (∀ c ∈ (RebuildRoutes rt app s).trace, c.isBackend = true →
        c = (registerBackend app r s1).2.2) ∧
      ((registerBackend app r s1).1 = none ∨
          (registerBackend app r s1).1 = some Error.ErrBackendExists →
        RebuildRoutes rt app s =
          (afterBackend rt app r (registerBackend app r s1).2.1).after
            [Call.GetRouter none, (registerBackend app r s1).2.2]) ∧
      (∀ e, (registerBackend app r s1).1 = some e → e ≠ Error.ErrBackendExists →
        RebuildRoutes rt app s =
          ⟨none, some e, (registerBackend app r s1).2.1,
            [Call.GetRouter none, (registerBackend app r s1).2.2]⟩) := by
  have hrr := RebuildRoutes_of_router rt app s s1 r hr
  refine ⟨?_, ?_, ?_, ?_⟩
  · rw [hrr]
    unfold withRouter
    split <;> simp [Outcome.after]
  · intro c hc hb
    have hrank := isBackend_rank c hb
    rw [hrr] at hc
    unfold withRouter at hc
    split at hc
    · simp only [Outcome.after, List.singleton_append, List.mem_cons, List.mem_singleton,
        List.not_mem_nil, or_false] at hc
      rcases hc with rfl | hc
      · simp [Call.rank] at hrank
      · exact hc
    · simp only [Outcome.after, List.singleton_append, List.mem_cons] at hc
      rcases hc with rfl | hc | hc
      · simp [Call.rank] at hrank
      · exact hc
      · have := (afterBackend_good rt app r _).lower c hc
        omega
  · intro h
    have hf : backendFatal (registerBackend app r s1).1 = false :=
      (backendFatal_eq_false _).2 h
    rw [hrr]
    unfold withRouter
    simp [hf, Outcome.after]
  · intro e he hne
    have hf : backendFatal (registerBackend app r s1).1 = true := by
      rw [he]
      simp [backendFatal, hne]
    rw [hrr]
    unfold withRouter
    rw [if_pos hf, he]
    rfl

/-- C4 (backend registration is re-entrant).  Once `GetRouter` has returned
the router `r`, leaving the world `s1`.  When `r` is an `OptsRouter`,
`AddBackendOpts` is called in `s1` with the application's name and router
options, and it is the only backend call of the pass, so `AddBackend` is not
called; when `r` is none, the same holds of `AddBackend` with the
application's name.  When the call returns nil or `ErrBackendExists` the
pass is, in both cases alike, the continuation (lines 45-96) run in the
world that call left; when it returns another error the pass returns a nil
result and that error, in the world that call left, and its trace ends with
the registration call: no `UpdateAddr`, `SetCName`, `Routes`, `AddRoute` or
`RemoveRoute` is called. -/
theorem backend_registration {σ : Type} (rt : Runtime) (app : RebuildApp σ) (s s1 : σ)
    (r : Router σ) (hr : app.GetRouter s = (Except.ok r, s1)) :
    (∀ opt, r.asOptsRouter = some opt →
        Call.AddBackendOpts app.GetName app.GetRouterOpts
            (opt.AddBackendOpts app.GetName app.GetRouterOpts s1).1 ∈
          (RebuildRoutes rt app s).trace ∧
        (∀ c ∈ (RebuildRoutes rt app s).trace, c.isBackend = true →
          c = Call.AddBackendOpts app.GetName app.GetRouterOpts
            (opt.AddBackendOpts app.GetName app.GetRouterOpts s1).1) ∧
        ((opt.AddBackendOpts app.GetName app.GetRouterOpts s1).1 = none ∨
            (opt.AddBackendOpts app.GetName app.GetRouterOpts s1).1 =
              some Error.ErrBackendExists →
          RebuildRoutes rt app s =
            (afterBackend rt app r
              (opt.AddBackendOpts app.GetName app.GetRouterOpts s1).2).after
              [Call.GetRouter none, Call.AddBackendOpts app.GetName app.GetRouterOpts
                (opt.AddBackendOpts app.GetName app.GetRouterOpts s1).1]) ∧
        (∀ e, (opt.AddBackendOpts app.GetName app.GetRouterOpts s1).1 = some e →
          e ≠ Error.ErrBackendExists →
            RebuildRoutes rt app s =
              ⟨none, some e, (opt.AddBackendOpts app.GetName app.GetRouterOpts s1).2,
                [Call.GetRouter none,
                  Call.AddBackendOpts app.GetName app.GetRouterOpts (some e)]⟩)) ∧
      (r.asOptsRouter = none →
        Call.AddBackend app.GetName (r.AddBackend app.GetName s1).1 ∈
          (RebuildRoutes rt app s).trace ∧
        (∀ c ∈ (RebuildRoutes rt app s).trace, c.isBackend = true →
          c = Call.AddBackend app.GetName (r.AddBackend app.GetName s1).1) ∧
        ((r.AddBackend app.GetName s1).1 = none ∨
            (r.AddBackend app.GetName s1).1 = some Error.ErrBackendExists →
          RebuildRoutes rt app s =
            (afterBackend rt app r (r.AddBackend app.GetName s1).2).after
              [Call.GetRouter none,
                Call.AddBackend app.GetName (r.AddBackend app.GetName s1).1]) ∧
        (∀ e, (r.AddBackend app.GetName s1).1 = some e → e ≠ Error.ErrBackendExists →
          RebuildRoutes rt app s =
            ⟨none, some e, (r.AddBackend app.GetName s1).2,
              [Call.GetRouter none, Call.AddBackend app.GetName (some e)]⟩)) := by
  obtain ⟨h1, h2, h3, h4⟩ := withRouter_cases rt app s s1 r hr
  refine ⟨?_, ?_⟩
  · intro opt ho
    have hreg : registerBackend app r s1 =
        ((opt.AddBackendOpts app.GetName app.GetRouterOpts s1).1,
          (opt.AddBackendOpts app.GetName app.GetRouterOpts s1).2,
          Call.AddBackendOpts app.GetName app.GetRouterOpts
            (opt.AddBackendOpts app.GetName app.GetRouterOpts s1).1) := by
      simp [registerBackend, ho]
    rw [hreg] at h1 h2 h3 h4
    refine ⟨h1, h2, h3, ?_⟩
    intro e he hne
    have := h4 e he hne
    rw [he] at this
    exact this
  · intro ho
    have hreg : registerBackend app r s1 =
        ((r.AddBackend app.GetName s1).1, (r.AddBackend app.GetName s1).2,
          Call.AddBackend app.GetName (r.AddBackend app.GetName s1).1) := by
      simp [registerBackend, ho]
    rw [hreg] at h1 h2 h3 h4
    refine ⟨h1, h2, h3, ?_⟩
    intro e he hne
    have := h4 e he hne
    rw [he] at this
    exact this

theorem cnamesOf_append (l₁ l₂ : List Call) :
    cnamesOf (l₁ ++ l₂) = cnamesOf l₁ ++ cnamesOf l₂ := by
  simp [cnamesOf, List.filterMap_append]

theorem cnamesOf_eq_nil (l : List Call) (h : ∀ c ∈ l, c.rank ≠ 3) : cnamesOf l = [] := by
  simp only [cnamesOf, List.filterMap_eq_nil_iff]
  intro c hc
  have := h c hc
  cases c <;> simp [Call.rank] at this <;> rfl

theorem cnamesOf_cnameCalls {σ : Type} (c : CNameRouter σ) (name : String)
    (cnames : List String) : ∀ s : σ, cnamesOf (cnameCalls c name cnames s) = cnames := by
  induction cnames with
  | nil => intro s; rfl
  | cons cn rest ih =>
    intro s
    have := ih (c.SetCName cn name s).2
    simp only [cnamesOf, cnameCalls, List.filterMap_cons, Call.cname?] at this ⊢
    rw [this]

/-- The loop over the cnames when every call is let through: all the calls
are made, each in the world the one before it left. -/
theorem bindCNames_of_all_tolerated {σ : Type} (c : CNameRouter σ) (name : String)
    (cnames : List String) :
    ∀ s : σ, (∀ x ∈ cnameCalls c name cnames s,
        x.err = none ∨ x.err = some Error.ErrCNameExists) →
      bindCNames c name cnames s =
        (none, cnameWorld c name cnames s, cnameCalls c name cnames s) := by
  induction cnames with
  | nil => intro s _; rfl
  | cons cn rest ih =>
    intro s h
    have h0 : cnameFatal (c.SetCName cn name s).1 = false :=
      (cnameFatal_eq_false _).2 (by
        simpa [Call.err] using h _ (List.mem_cons_self _ _))
    have ih' := ih (c.SetCName cn name s).2 (fun x hx => h x (List.mem_cons_of_mem _ hx))
    rw [bindCNames]
    simp only [h0, Bool.false_eq_true, if_false, ih', cnameWorld, cnameCalls]

/-- The loop over the cnames when a call is not let through: the calls before
it are made, each in the world the one before it left, then that call, and
the loop returns its error and the world it left. -/
theorem bindCNames_of_first_fatal {σ : Type} (c : CNameRouter σ) (name : String)
    (pre : List String) (cn : String) (post : List String) (e : Error)
    (hne : e ≠ Error.ErrCNameExists) :
    ∀ s : σ, (∀ x ∈ cnameCalls c name pre s,
        x.err = none ∨ x.err = some Error.ErrCNameExists) →
      (c.SetCName cn name (cnameWorld c name pre s)).1 = some e →
      bindCNames c name (pre ++ cn :: post) s =
        (some e, (c.SetCName cn name (cnameWorld c name pre s)).2,
          cnameCalls c name pre s ++ [Call.SetCName cn name (some e)]) := by
  induction pre with
  | nil =>
    intro s _ he
    simp only [cnameWorld] at he
    have h0 : cnameFatal (some e) = true := by
      simp [cnameFatal, hne]
    rw [List.nil_append, bindCNames]
    simp only [he, h0, if_true, cnameWorld, cnameCalls, List.nil_append]
  | cons p rest ih =>
    intro s h he
    have h0 : cnameFatal (c.SetCName p name s).1 = false :=
      (cnameFatal_eq_false _).2 (by
        simpa [Call.err] using h _ (List.mem_cons_self _ _))
    have ih' := ih (c.SetCName p name s).2
      (fun x hx => h x (List.mem_cons_of_mem _ hx)) he
    rw [List.cons_append, bindCNames]
    simp only [h0, Bool.false_eq_true, if_false, ih', cnameWorld, cnameCalls,
      List.cons_append]

/-- C5 (alias binding).  Once the pass has its router `r`, the backend is
registered and `UpdateAddr` has returned nil, leaving the world `s3`.  If `r`
is no `CNameRouter`, no `SetCName` is called and the pass goes on with
`Routes` in `s3`.  If it is the `CNameRouter` `c`: when each `SetCName` call,
made for the elements of `GetCname` in list order with the application's
name, each in the world the call before it left, returns nil or
`ErrCNameExists`, then exactly these calls are made, once for every element,
and the pass goes on with `Routes` in the world the last of them left; when
the calls for the elements before `cn` return nil or `ErrCNameExists` and
the call for `cn` returns another error, then the calls made are these up
to the one for `cn`, which is the last call of the pass, and the pass
returns a nil result and that error. -/
theorem alias_binding {σ : Type} (rt : Runtime) (app : RebuildApp σ) (s s1 : σ)
    (r : Router σ) (hr : app.GetRouter s = (Except.ok r, s1))
    (hb : backendFatal (registerBackend app r s1).1 = false)
    (hu : (app.UpdateAddr (registerBackend app r s1).2.1).1 = none) :
    (r.asCNameRouter = none →
        cnamesOf (RebuildRoutes rt app s).trace = [] ∧
        RebuildRoutes rt app s =
          (reconcile rt app r (app.UpdateAddr (registerBackend app r s1).2.1).2).after
            [Call.GetRouter none, (registerBackend app r s1).2.2, Call.UpdateAddr none]) ∧
      (∀ c, r.asCNameRouter = some c →
        ((∀ x ∈ cnameCalls c app.GetName app.GetCname
              (app.UpdateAddr (registerBackend app r s1).2.1).2,
            x.err = none ∨ x.err = some Error.ErrCNameExists) →
          cnamesOf (RebuildRoutes rt app s).trace = app.GetCname ∧
          RebuildRoutes rt app s =
            (reconcile rt app r (cnameWorld c app.GetName app.GetCname
              (app.UpdateAddr (registerBackend app r s1).2.1).2)).after
              ([Call.GetRouter none, (registerBackend app r s1).2.2, Call.UpdateAddr none] ++
                cnameCalls c app.GetName app.GetCname
                  (app.UpdateAddr (registerBackend app r s1).2.1).2)) ∧
        (∀ pre cn post e, app.GetCname = pre ++ cn :: post →
          (∀ x ∈ cnameCalls c app.GetName pre
              (app.UpdateAddr (registerBackend app r s1).2.1).2,
            x.err = none ∨ x.err = some Error.ErrCNameExists) →
          (c.SetCName cn app.GetName (cnameWorld c app.GetName pre
            (app.UpdateAddr (registerBackend app r s1).2.1).2)).1 = some e →
          e ≠ Error.ErrCNameExists →
            cnamesOf (RebuildRoutes rt app s).trace = pre ++ [cn] ∧
            RebuildRoutes rt app s =
              ⟨none, some e,
                (c.SetCName cn app.GetName (cnameWorld c app.GetName pre
                  (app.UpdateAddr (registerBackend app r s1).2.1).2)).2,
                [Call.GetRouter none, (registerBackend app r s1).2.2, Call.UpdateAddr none] ++
                  cnameCalls c app.GetName pre
                    (app.UpdateAddr (registerBackend app r s1).2.1).2 ++
                  [Call.SetCName cn app.GetName (some e)]⟩)) := by
  have hrr : RebuildRoutes rt app s =
      (afterUpdateAddr rt app r (app.UpdateAddr (registerBackend app r s1).2.1).2).after
        [Call.GetRouter none, (registerBackend app r s1).2.2, Call.UpdateAddr none] := by
    rw [RebuildRoutes_of_router rt app s s1 r hr]
    unfold withRouter afterBackend
    simp only [hb, Bool.false_eq_true, if_false]
    split
    · rename_i e s' heq
      rw [heq] at hu
      simp at hu
    · rename_i s' heq
      rw [heq]
      simp [Outcome.after]
  have hpre : cnamesOf [Call.GetRouter none, (registerBackend app r s1).2.2,
      Call.UpdateAddr none] = [] := by
    apply cnamesOf_eq_nil
    intro x hx
    simp only [List.mem_cons, List.mem_singleton, List.not_mem_nil, or_false] at hx
    rcases hx with rfl | rfl | rfl
    · simp [Call.rank]
    · rw [(registerBackend_call app r s1).1]
      simp
    · simp [Call.rank]
  have hrec : ∀ s4, cnamesOf (reconcile rt app r s4).trace = [] := by
    intro s4
    apply cnamesOf_eq_nil
    intro x hx
    have := (reconcile_good rt app r s4).lower x hx
    omega
  refine ⟨?_, ?_⟩
  · intro hc
    have hrr' : RebuildRoutes rt app s =
        (reconcile rt app r (app.UpdateAddr (registerBackend app r s1).2.1).2).after
          [Call.GetRouter none, (registerBackend app r s1).2.2, Call.UpdateAddr none] := by
      rw [hrr]
      unfold afterUpdateAddr
      simp [hc]
    refine ⟨?_, hrr'⟩
    rw [hrr']
    simp only [Outcome.after]
    rw [cnamesOf_append, hpre, hrec]
    rfl
  · intro c hc
    refine ⟨?_, ?_⟩
    · intro hall
      have hbind := bindCNames_of_all_tolerated c app.GetName app.GetCname _ hall
      have hrr' : RebuildRoutes rt app s =
          (reconcile rt app r (cnameWorld c app.GetName app.GetCname
            (app.UpdateAddr (registerBackend app r s1).2.1).2)).after
            ([Call.GetRouter none, (registerBackend app r s1).2.2, Call.UpdateAddr none] ++
              cnameCalls c app.GetName app.GetCname
                (app.UpdateAddr (registerBackend app r s1).2.1).2) := by
        rw [hrr]
        unfold afterUpdateAddr
        simp only [hc, hbind]
        simp [Outcome.after]
      refine ⟨?_, hrr'⟩
      rw [hrr']
      simp only [Outcome.after]
      rw [cnamesOf_append, cnamesOf_append, hpre, hrec, cnamesOf_cnameCalls]
      simp
    · intro pre cn post e hsplit hall he hne
      have hbind := bindCNames_of_first_fatal c app.GetName pre cn post e hne _ hall he
      rw [← hsplit] at hbind
      have hrr' : RebuildRoutes rt app s =
          ⟨none, some e,
            (c.SetCName cn app.GetName (cnameWorld c app.GetName pre
              (app.UpdateAddr (registerBackend app r s1).2.1).2)).2,
            [Call.GetRouter none, (registerBackend app r s1).2.2, Call.UpdateAddr none] ++
              cnameCalls c app.GetName pre
                (app.UpdateAddr (registerBackend app r s1).2.1).2 ++
              [Call.SetCName cn app.GetName (some e)]⟩ := by
        rw [hrr]
        unfold afterUpdateAddr
        simp only [hc, hbind]
        simp [Outcome.after]
      refine ⟨?_, hrr'⟩
      rw [hrr']
      simp only []
      rw [cnamesOf_append, cnamesOf_append, hpre, cnamesOf_cnameCalls]
      simp [cnamesOf, Call.cname?]

/-! ## Stage by stage: how each step hands over to the next -/

theorem RebuildRoutes_of_error {σ : Type} (rt : Runtime) (app : RebuildApp σ) (s : σ)
    (e : Error) (h : (app.GetRouter s).1 = Except.error e) :
    RebuildRoutes rt app s = ⟨none, some e, (app.GetRouter s).2, [Call.GetRouter (some e)]⟩ := by
  unfold RebuildRoutes
  split
  · rename_i e' s' heq
    rw [heq] at h ⊢
    simp only [Except.error.injEq] at h
    rw [h]
  · rename_i r s' heq
    rw [heq] at h
    simp at h

theorem RebuildRoutes_of_ok {σ : Type} (rt : Runtime) (app : RebuildApp σ) (s : σ)
    (r : Router σ) (h : (app.GetRouter s).1 = Except.ok r) :
    RebuildRoutes rt app s =
      (withRouter rt app r (app.GetRouter s).2).after [Call.GetRouter none] :=
  RebuildRoutes_of_router rt app s _ r (by rw [← h])

theorem withRouter_of_ok {σ : Type} (rt : Runtime) (app : RebuildApp σ) (r : Router σ) (s : σ)
    (h : backendFatal (registerBackend app r s).1 = false) :
    withRouter rt app r s =
      (afterBackend rt app r (registerBackend app r s).2.1).after
        [(registerBackend app r s).2.2] := by
  unfold withRouter
  simp [h]

theorem withRouter_of_fatal {σ : Type} (rt : Runtime) (app : RebuildApp σ) (r : Router σ)
    (s : σ) (h : backendFatal (registerBackend app r s).1 = true) :
    withRouter rt app r s =
      ⟨none, (registerBackend app r s).1, (registerBackend app r s).2.1,
        [(registerBackend app r s).2.2]⟩ := by
  unfold withRouter
  simp [h]

theorem afterBackend_of_ok {σ : Type} (rt : Runtime) (app : RebuildApp σ) (r : Router σ)
    (s : σ) (h : (app.UpdateAddr s).1 = none) :
    afterBackend rt app r s =
      (afterUpdateAddr rt app r (app.UpdateAddr s).2).after [Call.UpdateAddr none] := by
  unfold afterBackend
  split
  · rename_i e s' heq
    rw [heq] at h
    simp at h
  · rename_i s' heq
    rw [heq]

theorem afterBackend_of_err {σ : Type} (rt : Runtime) (app : RebuildApp σ) (r : Router σ)
    (s : σ) (e : Error) (h : (app.UpdateAddr s).1 = some e) :
    afterBackend rt app r s =
      ⟨none, some e, (app.UpdateAddr s).2, [Call.UpdateAddr (some e)]⟩ := by
  unfold afterBackend
  split
  · rename_i e' s' heq
    rw [heq] at h ⊢
    simp only [Option.some.injEq] at h
    rw [h]
  · rename_i s' heq
    rw [heq] at h
    simp at h

theorem afterUpdateAddr_of_none {σ : Type} (rt : Runtime) (app : RebuildApp σ) (r : Router σ)
    (s : σ) (h : r.asCNameRouter = none) :
    afterUpdateAddr rt app r s = reconcile rt app r s := by
  unfold afterUpdateAddr
  simp [h]

theorem afterUpdateAddr_of_ok {σ : Type} (rt : Runtime) (app : RebuildApp σ) (r : Router σ)
    (s : σ) (c : CNameRouter σ) (h : r.asCNameRouter = some c)
    (hl : (bindCNames c app.GetName app.GetCname s).1 = none) :
    afterUpdateAddr rt app r s =
      (reconcile rt app r (bindCNames c app.GetName app.GetCname s).2.1).after
        (bindCNames c app.GetName app.GetCname s).2.2 := by
  unfold afterUpdateAddr
  simp only [h]
  split
  · rename_i e s' tr heq
    rw [heq] at hl
    simp at hl
  · rename_i s' tr heq
    rw [heq]

theorem afterUpdateAddr_of_err {σ : Type} (rt : Runtime) (app : RebuildApp σ) (r : Router σ)
    (s : σ) (c : CNameRouter σ) (e : Error) (h : r.asCNameRouter = some c)
    (hl : (bindCNames c app.GetName app.GetCname s).1 = some e) :
    afterUpdateAddr rt app r s =
      ⟨none, some e, (bindCNames c app.GetName app.GetCname s).2.1,
        (bindCNames c app.GetName app.GetCname s).2.2⟩ := by
  unfold afterUpdateAddr
  simp only [h]
  split
  · rename_i e' s' tr heq
    rw [heq] at hl ⊢
    simp only [Option.some.injEq] at hl
    rw [hl]
  · rename_i s' tr heq
    rw [heq] at hl
    simp at hl

theorem bindCNames_frame {σ β : Type} (c : CNameRouter σ) (name : String) (obs : σ → β)
    (hf : ∀ cname s, obs (c.SetCName cname name s).2 = obs s) (cnames : List String) :
    ∀ s : σ, obs (bindCNames c name cnames s).2.1 = obs s := by
  induction cnames with
  | nil => intro s; simp [bindCNames]
  | cons cn rest ih =>
    intro s
    rw [bindCNames]
    split
    · exact hf cn s
    · exact (ih _).trans (hf cn s)

theorem bindCNames_tolerated {σ : Type} (c : CNameRouter σ) (name : String)
    (cnames : List String) :
    ∀ s : σ, (bindCNames c name cnames s).1 = none →
      ∀ cn ∈ cnames, ∃ s', cnameFatal (c.SetCName cn name s').1 = false := by
  induction cnames with
  | nil => intro s _ cn hcn; simp at hcn
  | cons cn rest ih =>
    intro s h cn' hcn'
    rw [bindCNames] at h
    split at h
    · rename_i hf
      simp only at h
      rw [h] at hf
      simp [cnameFatal] at hf
    · rename_i hf
      simp only [List.mem_cons] at hcn'
      rcases hcn' with rfl | hcn'
      · exact ⟨s, by simpa using hf⟩
      · exact ih _ h cn' hcn'

theorem bindCNames_of_tolerated {σ : Type} (c : CNameRouter σ) (name : String)
    (cnames : List String)
    (hc : ∀ cn ∈ cnames, ∀ s, cnameFatal (c.SetCName cn name s).1 = false) :
    ∀ s : σ, (bindCNames c name cnames s).1 = none := by
  induction cnames with
  | nil => intro s; simp [bindCNames]
  | cons cn rest ih =>
    intro s
    rw [bindCNames]
    have := hc cn (List.mem_cons_self _ _) s
    simp only [this, Bool.false_eq_true, if_false]
    exact ih (fun cn' h' => hc cn' (List.mem_cons_of_mem _ h')) _

/-- Either the steps before `Routes` all go through and the pass is lines
57-96 after them, or the pass stops in one of them with an error, having
made no call of a later step and changed nothing that only route operations
change. -/
theorem RebuildRoutes_split {σ : Type} (rt : Runtime) (app : RebuildApp σ) (s : σ) :
    (∃ r s4 pre, Prelude app s r s4 pre ∧
        RebuildRoutes rt app s = (reconcile rt app r s4).after pre) ∨
      ((RebuildRoutes rt app s).err ≠ none ∧
        (∀ c ∈ (RebuildRoutes rt app s).trace, c.rank < 4) ∧
        (∀ (β : Type) (obs : σ → β), Frame app obs →
          obs (RebuildRoutes rt app s).state = obs s) ∧
        PreludeFails app s) := by
  cases hG : (app.GetRouter s).1 with
  | error e =>
    right
    rw [RebuildRoutes_of_error rt app s e hG]
    exact ⟨by simp, by simp [Call.rank], fun β obs hF => hF.getRouter s, Or.inl ⟨e, hG⟩⟩
  | ok r =>
    rw [RebuildRoutes_of_ok rt app s r hG]
    have hbc := registerBackend_call app r (app.GetRouter s).2
    cases hB : backendFatal (registerBackend app r (app.GetRouter s).2).1 with
    | true =>
      right
      rw [withRouter_of_fatal rt app r _ hB]
      refine ⟨?_, ?_, ?_⟩
      · simp only [Outcome.after]
        intro h
        rw [h] at hB
        simp [backendFatal] at hB
      · intro c hc
        simp only [Outcome.after, List.singleton_append, List.mem_cons, List.mem_singleton,
          List.not_mem_nil, or_false] at hc
        rcases hc with rfl | rfl
        · simp [Call.rank]
        · rw [hbc.1]; omega
      · exact ⟨fun β obs hF => ((hF.router s r hG).backend _).trans (hF.getRouter s),
          Or.inr ⟨r, hG, Or.inl ⟨_, hB⟩⟩⟩
    | false =>
      rw [withRouter_of_ok rt app r _ hB]
      cases hU : (app.UpdateAddr (registerBackend app r (app.GetRouter s).2).2.1).1 with
      | some e =>
        right
        rw [afterBackend_of_err rt app r _ e hU]
        refine ⟨by simp [Outcome.after], ?_, ?_⟩
        · intro c hc
          simp only [Outcome.after, List.singleton_append, List.mem_cons, List.mem_singleton,
            List.not_mem_nil, or_false] at hc
          rcases hc with rfl | rfl | rfl
          · simp [Call.rank]
          · rw [hbc.1]; omega
          · simp [Call.rank]
        · exact ⟨fun β obs hF => (hF.updateAddr _).trans
            (((hF.router s r hG).backend _).trans (hF.getRouter s)),
            Or.inr ⟨r, hG, Or.inr (Or.inl ⟨_, e, hU⟩)⟩⟩
      | none =>
        rw [afterBackend_of_ok rt app r _ hU]
        have hframe3 : ∀ (β : Type) (obs : σ → β), Frame app obs →
            obs (app.UpdateAddr (registerBackend app r (app.GetRouter s).2).2.1).2 = obs s :=
          fun β obs hF => (hF.updateAddr _).trans
            (((hF.router s r hG).backend _).trans (hF.getRouter s))
        have hhead : ∀ c ∈ [Call.GetRouter none,
            (registerBackend app r (app.GetRouter s).2).2.2, Call.UpdateAddr none],
            c.rank < 4 := by
          intro c hc
          simp only [List.mem_cons, List.mem_singleton, List.not_mem_nil, or_false] at hc
          rcases hc with rfl | rfl | rfl
          · simp [Call.rank]
          · rw [hbc.1]; omega
          · simp [Call.rank]
        cases hC : r.asCNameRouter with
        | none =>
          left
          rw [afterUpdateAddr_of_none rt app r _ hC]
          refine ⟨r, _, [Call.GetRouter none,
            (registerBackend app r (app.GetRouter s).2).2.2, Call.UpdateAddr none],
            ⟨hG, hframe3, hhead, ⟨_, hB⟩, ⟨_, hU⟩, ?_⟩, by simp [Outcome.after]⟩
          intro c hc
          rw [hC] at hc
          simp at hc
        | some c =>
          have hcalls := bindCNames_calls c app.GetName app.GetCname
            (app.UpdateAddr (registerBackend app r (app.GetRouter s).2).2.1).2
          cases hL : (bindCNames c app.GetName app.GetCname
              (app.UpdateAddr (registerBackend app r (app.GetRouter s).2).2.1).2).1 with
          | some e =>
            right
            rw [afterUpdateAddr_of_err rt app r _ c e hC hL]
            refine ⟨by simp [Outcome.after], ?_, ?_⟩
            · intro x hx
              simp only [Outcome.after, List.singleton_append, List.mem_cons] at hx
              rcases hx with rfl | rfl | rfl | hx
              · simp [Call.rank]
              · rw [hbc.1]; omega
              · simp [Call.rank]
              · obtain ⟨cn, e', rfl⟩ := hcalls x hx
                simp [Call.rank]
            · exact ⟨fun β obs hF => (bindCNames_frame c app.GetName obs
                ((hF.router s r hG).setCName c hC) app.GetCname _).trans (hframe3 β obs hF),
                Or.inr ⟨r, hG, Or.inr (Or.inr ⟨c, _, e, hC, hL⟩)⟩⟩
          | none =>
            left
            rw [afterUpdateAddr_of_ok rt app r _ c hC hL]
            refine ⟨r, (bindCNames c app.GetName app.GetCname
                (app.UpdateAddr (registerBackend app r (app.GetRouter s).2).2.1).2).2.1,
              [Call.GetRouter none,
              (registerBackend app r (app.GetRouter s).2).2.2, Call.UpdateAddr none] ++
                (bindCNames c app.GetName app.GetCname
                  (app.UpdateAddr (registerBackend app r (app.GetRouter s).2).2.1).2).2.2,
              ⟨hG, ?_, ?_, ⟨_, hB⟩, ⟨_, hU⟩, ?_⟩, by simp [Outcome.after]⟩
            · intro β obs hF
              exact (bindCNames_frame c app.GetName obs
                ((hF.router s r hG).setCName c hC) app.GetCname _).trans (hframe3 β obs hF)
            · intro x hx
              simp only [List.mem_append] at hx
              rcases hx with hx | hx
              · exact hhead x hx
              · obtain ⟨cn, e', rfl⟩ := hcalls x hx
                simp [Call.rank]
            · intro c' hc'
              rw [hC] at hc'
              simp only [Option.some.injEq] at hc'
              subst hc'
              exact bindCNames_tolerated c app.GetName app.GetCname _ hL

theorem addRoutes_trace_nil {σ : Type} (rt : Runtime) (r : Router σ) (name : String)
    (l : List URL) (s : σ) (h : (addRoutes rt r name l s).trace = []) : l = [] := by
  cases l with
  | nil => rfl
  | cons u rest =>
    rw [addRoutes] at h
    split at h <;> simp at h

theorem removeRoutes_trace_nil {σ : Type} (rt : Runtime) (r : Router σ) (name : String)
    (l : List URL) (s : σ) (h : (removeRoutes rt r name l s).trace = []) : l = [] := by
  cases l with
  | nil => rfl
  | cons u rest =>
    rw [removeRoutes] at h
    split at h <;> simp at h

theorem applyRoutes_nil {σ : Type} (rt : Runtime) (r : Router σ) (name : String) (s : σ) :
    applyRoutes rt r name [] [] s = ⟨some ⟨[], []⟩, none, s, []⟩ := by
  simp [applyRoutes, addRoutes, removeRoutes]

/-- A pass through lines 79-96 that makes no call leaves the world as it is. -/
theorem applyRoutes_state_of_no_call {σ : Type} (rt : Runtime) (r : Router σ) (name : String)
    (toAdd toRemove : List URL) (s : σ)
    (h : (applyRoutes rt r name toAdd toRemove s).trace = []) :
    (applyRoutes rt r name toAdd toRemove s).state = s := by
  rcases applyRoutes_cases rt r name toAdd toRemove s with
    ⟨e, p, u, q, _, _, _, ht⟩ | ⟨e, p, u, q, _, _, _, ht⟩ | ⟨_, _, ht⟩
  · rw [ht] at h; simp at h
  · rw [ht] at h; simp at h
  · rw [ht] at h
    simp only [List.append_eq_nil, List.map_eq_nil_iff] at h
    rw [h.1, h.2, applyRoutes_nil]

theorem reconcile_frame {σ β : Type} (rt : Runtime) (app : RebuildApp σ) (r : Router σ)
    (obs : σ → β) (hr : RouterFrame app r obs)
    (ha : ∀ s, obs (app.RoutableAddresses s).2 = obs s) (s : σ)
    (h : ∀ c ∈ (reconcile rt app r s).trace, c.rank < 6) :
    obs (reconcile rt app r s).state = obs s := by
  unfold reconcile at h ⊢
  split
  · rename_i oldRoutes e s1 heq
    have := hr.routes s
    rw [heq] at this
    exact this
  · rename_i oldRoutes s1 heq
    have h1 := hr.routes s
    rw [heq] at h1
    split
    · rename_i addresses e s2 heq2
      have h2 := ha s1
      rw [heq2] at h2
      exact h2.trans h1
    · rename_i addresses s2 heq2
      have h2 := ha s1
      rw [heq2] at h2
      have hnil : (applyRoutes rt r app.GetName (toAddOf rt oldRoutes addresses)
          (toRemoveOf oldRoutes addresses) s2).trace = [] := by
        apply List.eq_nil_iff_forall_not_mem.2
        intro c hc
        have h6 := (applyRoutes_good rt r app.GetName _ _ s2).lower c hc
        have := h c (by simp [heq, heq2, Outcome.after, hc])
        omega
      simp only [Outcome.after]
      rw [applyRoutes_state_of_no_call rt r app.GetName _ _ s2 hnil]
      exact h2.trans h1

/-- A pass that makes no `AddRoute` and no `RemoveRoute` call changes
nothing that only these two operations change. -/
theorem state_of_no_route_op {σ β : Type} (rt : Runtime) (app : RebuildApp σ) (s : σ)
    (obs : σ → β) (hF : Frame app obs)
    (h : ∀ c ∈ (RebuildRoutes rt app s).trace, c.rank < 6) :
    obs (RebuildRoutes rt app s).state = obs s := by
  rcases RebuildRoutes_split rt app s with ⟨r, s4, pre, hp, heq⟩ | ⟨_, _, hfr, _⟩
  · rw [heq] at h ⊢
    have := reconcile_frame rt app r obs (hF.router s r hp.router) hF.addresses s4
      (fun c hc => h c (by simp [Outcome.after, hc]))
    simp only [Outcome.after]
    exact this.trans (hp.frame β obs hF)
  · exact hfr β obs hF

/-- C8 (early errors short-circuit).  When `GetRouter`, `UpdateAddr`,
`Routes` or `RoutableAddresses` returns an error, the pass returns a nil
result and that error, the failing call is its last call, every call made
before it belongs to an earlier step, no `AddRoute` or `RemoveRoute` is
issued, and whatever only route operations change (such as the route set of
the application) is as it was before the pass. -/
theorem early_error_short_circuits {σ β : Type} (rt : Runtime) (app : RebuildApp σ) (s : σ)
    (obs : σ → β) (hF : Frame app obs) (pre post : List Call) (c : Call) (e : Error)
    (ht : (RebuildRoutes rt app s).trace = pre ++ c :: post)
    (hc : c = Call.GetRouter (some e) ∨ c = Call.UpdateAddr (some e) ∨
      (∃ n l, c = Call.Routes n l (some e)) ∨ ∃ l, c = Call.RoutableAddresses l (some e)) :
    (RebuildRoutes rt app s).result = none ∧ (RebuildRoutes rt app s).err = some e ∧
      post = [] ∧ (∀ a ∈ pre, a.rank < c.rank) ∧
      (∀ a ∈ (RebuildRoutes rt app s).trace, a.isRouteOp = false) ∧
      obs (RebuildRoutes rt app s).state = obs s := by
  have hg := RebuildRoutes_good rt app s
  have hfacts : c.fatal = true ∧ c.err = some e ∧ c.rank < 6 ∧ c.repeats = false := by
    rcases hc with rfl | rfl | ⟨n, l, rfl⟩ | ⟨l, rfl⟩ <;>
      simp [Call.fatal, Call.err, Call.rank, Call.repeats]
  obtain ⟨hf, he, hr6, hrep⟩ := hfacts
  have hmem : c ∈ (RebuildRoutes rt app s).trace := by rw [ht]; simp
  obtain ⟨h1, h2⟩ := hg.fatal_returned c hmem hf
  have hpost := hg.fatal_last pre post c ht hf
  have hpre : ∀ a ∈ pre, a.rank < c.rank := by
    intro a ha
    rcases (hg.earlier pre post c ht a ha).2 with h | h
    · exact h
    · have h3 : a.rank < 6 := by omega
      have h4 := h.2
      cases a <;> simp [Call.repeats] at h4 <;> simp [Call.rank] at h3 h ⊢
      · cases c <;> simp [Call.rank, Call.repeats] at h hrep
  have hall : ∀ a ∈ (RebuildRoutes rt app s).trace, a.rank < 6 := by
    intro a ha
    rw [ht, hpost] at ha
    simp only [List.mem_append, List.mem_singleton] at ha
    rcases ha with ha | rfl
    · have := hpre a ha
      omega
    · exact hr6
  refine ⟨h1, by rw [h2, he], hpost, hpre, ?_, state_of_no_route_op rt app s obs hF hall⟩
  intro a ha
  have := hall a ha
  cases a <;> simp [Call.rank] at this <;> rfl

theorem finalRoutes_hosts_nodup (rt : Runtime) (oldRoutes addresses : List URL) :
    ((finalRoutes rt oldRoutes addresses).map URL.Host).Nodup := by
  rw [finalRoutes, List.map_append, List.nodup_append]
  refine ⟨keptRoutes_hosts_nodup _ _, toAddOf_hosts_nodup rt _ _, ?_⟩
  intro h hk ht
  exact ((mem_toAddOf_hosts rt oldRoutes addresses h).1 ht).2
    ((mem_hosts_keptRoutes oldRoutes h _).1 hk).2

theorem mem_finalRoutes_hosts (rt : Runtime) (oldRoutes addresses : List URL) (h : String) :
    h ∈ (finalRoutes rt oldRoutes addresses).map URL.Host ↔ h ∈ addresses.map URL.Host := by
  rw [finalRoutes, List.map_append, List.mem_append, mem_hosts_keptRoutes,
    mem_toAddOf_hosts, mem_keys_buildExpected]
  tauto

theorem finalRoutes_toFinset (rt : Runtime) (oldRoutes addresses : List URL)
    (hn : oldRoutes.Nodup) :
    (oldRoutes.toFinset ∪ (toAddOf rt oldRoutes addresses).toFinset) \
        (toRemoveOf oldRoutes addresses).toFinset =
      (finalRoutes rt oldRoutes addresses).toFinset := by
  have hperm := keptRoutes_perm oldRoutes (buildExpected addresses)
  have hnd : (keptRoutes oldRoutes (buildExpected addresses) ++
      toRemoveOf oldRoutes addresses).Nodup := hperm.nodup_iff.1 hn
  have hdisj := (List.nodup_append.1 hnd).2.2
  ext v
  simp only [Finset.mem_sdiff, Finset.mem_union, List.mem_toFinset, finalRoutes,
    List.mem_append]
  have hmem : v ∈ oldRoutes ↔ v ∈ keptRoutes oldRoutes (buildExpected addresses) ∨
      v ∈ toRemoveOf oldRoutes addresses := by
    rw [hperm.mem_iff, List.mem_append]
    rfl
  constructor
  · rintro ⟨h | h, hnot⟩
    · rcases hmem.1 h with h' | h'
      · exact Or.inl h'
      · exact absurd h' hnot
    · exact Or.inr h
  · rintro (h | h)
    · exact ⟨Or.inl (hmem.2 (Or.inl h)), fun hr => hdisj h hr⟩
    · refine ⟨Or.inr h, fun hr => ?_⟩
      have h1 := (mem_toAddOf_hosts rt oldRoutes addresses v.Host).1
        (List.mem_map_of_mem URL.Host h)
      exact h1.2 (List.mem_map_of_mem URL.Host ((toRemoveOf_sublist _ _).subset hr))

/-- Routes with pairwise distinct hosts, all of them expected, are all kept. -/
theorem diffRoutes_snd_of_settled (routes : List URL) :
    ∀ m : HostMap, (routes.map URL.Host).Nodup →
      (∀ h ∈ routes.map URL.Host, h ∈ m.map Prod.fst) → (diffRoutes routes m).2 = [] := by
  induction routes with
  | nil => intro m _ _; simp [diffRoutes]
  | cons u rest ih =>
    intro m hn hall
    rw [List.map_cons, List.nodup_cons] at hn
    have hu : mapHas m u.Host = true :=
      (mapHas_iff m u.Host).2 (hall u.Host (by simp))
    rw [diffRoutes, if_pos hu]
    apply ih _ hn.2
    intro h hh
    rw [keys_mapDelete, List.mem_filter]
    refine ⟨hall h (by simp [hh]), ?_⟩
    have : h ≠ u.Host := fun e => hn.1 (e ▸ hh)
    simpa using this

/-- A route list with one route per desired host and no other route is a
fixed point: nothing is to be added, nothing to be removed. -/
theorem settled_fixed (rt : Runtime) (routes addresses : List URL)
    (hn : (routes.map URL.Host).Nodup)
    (hh : ∀ h, h ∈ routes.map URL.Host ↔ h ∈ addresses.map URL.Host) :
    toAddOf rt routes addresses = [] ∧ toRemoveOf routes addresses = [] := by
  refine ⟨?_, ?_⟩
  · have hnil : (diffRoutes routes (buildExpected addresses)).1 = [] := by
      rw [diffRoutes_fst, List.filter_eq_nil_iff]
      intro p hp
      have : p.1 ∈ routes.map URL.Host :=
        (hh p.1).2 ((mem_keys_buildExpected addresses p.1).1 (List.mem_map_of_mem Prod.fst hp))
      simpa using this
    have := rt.rangeOrder_perm (diffRoutes routes (buildExpected addresses)).1
    rw [hnil] at this
    rw [toAddOf, hnil, this.eq_nil]
    rfl
  · exact diffRoutes_snd_of_settled routes _ hn
      (fun h hm => (mem_keys_buildExpected addresses h).2 ((hh h).1 hm))

/-- Any duplicate-free listing of the routes left by a pass without error is
a fixed point. -/
theorem finalRoutes_fixed (rt rt' : Runtime) (oldRoutes addresses routes : List URL)
    (hn : routes.Nodup)
    (hs : routes.toFinset = (finalRoutes rt oldRoutes addresses).toFinset) :
    toAddOf rt' routes addresses = [] ∧ toRemoveOf routes addresses = [] := by
  have hfn : (finalRoutes rt oldRoutes addresses).Nodup :=
    (finalRoutes_hosts_nodup rt oldRoutes addresses).of_map _
  have hperm : routes.Perm (finalRoutes rt oldRoutes addresses) :=
    List.perm_of_nodup_nodup_toFinset_eq hn hfn hs
  apply settled_fixed
  · exact (hperm.map URL.Host).nodup_iff.2 (finalRoutes_hosts_nodup rt oldRoutes addresses)
  · intro h
    rw [(hperm.map URL.Host).mem_iff]
    exact mem_finalRoutes_hosts rt oldRoutes addresses h

theorem addRoutes_routeSet {σ : Type} (rt : Runtime) (r : Router σ) (name : String)
    (routeSet : σ → Finset URL)
    (hadd : ∀ s u, (r.AddRoute name u s).1 = none →
      routeSet (r.AddRoute name u s).2 = insert u (routeSet s))
    (l : List URL) :
    ∀ s : σ, (addRoutes rt r name l s).err = none →
      routeSet (addRoutes rt r name l s).state = routeSet s ∪ l.toFinset := by
  induction l with
  | nil => intro s _; simp [addRoutes]
  | cons u rest ih =>
    intro s h
    rw [addRoutes] at h ⊢
    split at h
    · simp at h
    · rename_i s' heq
      simp only [heq]
      simp only at h
      have h1 := hadd s u (by rw [heq])
      rw [heq] at h1
      simp only at h1
      rw [ih s' h, h1]
      ext v
      simp only [Finset.mem_union, Finset.mem_insert, List.toFinset_cons]
      tauto

theorem removeRoutes_routeSet {σ : Type} (rt : Runtime) (r : Router σ) (name : String)
    (routeSet : σ → Finset URL)
    (hrem : ∀ s u, (r.RemoveRoute name u s).1 = none →
      routeSet (r.RemoveRoute name u s).2 = (routeSet s).erase u)
    (l : List URL) :
    ∀ s : σ, (removeRoutes rt r name l s).err = none →
      routeSet (removeRoutes rt r name l s).state = routeSet s \ l.toFinset := by
  induction l with
  | nil => intro s _; simp [removeRoutes]
  | cons u rest ih =>
    intro s h
    rw [removeRoutes] at h ⊢
    split at h
    · simp at h
    · rename_i s' heq
      simp only [heq]
      simp only at h
      have h1 := hrem s u (by rw [heq])
      rw [heq] at h1
      simp only at h1
      rw [ih s' h, h1]
      ext v
      simp only [Finset.mem_sdiff, Finset.mem_erase, List.toFinset_cons, Finset.mem_insert,
        List.mem_toFinset]
      tauto

theorem applyRoutes_routeSet {σ : Type} (rt : Runtime) (r : Router σ) (name : String)
    (routeSet : σ → Finset URL)
    (hadd : ∀ s u, (r.AddRoute name u s).1 = none →
      routeSet (r.AddRoute name u s).2 = insert u (routeSet s))
    (hrem : ∀ s u, (r.RemoveRoute name u s).1 = none →
      routeSet (r.RemoveRoute name u s).2 = (routeSet s).erase u)
    (toAdd toRemove : List URL) (s : σ)
    (h : (applyRoutes rt r name toAdd toRemove s).err = none) :
    routeSet (applyRoutes rt r name toAdd toRemove s).state =
      (routeSet s ∪ toAdd.toFinset) \ toRemove.toFinset := by
  unfold applyRoutes at h ⊢
  cases ha : (addRoutes rt r name toAdd s).err with
  | some e => simp [ha] at h
  | none =>
    simp only [ha] at h ⊢
    cases hd : (removeRoutes rt r name toRemove (addRoutes rt r name toAdd s).state).err with
    | some e => simp [hd] at h
    | none =>
      simp only [hd]
      rw [removeRoutes_routeSet rt r name routeSet hrem toRemove _ hd,
        addRoutes_routeSet rt r name routeSet hadd toAdd s ha]

/-- With a faithful router lines 57-96 always get to applying the diff, of a
duplicate-free listing of the route set against the desired addresses. -/
theorem reconcile_faithful {σ : Type} (rt : Runtime) (app : RebuildApp σ) (r : Router σ)
    (routeSet : σ → Finset URL) (addresses : List URL)
    (hF : Faithful app r routeSet addresses) (s : σ) :
    ∃ oldRoutes s2, oldRoutes.Nodup ∧ oldRoutes.toFinset = routeSet s ∧
      routeSet s2 = routeSet s ∧
      reconcile rt app r s =
        (applyRoutes rt r app.GetName (toAddOf rt oldRoutes addresses)
          (toRemoveOf oldRoutes addresses) s2).after
          [Call.Routes app.GetName oldRoutes none, Call.RoutableAddresses addresses none] := by
  obtain ⟨hl1, hl2, hl3⟩ := hF.listing s
  have hd := hF.desired (r.Routes app.GetName s).2
  have hfr := (hF.frame.router s r (hF.router s)).routes s
  have hfa := hF.frame.addresses (r.Routes app.GetName s).2
  refine ⟨(r.Routes app.GetName s).1.1, (app.RoutableAddresses (r.Routes app.GetName s).2).2,
    hl2, hl3, hfa.trans hfr, ?_⟩
  unfold reconcile
  split
  · rename_i oldRoutes e s1 heq
    rw [heq] at hl1
    simp at hl1
  · rename_i oldRoutes s1 heq
    rw [heq] at hd
    simp only at hd
    split
    · rename_i addresses' e s2 heq2
      rw [heq2] at hd
      simp at hd
    · rename_i addresses' s2 heq2
      rw [heq2] at hd
      simp only [Prod.mk.injEq, and_true] at hd
      subst hd
      simp [heq, heq2]

/-- After a pass without error against a faithful router the route set is
that of the kept and the added routes, for a duplicate-free listing
`oldRoutes` of the route set before the pass. -/
theorem faithful_pass {σ : Type} (rt : Runtime) (app : RebuildApp σ) (r : Router σ)
    (routeSet : σ → Finset URL) (addresses : List URL)
    (hF : Faithful app r routeSet addresses) (s : σ)
    (h : (RebuildRoutes rt app s).err = none) :
    ∃ oldRoutes s4 pre, Prelude app s r s4 pre ∧ oldRoutes.Nodup ∧
      oldRoutes.toFinset = routeSet s ∧
      routeSet (RebuildRoutes rt app s).state =
        (finalRoutes rt oldRoutes addresses).toFinset := by
  rcases RebuildRoutes_split rt app s with ⟨r', s4, pre, hp, heq⟩ | ⟨hne, _⟩
  · have hr : r' = r := by
      have h1 := hp.router
      rw [hF.router s] at h1
      simp only [Except.ok.injEq] at h1
      exact h1.symm
    subst hr
    obtain ⟨oldRoutes, s2, hn, hset, hs2, hrec⟩ :=
      reconcile_faithful rt app r' routeSet addresses hF s4
    have hs4 : routeSet s4 = routeSet s := hp.frame _ routeSet hF.frame
    rw [heq, hrec] at h
    simp only [Outcome.after] at h
    refine ⟨oldRoutes, s4, pre, hp, hn, hset.trans hs4, ?_⟩
    rw [heq, hrec]
    simp only [Outcome.after]
    rw [applyRoutes_routeSet rt r' app.GetName routeSet hF.addRoute hF.removeRoute _ _ s2 h,
      hs2, ← hset]
    exact finalRoutes_toFinset rt oldRoutes addresses hn
  · exact absurd h hne

/-- C2, amended (convergence by host).  After a pass without error against a
faithful router, the hosts of the routes the router holds are exactly the
hosts of the desired addresses, with one route per host; and when the
desired addresses have pairwise distinct hosts and every route held before
the pass with a desired host was itself a desired address, the route set is
exactly the set of desired addresses. -/
theorem convergence_by_host {σ : Type} (rt : Runtime) (app : RebuildApp σ) (r : Router σ)
    (routeSet : σ → Finset URL) (addresses : List URL)
    (hF : Faithful app r routeSet addresses) (s : σ)
    (h : (RebuildRoutes rt app s).err = none) :
    (∀ host, (∃ u ∈ routeSet (RebuildRoutes rt app s).state, u.Host = host) ↔
        host ∈ addresses.map URL.Host) ∧
      (∀ u ∈ routeSet (RebuildRoutes rt app s).state,
        ∀ v ∈ routeSet (RebuildRoutes rt app s).state, u.Host = v.Host → u = v) ∧
      ((addresses.map URL.Host).Nodup →
        (∀ u ∈ routeSet s, u.Host ∈ addresses.map URL.Host → u ∈ addresses) →
          routeSet (RebuildRoutes rt app s).state = addresses.toFinset) := by
  obtain ⟨oldRoutes, s4, pre, _, hn, hset, hfin⟩ :=
    faithful_pass rt app r routeSet addresses hF s h
  have hhost := mem_finalRoutes_hosts rt oldRoutes addresses
  have hinj := List.inj_on_of_nodup_map (finalRoutes_hosts_nodup rt oldRoutes addresses)
  refine ⟨?_, ?_, ?_⟩
  · intro host
    rw [← hhost, hfin]
    simp only [List.mem_toFinset, List.mem_map]
  · intro u hu v hv huv
    rw [hfin, List.mem_toFinset] at hu hv
    exact hinj hu hv huv
  · intro hnd hold
    rw [hfin]
    have hsub : ∀ v ∈ finalRoutes rt oldRoutes addresses, v ∈ addresses := by
      intro v hv
      simp only [finalRoutes, List.mem_append] at hv
      rcases hv with hv | hv
      · have hvO : v ∈ oldRoutes :=
          (keptRoutes_perm oldRoutes (buildExpected addresses)).mem_iff.2
            (List.mem_append_left _ hv)
        have hvh := ((mem_hosts_keptRoutes oldRoutes v.Host _).1
          (List.mem_map_of_mem URL.Host hv)).1
        rw [mem_keys_buildExpected] at hvh
        exact hold v (by rw [← hset]; simpa using hvO) hvh
      · exact toAddOf_subset rt oldRoutes addresses v hv
    ext v
    simp only [List.mem_toFinset]
    constructor
    · exact hsub v
    · intro hv
      obtain ⟨w, hw, hwv⟩ := List.mem_map.1
        ((hhost v.Host).2 (List.mem_map_of_mem URL.Host hv))
      have := List.inj_on_of_nodup_map hnd (hsub w hw) hv hwv
      rw [← this]
      exact hw

/-- C1 (idempotence).  Against a faithful router, for an application whose
desired addresses do not change and whose steps before `Routes` fail or not
regardless of the world: when a pass returns no error, the pass that follows
it returns no error either, its result has empty `Added` and `Removed`, and
it issues no `AddRoute` and no `RemoveRoute`. -/
theorem rebuild_idempotent {σ : Type} (rt rt' : Runtime) (app : RebuildApp σ) (r : Router σ)
    (routeSet : σ → Finset URL) (addresses : List URL)
    (hF : Faithful app r routeSet addresses) (hR : Repeatable app r) (s : σ)
    (h : (RebuildRoutes rt app s).err = none) :
    (RebuildRoutes rt' app (RebuildRoutes rt app s).state).err = none ∧
      (RebuildRoutes rt' app (RebuildRoutes rt app s).state).result = some ⟨[], []⟩ ∧
      ∀ c ∈ (RebuildRoutes rt' app (RebuildRoutes rt app s).state).trace,
        c.isRouteOp = false := by
  obtain ⟨oldRoutes, s4, pre, hp, hn, hset, hfin⟩ :=
    faithful_pass rt app r routeSet addresses hF s h
  rcases RebuildRoutes_split rt' app (RebuildRoutes rt app s).state with
    ⟨r', s4', pre', hp', heq⟩ | ⟨_, _, _, hfail⟩
  · have hr : r' = r := by
      have h1 := hp'.router
      rw [hF.router] at h1
      simp only [Except.ok.injEq] at h1
      exact h1.symm
    subst hr
    obtain ⟨routes, s2, hn', hset', _, hrec⟩ :=
      reconcile_faithful rt' app r' routeSet addresses hF s4'
    have hs4 : routeSet s4' = routeSet (RebuildRoutes rt app s).state :=
      hp'.frame _ routeSet hF.frame
    obtain ⟨hadd, hrem⟩ := finalRoutes_fixed rt rt' oldRoutes addresses routes hn'
      (by rw [hset', hs4, hfin])
    rw [heq, hrec, hadd, hrem, applyRoutes_nil]
    refine ⟨rfl, rfl, ?_⟩
    intro c hc
    simp only [Outcome.after, List.append_nil, List.mem_append, List.mem_cons,
      List.not_mem_nil, or_false] at hc
    rcases hc with hc | rfl | rfl
    · have := hp'.early c hc
      cases c <;> simp [Call.rank] at this <;> rfl
    · rfl
    · rfl
  · exfalso
    rcases hfail with ⟨e, he⟩ | ⟨r', hr', hcase⟩
    · rw [hF.router] at he
      simp at he
    · have hr : r' = r := by
        rw [hF.router] at hr'
        simp only [Except.ok.injEq] at hr'
        exact hr'.symm
      subst hr
      rcases hcase with ⟨s1, hb⟩ | ⟨s2, e, hu⟩ | ⟨c, s3, e, hc, hl⟩
      · obtain ⟨s1', hb'⟩ := hp.backend
        rw [hR.backend s1 s1', hb'] at hb
        simp at hb
      · obtain ⟨s2', hu'⟩ := hp.updateAddr
        rw [hR.updateAddr s2' s2 hu'] at hu
        simp at hu
      · have := bindCNames_of_tolerated c app.GetName app.GetCname
          (fun cn hcn s' => by
            obtain ⟨s3', h3⟩ := hp.setCName c hc cn hcn
            rw [hR.setCName c hc cn s' s3']
            exact h3) s3
        rw [this] at hl
        simp at hl

/-! ## The in-memory router is faithful -/

theorem memRouter_frame (app : RebuildApp (List URL)) {β : Type} (obs : List URL → β) :
    RouterFrame app memRouter obs := by
  refine ⟨?_, ?_, ?_⟩
  · intro s
    simp [registerBackend, memRouter]
  · intro c hc cname s
    simp only [memRouter, Option.some.injEq] at hc
    subst hc
    rfl
  · intro s
    rfl

theorem memApp_frame (addresses : List URL) (cnames : List String) {β : Type}
    (obs : List URL → β) : Frame (memApp addresses cnames) obs := by
  refine ⟨fun s => rfl, fun s => rfl, fun s => rfl, ?_⟩
  intro s r hr
  simp only [memApp, Except.ok.injEq] at hr
  subst hr
  exact memRouter_frame _ obs

theorem stuckApp_frame (addresses : List URL) {β : Type} (obs : List URL → β) :
    Frame (stuckApp addresses) obs := by
  refine ⟨fun s => rfl, fun s => rfl, fun s => rfl, ?_⟩
  intro s r hr
  simp only [stuckApp, Except.ok.injEq] at hr
  subst hr
  exact memRouter_frame _ obs

theorem memApp_faithful (addresses : List URL) (cnames : List String) :
    Faithful (memApp addresses cnames) memRouter (fun s => s.toFinset) addresses := by
  refine ⟨fun s => rfl, memApp_frame addresses cnames _, ?_, ?_, ?_, fun s => rfl⟩
  · intro s
    refine ⟨rfl, List.nodup_dedup s, ?_⟩
    ext v
    simp [memRouter]
  · intro s u _
    ext v
    simp only [memRouter, List.mem_toFinset, List.mem_append, List.mem_singleton,
      Finset.mem_insert]
    tauto
  · intro s u _
    ext v
    simp only [memRouter, List.mem_toFinset, List.mem_filter, decide_eq_true_eq,
      Finset.mem_erase]
    tauto

theorem memApp_repeatable (addresses : List URL) (cnames : List String) :
    Repeatable (memApp addresses cnames) memRouter := by
  refine ⟨?_, ?_, ?_⟩
  · intro s s'
    simp [registerBackend, memRouter]
  · intro s s' _
    rfl
  · intro c hc cname s s'
    simp only [memRouter, Option.some.injEq] at hc
    subst hc
    rfl

/-! ## Concrete runs -/

/-- C1 at a concrete input: routes `{B, C}`, desired `{A, B}`; the pass
after the first one changes nothing. -/
theorem rebuild_idempotent_witness :
    Faithful (memApp [urlA, urlB] ["x.example.com"]) memRouter (fun s => s.toFinset)
        [urlA, urlB] ∧
      Repeatable (memApp [urlA, urlB] ["x.example.com"]) memRouter ∧
      (RebuildRoutes plainRuntime (memApp [urlA, urlB] ["x.example.com"])
        [urlB, urlC]).err = none ∧
      (RebuildRoutes plainRuntime (memApp [urlA, urlB] ["x.example.com"])
        (RebuildRoutes plainRuntime (memApp [urlA, urlB] ["x.example.com"])
          [urlB, urlC]).state).err = none ∧
      (RebuildRoutes plainRuntime (memApp [urlA, urlB] ["x.example.com"])
        (RebuildRoutes plainRuntime (memApp [urlA, urlB] ["x.example.com"])
          [urlB, urlC]).state).result = some ⟨[], []⟩ ∧
      ∀ c ∈ (RebuildRoutes plainRuntime (memApp [urlA, urlB] ["x.example.com"])
        (RebuildRoutes plainRuntime (memApp [urlA, urlB] ["x.example.com"])
          [urlB, urlC]).state).trace, c.isRouteOp = false :=
  ⟨memApp_faithful _ _, memApp_repeatable _ _, by decide,
    rebuild_idempotent plainRuntime plainRuntime (memApp [urlA, urlB] ["x.example.com"])
      memRouter (fun s => s.toFinset) [urlA, urlB] (memApp_faithful _ _)
      (memApp_repeatable _ _) [urlB, urlC] (by decide)⟩

/-- C2 as stated fails: with the desired address `https://10.0.0.2:8080` and
the route `http://10.0.0.2:8080`, which has the same host, a pass against
the faithful in-memory router returns no error, adds and removes nothing,
and leaves a route set that is not the set of desired addresses. -/
theorem convergence_counterexample :
    Faithful (memApp [urlB2] []) memRouter (fun s => s.toFinset) [urlB2] ∧
      (RebuildRoutes plainRuntime (memApp [urlB2] []) [urlB]).err = none ∧
      (RebuildRoutes plainRuntime (memApp [urlB2] []) [urlB]).result = some ⟨[], []⟩ ∧
      (RebuildRoutes plainRuntime (memApp [urlB2] []) [urlB]).state.toFinset ≠
        [urlB2].toFinset :=
  ⟨memApp_faithful _ _, by decide, by decide, by decide⟩

/-- C2 at a concrete input, the example of the specification: desired
`{A, B}`, routes `{B, C}`; the pass adds A, removes C and leaves exactly
`{A, B}`. -/
theorem convergence_by_host_witness :
    Faithful (memApp [urlA, urlB] []) memRouter (fun s => s.toFinset) [urlA, urlB] ∧
      (RebuildRoutes plainRuntime (memApp [urlA, urlB] []) [urlB, urlC]).err = none ∧
      addedOf (RebuildRoutes plainRuntime (memApp [urlA, urlB] []) [urlB, urlC]).trace =
        [urlA] ∧
      removedOf (RebuildRoutes plainRuntime (memApp [urlA, urlB] []) [urlB, urlC]).trace =
        [urlC] ∧
      (RebuildRoutes plainRuntime (memApp [urlA, urlB] []) [urlB, urlC]).state.toFinset =
        [urlA, urlB].toFinset :=
  ⟨memApp_faithful _ _, by decide, by decide, by decide,
    (convergence_by_host plainRuntime (memApp [urlA, urlB] []) memRouter
      (fun s => s.toFinset) [urlA, urlB] (memApp_faithful _ _) [urlB, urlC]
      (by decide)).2.2 (by decide) (by decide)⟩

/-- C3 as stated fails: the routes `http://10.0.0.2:8080` and
`https://10.0.0.2:8080` have the same host, which is the host of the one
desired address; in a pass where no operation fails the second route, whose
host is desired, is passed to `RemoveRoute`. -/
theorem diff_by_host_counterexample :
    (RebuildRoutes plainRuntime (memApp [urlB] []) [urlB, urlB2]).err = none ∧
      Call.Routes "app" [urlB, urlB2] none ∈
        (RebuildRoutes plainRuntime (memApp [urlB] []) [urlB, urlB2]).trace ∧
      Call.RoutableAddresses [urlB] none ∈
        (RebuildRoutes plainRuntime (memApp [urlB] []) [urlB, urlB2]).trace ∧
      urlB2 ∈ [urlB, urlB2] ∧ urlB2.Host ∈ [urlB].map URL.Host ∧
      Call.RemoveRoute "app" urlB2 none ∈
        (RebuildRoutes plainRuntime (memApp [urlB] []) [urlB, urlB2]).trace := by
  decide

/-- C3 at concrete inputs: desired `{A, B}`, routes `[B, C]`; B, which
does not come again after its first place, is kept, C is removed, A is
added.  With the routes `[B, C, B]` on a router that lists a route as
often as it is stored, `RemoveRoute` is called on B, which comes again. -/
theorem diff_by_host_witness :
    Call.Routes "app" [urlB, urlC] none ∈
        (RebuildRoutes plainRuntime (memApp [urlA, urlB] []) [urlB, urlC]).trace ∧
      Call.RoutableAddresses [urlA, urlB] none ∈
        (RebuildRoutes plainRuntime (memApp [urlA, urlB] []) [urlB, urlC]).trace ∧
      (RebuildRoutes plainRuntime (memApp [urlA, urlB] []) [urlB, urlC]).err = none ∧
      (urlB ∈ removedOf
        (RebuildRoutes plainRuntime (memApp [urlA, urlB] []) [urlB, urlC]).trace ↔
          urlB ∈ [urlC]) ∧
      urlB ∉ [urlC] ∧
      Call.RemoveRoute "app" urlC none ∈
        (RebuildRoutes plainRuntime (memApp [urlA, urlB] []) [urlB, urlC]).trace ∧
      (∃ a ∈ [urlA, urlB], a.Host = urlA.Host ∧ Call.AddRoute "app" a none ∈
        (RebuildRoutes plainRuntime (memApp [urlA, urlB] []) [urlB, urlC]).trace) ∧
      (urlB ∈ removedOf (RebuildRoutes plainRuntime
          (registryApp registryRouter "app" [] [urlA, urlB] [])
          ⟨[], [], [urlB, urlC, urlB]⟩).trace ↔ urlB ∈ [urlC, urlB]) ∧
      urlB ∈ [urlC, urlB] :=
  ⟨by decide, by decide, by decide,
    (diff_by_host plainRuntime (memApp [urlA, urlB] []) [urlB, urlC] [urlB, urlC]
      [urlA, urlB] "app" none (by decide) (by decide) (by decide)).1 [] [urlC] urlB rfl
      (by decide) (by decide),
    by decide,
    (diff_by_host plainRuntime (memApp [urlA, urlB] []) [urlB, urlC] [urlB, urlC]
      [urlA, urlB] "app" none (by decide) (by decide) (by decide)).2.2.1 urlC
      (by decide) (by decide),
    (diff_by_host plainRuntime (memApp [urlA, urlB] []) [urlB, urlC] [urlB, urlC]
      [urlA, urlB] "app" none (by decide) (by decide) (by decide)).2.2.2 urlA.Host
      (by decide) (by decide),
    (diff_by_host plainRuntime (registryApp registryRouter "app" [] [urlA, urlB] [])
      ⟨[], [], [urlB, urlC, urlB]⟩ [urlB, urlC, urlB] [urlA, urlB] "app" none (by decide)
      (by decide) (by decide)).1 [] [urlC, urlB] urlB rfl (by decide) (by decide),
    by decide⟩

/-- C4 at concrete inputs.  A router without the `OptsRouter` capability
and an empty registry: `AddBackend` returns nil, the backend is registered
and the pass goes on in that world.  A router with the capability and the
backend taken: `AddBackendOpts` returns `ErrBackendExists`, the registry is
as it was and the pass goes on.  An application with an empty name:
`AddBackend` fails and the pass stops there. -/
theorem backend_registration_witness :
    (registryApp registryRouter "app" [] [urlA] []).GetRouter ⟨[], [], []⟩ =
        (Except.ok registryRouter, ⟨[], [], []⟩) ∧
      registryRouter.asOptsRouter = none ∧
      registryRouter.AddBackend "app" ⟨[], [], []⟩ = (none, ⟨[("app", [])], [], []⟩) ∧
      RebuildRoutes plainRuntime (registryApp registryRouter "app" [] [urlA] [])
          ⟨[], [], []⟩ =
        (afterBackend plainRuntime (registryApp registryRouter "app" [] [urlA] [])
          registryRouter ⟨[("app", [])], [], []⟩).after
          [Call.GetRouter none, Call.AddBackend "app" none] ∧
      (RebuildRoutes plainRuntime (registryApp registryRouter "app" [] [urlA] [])
        ⟨[], [], []⟩).state = ⟨[("app", [])], [], [urlA]⟩ ∧
      (∀ c ∈ (RebuildRoutes plainRuntime
          (registryApp registryOptsRouter "app" [("plan", "small")] [urlA] [])
          ⟨[("app", [])], [], []⟩).trace, c.isBackend = true →
        c = Call.AddBackendOpts "app" [("plan", "small")] (some Error.ErrBackendExists)) ∧
      RebuildRoutes plainRuntime
          (registryApp registryOptsRouter "app" [("plan", "small")] [urlA] [])
          ⟨[("app", [])], [], []⟩ =
        (afterBackend plainRuntime
          (registryApp registryOptsRouter "app" [("plan", "small")] [urlA] [])
          registryOptsRouter ⟨[("app", [])], [], []⟩).after
          [Call.GetRouter none,
            Call.AddBackendOpts "app" [("plan", "small")] (some Error.ErrBackendExists)] ∧
      RebuildRoutes plainRuntime (registryApp registryRouter "" [] [urlA] [])
          ⟨[], [], []⟩ =
        ⟨none, some (Error.other "invalid backend name"), ⟨[], [], []⟩,
          [Call.GetRouter none,
            Call.AddBackend "" (some (Error.other "invalid backend name"))]⟩ :=
  ⟨rfl, rfl, by decide,
    ((backend_registration plainRuntime (registryApp registryRouter "app" [] [urlA] [])
      ⟨[], [], []⟩ ⟨[], [], []⟩ registryRouter rfl).2 rfl).2.2.1 (Or.inl (by decide)),
    by decide,
    ((backend_registration plainRuntime
      (registryApp registryOptsRouter "app" [("plan", "small")] [urlA] [])
      ⟨[("app", [])], [], []⟩ ⟨[("app", [])], [], []⟩ registryOptsRouter rfl).1 _ rfl).2.1,
    ((backend_registration plainRuntime
      (registryApp registryOptsRouter "app" [("plan", "small")] [urlA] [])
      ⟨[("app", [])], [], []⟩ ⟨[("app", [])], [], []⟩ registryOptsRouter rfl).1 _
        rfl).2.2.1 (Or.inr (by decide)),
    ((backend_registration plainRuntime (registryApp registryRouter "" [] [urlA] [])
      ⟨[], [], []⟩ ⟨[], [], []⟩ registryRouter rfl).2 rfl).2.2.2
        (Error.other "invalid backend name") (by decide) (by decide)⟩

/-- C5 at concrete inputs, on a router whose answers depend on the cnames
bound so far.  With the cnames `x`, `x`, `y` the first call returns nil, the
second `ErrCNameExists` because of the first, the third nil; all three are
made, the pass goes on and returns no error.  With the cnames `x`, `x`,
the empty one, `y` the third call fails: it is the last call, `y` is never
bound, and the pass returns that error. -/
theorem alias_binding_witness :
    (registryApp registryRouter "app" [] [urlA]
        ["x.example.com", "x.example.com", "y.example.com"]).GetRouter ⟨[], [], []⟩ =
        (Except.ok registryRouter, ⟨[], [], []⟩) ∧
      registryRouter.asCNameRouter = some registryCNames ∧
      cnameCalls registryCNames "app"
          ["x.example.com", "x.example.com", "y.example.com"] ⟨[("app", [])], [], []⟩ =
        [Call.SetCName "x.example.com" "app" none,
          Call.SetCName "x.example.com" "app" (some Error.ErrCNameExists),
          Call.SetCName "y.example.com" "app" none] ∧
      (cnamesOf (RebuildRoutes plainRuntime (registryApp registryRouter "app" [] [urlA]
          ["x.example.com", "x.example.com", "y.example.com"]) ⟨[], [], []⟩).trace =
          ["x.example.com", "x.example.com", "y.example.com"] ∧
        RebuildRoutes plainRuntime (registryApp registryRouter "app" [] [urlA]
          ["x.example.com", "x.example.com", "y.example.com"]) ⟨[], [], []⟩ =
          (reconcile plainRuntime (registryApp registryRouter "app" [] [urlA]
            ["x.example.com", "x.example.com", "y.example.com"]) registryRouter
              ⟨[("app", [])], ["x.example.com", "y.example.com"], []⟩).after
            [Call.GetRouter none, Call.AddBackend "app" none, Call.UpdateAddr none,
              Call.SetCName "x.example.com" "app" none,
              Call.SetCName "x.example.com" "app" (some Error.ErrCNameExists),
              Call.SetCName "y.example.com" "app" none]) ∧
      (RebuildRoutes plainRuntime (registryApp registryRouter "app" [] [urlA]
        ["x.example.com", "x.example.com", "y.example.com"]) ⟨[], [], []⟩).err = none ∧
      (RebuildRoutes plainRuntime (registryApp registryRouter "app" [] [urlA]
        ["x.example.com", "x.example.com", "y.example.com"]) ⟨[], [], []⟩).trace =
        [Call.GetRouter none, Call.AddBackend "app" none, Call.UpdateAddr none,
          Call.SetCName "x.example.com" "app" none,
          Call.SetCName "x.example.com" "app" (some Error.ErrCNameExists),
          Call.SetCName "y.example.com" "app" none,
          Call.Routes "app" [] none, Call.RoutableAddresses [urlA] none,
          Call.AddRoute "app" urlA none] ∧
      (RebuildRoutes plainRuntime (registryApp registryRouter "app" [] [urlA]
        ["x.example.com", "x.example.com", "y.example.com"]) ⟨[], [], []⟩).state =
        ⟨[("app", [])], ["x.example.com", "y.example.com"], [urlA]⟩ ∧
      (cnamesOf (RebuildRoutes plainRuntime (registryApp registryRouter "app" [] [urlA]
          ["x.example.com", "x.example.com", "", "y.example.com"]) ⟨[], [], []⟩).trace =
          ["x.example.com", "x.example.com"] ++ [""] ∧
        RebuildRoutes plainRuntime (registryApp registryRouter "app" [] [urlA]
          ["x.example.com", "x.example.com", "", "y.example.com"]) ⟨[], [], []⟩ =
          ⟨none, some (Error.other "invalid cname"),
            ⟨[("app", [])], ["x.example.com"], []⟩,
            [Call.GetRouter none, Call.AddBackend "app" none, Call.UpdateAddr none,
              Call.SetCName "x.example.com" "app" none,
              Call.SetCName "x.example.com" "app" (some Error.ErrCNameExists),
              Call.SetCName "" "app" (some (Error.other "invalid cname"))]⟩) :=
  ⟨rfl, rfl, by decide,
    ((alias_binding plainRuntime (registryApp registryRouter "app" [] [urlA]
      ["x.example.com", "x.example.com", "y.example.com"]) ⟨[], [], []⟩ ⟨[], [], []⟩
      registryRouter rfl (by decide) (by decide)).2 registryCNames rfl).1 (by decide),
    by decide, by decide, by decide,
    ((alias_binding plainRuntime (registryApp registryRouter "app" [] [urlA]
      ["x.example.com", "x.example.com", "", "y.example.com"]) ⟨[], [], []⟩ ⟨[], [], []⟩
      registryRouter rfl (by decide) (by decide)).2 registryCNames rfl).2
        ["x.example.com", "x.example.com"] "" ["y.example.com"]
        (Error.other "invalid cname") rfl (by decide) (by decide) (by decide)⟩

/-- C6 at a concrete input: the calls before `UpdateAddr` and before
`Routes` in a pass that goes through. -/
theorem step_order_witness :
    (RebuildRoutes plainRuntime (memApp [urlA] []) [urlA]).trace =
        [Call.GetRouter none, Call.AddBackend "app" (some Error.ErrBackendExists)] ++
          Call.UpdateAddr none ::
            [Call.Routes "app" [urlA] none, Call.RoutableAddresses [urlA] none] ∧
      (∃ b ∈ [Call.GetRouter none, Call.AddBackend "app" (some Error.ErrBackendExists)],
        b.isBackend = true ∧ (b.err = none ∨ b.err = some Error.ErrBackendExists)) ∧
      (RebuildRoutes plainRuntime (memApp [urlA] []) [urlA]).trace =
        [Call.GetRouter none, Call.AddBackend "app" (some Error.ErrBackendExists),
          Call.UpdateAddr none] ++
          Call.Routes "app" [urlA] none :: [Call.RoutableAddresses [urlA] none] ∧
      Call.UpdateAddr none ∈
        [Call.GetRouter none, Call.AddBackend "app" (some Error.ErrBackendExists),
          Call.UpdateAddr none] :=
  ⟨by decide,
    (step_order plainRuntime (memApp [urlA] []) [urlA]
      [Call.GetRouter none, Call.AddBackend "app" (some Error.ErrBackendExists)]
      [Call.Routes "app" [urlA] none, Call.RoutableAddresses [urlA] none]
      (Call.UpdateAddr none) (by decide)).1 ⟨none, rfl⟩,
    by decide,
    (step_order plainRuntime (memApp [urlA] []) [urlA]
      [Call.GetRouter none, Call.AddBackend "app" (some Error.ErrBackendExists),
        Call.UpdateAddr none]
      [Call.RoutableAddresses [urlA] none] (Call.Routes "app" [urlA] none)
      (by decide)).2 rfl⟩

/-- C7 at concrete inputs: a router whose `AddRoute` fails aborts the pass at
the first addition; the in-memory router, where nothing fails, reports one
addition and one removal. -/
theorem route_failure_aborts_witness :
    ((RebuildRoutes plainRuntime (brokenApp [urlA, urlB]) [urlC]).trace =
        [Call.GetRouter none, Call.AddBackend "app" none, Call.UpdateAddr none,
          Call.Routes "app" [urlC] none, Call.RoutableAddresses [urlA, urlB] none] ++
          Call.AddRoute "app" urlA (some (Error.other "backend down")) :: [] ∧
      (RebuildRoutes plainRuntime (brokenApp [urlA, urlB]) [urlC]).err =
        some (Error.other "backend down") ∧
      (RebuildRoutes plainRuntime (brokenApp [urlA, urlB]) [urlC]).result = none) ∧
      (RebuildRoutes plainRuntime (memApp [urlA, urlB] []) [urlB, urlC]).err = none ∧
      (RebuildRoutes plainRuntime (memApp [urlA, urlB] []) [urlB, urlC]).result =
        some ⟨(addedOf (RebuildRoutes plainRuntime (memApp [urlA, urlB] [])
            [urlB, urlC]).trace).map plainRuntime.urlString,
          (removedOf (RebuildRoutes plainRuntime (memApp [urlA, urlB] [])
            [urlB, urlC]).trace).map plainRuntime.urlString⟩ :=
  ⟨⟨by decide,
      ((route_failure_aborts plainRuntime (brokenApp [urlA, urlB]) [urlC]).1
        [Call.GetRouter none, Call.AddBackend "app" none, Call.UpdateAddr none,
          Call.Routes "app" [urlC] none, Call.RoutableAddresses [urlA, urlB] none] []
        (Call.AddRoute "app" urlA (some (Error.other "backend down")))
        (Error.other "backend down") (by decide) rfl rfl).2⟩,
    (route_failure_aborts plainRuntime (memApp [urlA, urlB] []) [urlB, urlC]).2 [urlA, urlB]
      (by decide) (by decide)⟩

/-- C8 at a concrete input: `UpdateAddr` fails; the pass stops there and the
routes are as they were. -/
theorem early_error_short_circuits_witness :
    Frame (stuckApp [urlA, urlB]) (fun s : List URL => s) ∧
      (RebuildRoutes plainRuntime (stuckApp [urlA, urlB]) [urlB, urlC]).trace =
        [Call.GetRouter none, Call.AddBackend "app" (some Error.ErrBackendExists)] ++
          Call.UpdateAddr (some (Error.other "no address")) :: [] ∧
      (RebuildRoutes plainRuntime (stuckApp [urlA, urlB]) [urlB, urlC]).result = none ∧
      (RebuildRoutes plainRuntime (stuckApp [urlA, urlB]) [urlB, urlC]).err =
        some (Error.other "no address") ∧
      (∀ a ∈ (RebuildRoutes plainRuntime (stuckApp [urlA, urlB]) [urlB, urlC]).trace,
        a.isRouteOp = false) ∧
      (RebuildRoutes plainRuntime (stuckApp [urlA, urlB]) [urlB, urlC]).state =
        [urlB, urlC] :=
  have h := early_error_short_circuits plainRuntime (stuckApp [urlA, urlB]) [urlB, urlC]
    (fun s : List URL => s) (stuckApp_frame _ _)
    [Call.GetRouter none, Call.AddBackend "app" (some Error.ErrBackendExists)] []
    (Call.UpdateAddr (some (Error.other "no address"))) (Error.other "no address")
    (by decide) (Or.inr (Or.inl rfl))
  ⟨stuckApp_frame _ _, by decide, h.1, h.2.1, h.2.2.2.2.1, h.2.2.2.2.2⟩

/-- C9 at a concrete input: one address added, one route removed. -/
theorem result_content_witness :
    (RebuildRoutes plainRuntime (memApp [urlA, urlB] []) [urlB, urlC]).err = none ∧
      (RebuildRoutes plainRuntime (memApp [urlA, urlB] []) [urlB, urlC]).result =
        some ⟨["http://10.0.0.1:8080"], ["http://10.0.0.3:8080"]⟩ ∧
      ∃ res, (RebuildRoutes plainRuntime (memApp [urlA, urlB] []) [urlB, urlC]).result =
          some res ∧
        res.Added = (addedOf (RebuildRoutes plainRuntime (memApp [urlA, urlB] [])
          [urlB, urlC]).trace).map plainRuntime.urlString ∧
        res.Removed = (removedOf (RebuildRoutes plainRuntime (memApp [urlA, urlB] [])
          [urlB, urlC]).trace).map plainRuntime.urlString :=
  ⟨by decide, by decide,
    (result_content plainRuntime (memApp [urlA, urlB] []) [urlB, urlC] (by decide)).imp
      (fun _ h => ⟨h.1, h.2.1, h.2.2.1⟩)⟩

/-- C10 at a concrete input: desired `{A, B}`, routes `[B, C]`; one host is
desired and has no route, and `AddRoute` is called once. -/
theorem minimal_diff_witness :
    Call.Routes "app" [urlB, urlC] none ∈
        (RebuildRoutes plainRuntime (memApp [urlA, urlB] []) [urlB, urlC]).trace ∧
      Call.RoutableAddresses [urlA, urlB] none ∈
        (RebuildRoutes plainRuntime (memApp [urlA, urlB] []) [urlB, urlC]).trace ∧
      ((addedOf (RebuildRoutes plainRuntime (memApp [urlA, urlB] [])
        [urlB, urlC]).trace).map URL.Host).Nodup ∧
      (addedOf (RebuildRoutes plainRuntime (memApp [urlA, urlB] [])
        [urlB, urlC]).trace).length =
          (([urlA, urlB].map URL.Host).toFinset \
            ([urlB, urlC].map URL.Host).toFinset).card :=
  ⟨by decide, by decide,
    (minimal_diff plainRuntime (memApp [urlA, urlB] []) [urlB, urlC] [urlB, urlC]
      [urlA, urlB] "app" none (by decide) (by decide)).2.1,
    (minimal_diff plainRuntime (memApp [urlA, urlB] []) [urlB, urlC] [urlB, urlC]
      [urlA, urlB] "app" none (by decide) (by decide)).2.2.2.2 (by decide)⟩

/-! ## Duplicate hosts -/

theorem mem_foldl_mapSet_of_mem (addresses : List URL) (p : String × URL)
    (hk : p.1 ∉ addresses.map URL.Host) :
    ∀ m : HostMap, p ∈ m → p ∈ addresses.foldl (fun m addr => mapSet m addr.Host addr) m := by
  induction addresses with
  | nil => intro m hp; simpa using hp
  | cons a rest ih =>
    intro m hp
    simp only [List.map_cons, List.mem_cons, not_or] at hk
    rw [List.foldl_cons]
    apply ih hk.2
    simp only [mapSet, List.mem_append, List.mem_singleton]
    exact Or.inl ((mem_mapDelete m a.Host p).2 ⟨hp, hk.1⟩)

/-- The entry of a host in `expectedMap` is the last address of that host. -/
theorem buildExpected_last (pre post : List URL) (a : URL)
    (hlast : a.Host ∉ post.map URL.Host) :
    (a.Host, a) ∈ buildExpected (pre ++ a :: post) := by
  rw [buildExpected, List.foldl_append, List.foldl_cons]
  apply mem_foldl_mapSet_of_mem post (a.Host, a) hlast
  simp [mapSet]

theorem HostKeyed.unique {m : HostMap} (hm : HostKeyed m) (k : String) (v w : URL)
    (hv : (k, v) ∈ m) (hw : (k, w) ∈ m) : v = w := by
  have := List.inj_on_of_nodup_map hm.nodup hv hw rfl
  simpa using this

theorem mem_toAddOf_iff (rt : Runtime) (oldRoutes addresses : List URL) (v : URL) :
    v ∈ toAddOf rt oldRoutes addresses ↔
      (v.Host, v) ∈ buildExpected addresses ∧ v.Host ∉ oldRoutes.map URL.Host := by
  have hk := buildExpected_keyed addresses
  simp only [toAddOf, List.mem_map]
  constructor
  · rintro ⟨p, hp, rfl⟩
    have hp' := (rt.rangeOrder_perm _).subset hp
    rw [diffRoutes_fst, List.mem_filter] at hp'
    have hh := hk.host p hp'.1
    rw [hh]
    exact ⟨hp'.1, by simpa using hp'.2⟩
  · rintro ⟨hm, hn⟩
    refine ⟨(v.Host, v), (rt.rangeOrder_perm _).symm.subset ?_, rfl⟩
    rw [diffRoutes_fst, List.mem_filter]
    exact ⟨hm, by simpa using hn⟩

/-- In a list without two elements of the same key, the elements with the key
of a member are that member alone. -/
theorem filter_key_eq_singleton {α β : Type} [DecidableEq β] (f : α → β) (l : List α)
    (hn : (l.map f).Nodup) (a : α) (ha : a ∈ l) :
    l.filter (fun x => decide (f x = f a)) = [a] := by
  induction l with
  | nil => simp at ha
  | cons x rest ih =>
    rw [List.map_cons, List.nodup_cons] at hn
    simp only [List.mem_cons] at ha
    rcases ha with rfl | ha
    · have : rest.filter (fun x => decide (f x = f a)) = [] := by
        rw [List.filter_eq_nil_iff]
        intro y hy
        have : f y ≠ f a := fun e => hn.1 (e ▸ List.mem_map_of_mem f hy)
        simpa using this
      simp [List.filter_cons, this]
    · have hx : f x ≠ f a := fun e => hn.1 (e ▸ List.mem_map_of_mem f ha)
      simp [List.filter_cons, hx, ih hn.2 ha]

theorem filter_key_length_le_one {α β : Type} [DecidableEq β] (f : α → β) (l : List α)
    (hn : (l.map f).Nodup) (k : β) :
    (l.filter (fun x => decide (f x = k))).length ≤ 1 := by
  cases h : l.filter (fun x => decide (f x = k)) with
  | nil => simp
  | cons a rest =>
    have ha : a ∈ l.filter (fun x => decide (f x = k)) := by rw [h]; simp
    rw [List.mem_filter] at ha
    have hk : f a = k := by simpa using ha.2
    subst hk
    rw [filter_key_eq_singleton f l hn a ha.1] at h
    simp only [List.cons.injEq] at h
    rw [← h.2]
    simp

theorem toRemoveOf_pair (addresses : List URL) (x y : URL)
    (hx : x.Host ∈ addresses.map URL.Host) (hy : y.Host = x.Host) :
    toRemoveOf [x, y] addresses = [y] := by
  have h1 : mapHas (buildExpected addresses) x.Host = true :=
    (mapHas_iff _ _).2 ((mem_keys_buildExpected addresses x.Host).2 hx)
  have h2 : mapHas (mapDelete (buildExpected addresses) x.Host) y.Host = false := by
    rw [Bool.eq_false_iff]
    intro h
    rw [mapHas_iff, keys_mapDelete, List.mem_filter, hy] at h
    simp at h
  simp [toRemoveOf, diffRoutes, h1, h2]

/-- C17, amended (duplicate hosts in the fetched routes).  In a pass that
fetched the routes `oldRoutes` and the addresses `addresses`, for a route `u`
at a given place of `oldRoutes` whose host is desired: if no earlier route
has its host, `RemoveRoute` is called on it only if the same route stands
again further down the list, and in a pass that returns no error it then is
called on it; if an earlier route has its host, it is put on `toRemove`
and, in a pass that returns no error, passed to `RemoveRoute`.  In a pass
that returns no error the routes of that host passed to `RemoveRoute` are,
in order, the fetched routes of that host but the first.  Which of two
routes of one desired host is removed is decided by their order alone: of
`[x, y]` the second is removed, of `[y, x]` the second too, whether or not
one of them is the desired address. -/
theorem duplicate_route_hosts {σ : Type} (rt : Runtime) (app : RebuildApp σ) (s : σ)
    (oldRoutes addresses : List URL) (n : String) (e : Option Error)
    (hO : Call.Routes n oldRoutes e ∈ (RebuildRoutes rt app s).trace)
    (hA : Call.RoutableAddresses addresses none ∈ (RebuildRoutes rt app s).trace)
    (pre post : List URL) (u : URL) (hsplit : oldRoutes = pre ++ u :: post)
    (hh : u.Host ∈ addresses.map URL.Host) :
    (u.Host ∉ pre.map URL.Host →
        (u ∈ removedOf (RebuildRoutes rt app s).trace → u ∈ post) ∧
          ((RebuildRoutes rt app s).err = none → u ∈ post →
            Call.RemoveRoute app.GetName u none ∈ (RebuildRoutes rt app s).trace)) ∧
      (u.Host ∈ pre.map URL.Host →
        u ∈ toRemoveOf oldRoutes addresses ∧
          ((RebuildRoutes rt app s).err = none →
            Call.RemoveRoute app.GetName u none ∈ (RebuildRoutes rt app s).trace)) ∧
      ((RebuildRoutes rt app s).err = none →
        (removedOf (RebuildRoutes rt app s).trace).filter (fun v => decide (v.Host = u.Host)) =
          (oldRoutes.filter (fun v => decide (v.Host = u.Host))).tail) ∧
      (∀ x y : URL, x.Host = u.Host → y.Host = u.Host →
        toRemoveOf [x, y] addresses = [y] ∧ toRemoveOf [y, x] addresses = [x]) := by
  obtain ⟨oldRoutes', hreach⟩ := RebuildRoutes_reached rt app s addresses hA
  have happ := hreach.applied
  obtain ⟨_, hl, _⟩ := happ.fetched n oldRoutes e hO
  subst hl
  refine ⟨?_, ?_, ?_, ?_⟩
  · intro hpre
    refine ⟨?_, ?_⟩
    · intro hrem
      have := happ.removed_prefix.subset hrem
      rw [hsplit] at this
      exact (mem_toRemoveOf_first_iff pre post addresses u hh hpre).1 this
    · intro hok hpost
      have hmem : u ∈ toRemoveOf oldRoutes addresses := by
        rw [hsplit]
        exact (mem_toRemoveOf_first_iff pre post addresses u hh hpre).2 hpost
      exact (success_calls rt app s oldRoutes addresses hreach hok).2 u hmem
  · intro hpre
    have hmem : u ∈ toRemoveOf oldRoutes addresses := by
      rw [hsplit]
      exact mem_toRemoveOf_of_repeated pre post addresses u hpre
    exact ⟨hmem, fun hok => (success_calls rt app s oldRoutes addresses hreach hok).2 u hmem⟩
  · intro hok
    rw [(happ.done hok).2.1]
    exact toRemoveOf_filter_host oldRoutes addresses u.Host hh
  · intro x y hx hy
    exact ⟨toRemoveOf_pair addresses x y (hx ▸ hh) (hy.trans hx.symm),
      toRemoveOf_pair addresses y x (hy ▸ hh) (hx.trans hy.symm)⟩

/-- C18 (duplicate hosts in the desired addresses).  In a pass that fetched
the routes `oldRoutes` and the addresses `addresses`, let `a` be the last
address of its host in `addresses`, a host no fetched route has.  Then
`AddRoute` is called for that host with no address other than `a`, and at
most once; when no `AddRoute` call returned an error (as in every pass that
returns a result) it is called exactly once, with `a`.  The number of
`AddRoute` calls never exceeds the number of distinct desired hosts. -/
theorem duplicate_desired_hosts {σ : Type} (rt : Runtime) (app : RebuildApp σ) (s : σ)
    (oldRoutes addresses : List URL) (n : String) (e : Option Error)
    (hO : Call.Routes n oldRoutes e ∈ (RebuildRoutes rt app s).trace)
    (hA : Call.RoutableAddresses addresses none ∈ (RebuildRoutes rt app s).trace)
    (pre post : List URL) (a : URL) (hsplit : addresses = pre ++ a :: post)
    (hlast : a.Host ∉ post.map URL.Host) (hnew : a.Host ∉ oldRoutes.map URL.Host) :
    (∀ v ∈ addedOf (RebuildRoutes rt app s).trace, v.Host = a.Host → v = a) ∧
      ((addedOf (RebuildRoutes rt app s).trace).filter
        (fun v => decide (v.Host = a.Host))).length ≤ 1 ∧
      ((∀ c ∈ (RebuildRoutes rt app s).trace, c.rank = 6 → c.err = none) →
        (addedOf (RebuildRoutes rt app s).trace).filter
            (fun v => decide (v.Host = a.Host)) = [a] ∧
          Call.AddRoute app.GetName a none ∈ (RebuildRoutes rt app s).trace) ∧
      (addedOf (RebuildRoutes rt app s).trace).length ≤
        (addresses.map URL.Host).toFinset.card := by
  obtain ⟨oldRoutes', hreach⟩ := RebuildRoutes_reached rt app s addresses hA
  have happ := hreach.applied
  obtain ⟨_, hl, _⟩ := happ.fetched n oldRoutes e hO
  subst hl
  have hk := buildExpected_keyed addresses
  have hentry : (a.Host, a) ∈ buildExpected addresses := by
    rw [hsplit]
    exact buildExpected_last pre post a hlast
  have hmemA : a ∈ toAddOf rt oldRoutes addresses :=
    (mem_toAddOf_iff rt oldRoutes addresses a).2 ⟨hentry, hnew⟩
  have hnodup : ((addedOf (RebuildRoutes rt app s).trace).map URL.Host).Nodup :=
    (happ.added_prefix.sublist.map URL.Host).nodup (toAddOf_hosts_nodup rt oldRoutes addresses)
  refine ⟨?_, ?_, ?_, ?_⟩
  · intro v hv hhost
    have hv' := (mem_toAddOf_iff rt oldRoutes addresses v).1 (happ.added_prefix.subset hv)
    rw [hhost] at hv'
    exact hk.unique a.Host v a hv'.1 hentry
  · exact filter_key_length_le_one URL.Host _ hnodup a.Host
  · intro hall
    have hadded : a ∈ addedOf (RebuildRoutes rt app s).trace := by
      rw [happ.added_all hall]
      exact hmemA
    refine ⟨filter_key_eq_singleton URL.Host _ hnodup a hadded, ?_⟩
    obtain ⟨n', e', hc⟩ := (mem_addedOf _ a).1 hadded
    have hn := happ.names n' a e' (Or.inl hc)
    have he := hall _ hc rfl
    simp only [Call.err] at he
    rw [hn, he] at hc
    exact hc
  · calc (addedOf (RebuildRoutes rt app s).trace).length
        ≤ (toAddOf rt oldRoutes addresses).length := happ.added_prefix.length_le
      _ = ((addresses.map URL.Host).toFinset \ (oldRoutes.map URL.Host).toFinset).card :=
          toAddOf_length rt oldRoutes addresses
      _ ≤ (addresses.map URL.Host).toFinset.card :=
          Finset.card_le_card Finset.sdiff_subset

/-! ## Additions come before removals -/

theorem addRoutes_monotone {σ : Type} (rt : Runtime) (r : Router σ) (name : String)
    (routeSet : σ → Finset URL)
    (hmono : ∀ s u, routeSet s ⊆ routeSet (r.AddRoute name u s).2) (l : List URL) :
    ∀ s : σ, routeSet s ⊆ routeSet (addRoutes rt r name l s).state := by
  induction l with
  | nil => intro s; simp [addRoutes]
  | cons u rest ih =>
    intro s
    have h1 := hmono s u
    rw [addRoutes]
    split
    · rename_i e s' heq
      rw [heq] at h1
      exact h1
    · rename_i s' heq
      rw [heq] at h1
      exact h1.trans (ih s')

theorem removeRoutes_calls {σ : Type} (rt : Runtime) (r : Router σ) (name : String)
    (l : List URL) :
    ∀ s : σ, ∀ x ∈ (removeRoutes rt r name l s).trace, ∃ u e, x = Call.RemoveRoute name u e := by
  induction l with
  | nil => intro s x hx; simp [removeRoutes] at hx
  | cons u rest ih =>
    intro s x hx
    rw [removeRoutes] at hx
    split at hx
    · simp only [List.mem_singleton] at hx
      exact ⟨u, _, hx⟩
    · simp only [List.mem_cons] at hx
      rcases hx with hx | hx
      · exact ⟨u, _, hx⟩
      · exact ih _ x hx

/-- When an `AddRoute` call of lines 79-96 fails, the world left behind is
the one the loop of additions left. -/
theorem applyRoutes_state_of_failed_add {σ : Type} (rt : Runtime) (r : Router σ)
    (name : String) (toAdd toRemove : List URL) (s : σ) (n : String) (u : URL) (e : Error)
    (h : Call.AddRoute n u (some e) ∈ (applyRoutes rt r name toAdd toRemove s).trace) :
    (applyRoutes rt r name toAdd toRemove s).state = (addRoutes rt r name toAdd s).state := by
  unfold applyRoutes at h ⊢
  cases ha : (addRoutes rt r name toAdd s).err with
  | some e' => simp [ha]
  | none =>
    exfalso
    simp only [ha] at h
    have hat := (addRoutes_ok rt r name toAdd s ha).1
    have hin : Call.AddRoute n u (some e) ∈ (addRoutes rt r name toAdd s).trace ++
        (removeRoutes rt r name toRemove (addRoutes rt r name toAdd s).state).trace := by
      split at h <;> exact h
    rw [List.mem_append, hat] at hin
    rcases hin with hin | hin
    · simp at hin
    · obtain ⟨v, e', hx⟩ := removeRoutes_calls rt r name toRemove _ _ hin
      simp at hx

theorem reconcile_monotone {σ : Type} (rt : Runtime) (app : RebuildApp σ) (r : Router σ)
    (routeSet : σ → Finset URL) (hr : RouterFrame app r routeSet)
    (ha : ∀ s, routeSet (app.RoutableAddresses s).2 = routeSet s)
    (hmono : ∀ s u, routeSet s ⊆ routeSet (r.AddRoute app.GetName u s).2) (s : σ)
    (n : String) (u : URL) (e : Error)
    (h : Call.AddRoute n u (some e) ∈ (reconcile rt app r s).trace) :
    routeSet s ⊆ routeSet (reconcile rt app r s).state := by
  unfold reconcile at h ⊢
  split at h
  · simp at h
  · rename_i oldRoutes s1 heq
    have h1 := hr.routes s
    rw [heq] at h1
    split at h
    · simp at h
    · rename_i addresses s2 heq2
      have h2 := ha s1
      rw [heq2] at h2
      simp only [Outcome.after, List.cons_append, List.nil_append, List.mem_cons,
        reduceCtorEq, false_or] at h
      simp only [Outcome.after]
      rw [applyRoutes_state_of_failed_add rt r app.GetName _ _ s2 n u e h]
      have := addRoutes_monotone rt r app.GetName routeSet hmono
        (toAddOf rt oldRoutes addresses) s2
      simp only at h1 h2
      rw [h2, h1] at this
      exact this

/-- C19 (additions precede removals).  In the trace of every pass no
`AddRoute` call stands after a `RemoveRoute` call.  Hence when an `AddRoute`
call returns an error no `RemoveRoute` has been issued in that pass; and if
the route set of the application is changed by no call other than route
operations and `AddRoute` never takes a route from it, every route present
before the pass is present after it. -/
theorem additions_precede_removals {σ : Type} (rt : Runtime) (app : RebuildApp σ) (s : σ) :
    (∀ (pre post : List Call) (c : Call),
        (RebuildRoutes rt app s).trace = pre ++ c :: post → c.removed?.isSome = true →
          ∀ x ∈ post, x.added? = none) ∧
      (∀ n u e, Call.AddRoute n u (some e) ∈ (RebuildRoutes rt app s).trace →
        removedOf (RebuildRoutes rt app s).trace = []) ∧
      (∀ (routeSet : σ → Finset URL), Frame app routeSet →
        (∀ s0 r, (app.GetRouter s0).1 = Except.ok r →
          ∀ s' u, routeSet s' ⊆ routeSet (r.AddRoute app.GetName u s').2) →
        ∀ n u e, Call.AddRoute n u (some e) ∈ (RebuildRoutes rt app s).trace →
          routeSet s ⊆ routeSet (RebuildRoutes rt app s).state) := by
  have hg := RebuildRoutes_good rt app s
  refine ⟨?_, ?_, ?_⟩
  · intro pre post c ht hc x hx
    have hs := hg.sorted
    rw [ht, List.pairwise_append] at hs
    have hp := (List.pairwise_cons.1 hs.2.1).1 x hx
    have hrank : c.rank = 7 := by
      cases c <;> simp [Call.removed?] at hc
      rfl
    rw [Call.precedes, hrank] at hp
    cases x <;> simp [Call.rank] at hp
    rfl
  · intro n u e hc
    obtain ⟨pre, post, ht⟩ := List.append_of_mem hc
    have hpost := hg.fatal_last pre post _ ht (by simp [Call.fatal, Call.err])
    subst hpost
    rw [ht]
    apply removedOf_eq_nil
    intro c hcm
    simp only [List.mem_append, List.mem_singleton] at hcm
    rcases hcm with hcm | rfl
    · have hp := hg.earlier pre [] _ ht c hcm
      intro h7
      rw [Call.precedes, h7] at hp
      simp [Call.rank] at hp
    · simp [Call.rank]
  · intro routeSet hF hmono n u e hc
    rcases RebuildRoutes_split rt app s with ⟨r, s4, pre, hp, heq⟩ | ⟨_, hearly, _, _⟩
    · rw [heq] at hc ⊢
      simp only [Outcome.after, List.mem_append] at hc
      have hc' : Call.AddRoute n u (some e) ∈ (reconcile rt app r s4).trace := by
        rcases hc with hc | hc
        · have := hp.early _ hc
          simp [Call.rank] at this
        · exact hc
      have := reconcile_monotone rt app r routeSet (hF.router s r hp.router) hF.addresses
        (hmono s r hp.router) s4 n u e hc'
      simp only [Outcome.after]
      rw [hp.frame _ routeSet hF] at this
      exact this
    · have := hearly _ hc
      simp [Call.rank] at this

theorem brokenApp_frame (addresses : List URL) {β : Type} (obs : List URL → β) :
    Frame (brokenApp addresses) obs := by
  refine ⟨fun s => rfl, fun s => rfl, fun s => rfl, ?_⟩
  intro s r hr
  simp only [brokenApp, Except.ok.injEq] at hr
  subst hr
  refine ⟨?_, ?_, ?_⟩
  · intro s
    simp [registerBackend, brokenRouter]
  · intro c hc
    simp [brokenRouter] at hc
  · intro s
    rfl

/-- C17 as stated fails: the router lists the route `http://10.0.0.2:8080`
twice, and it is the one desired address; in a pass where no operation fails
`RemoveRoute` is called on that route, which is the first of its host in the
list, and the router is left with no route at all. -/
theorem duplicate_route_hosts_counterexample :
    (RebuildRoutes plainRuntime (registryApp registryRouter "app" [] [urlB] [])
        ⟨[], [], [urlB, urlB]⟩).err = none ∧
      Call.Routes "app" [urlB, urlB] none ∈
        (RebuildRoutes plainRuntime (registryApp registryRouter "app" [] [urlB] [])
          ⟨[], [], [urlB, urlB]⟩).trace ∧
      Call.RoutableAddresses [urlB] none ∈
        (RebuildRoutes plainRuntime (registryApp registryRouter "app" [] [urlB] [])
          ⟨[], [], [urlB, urlB]⟩).trace ∧
      [urlB, urlB].head? = some urlB ∧ urlB.Host ∈ [urlB].map URL.Host ∧
      Call.RemoveRoute "app" urlB none ∈
        (RebuildRoutes plainRuntime (registryApp registryRouter "app" [] [urlB] [])
          ⟨[], [], [urlB, urlB]⟩).trace ∧
      (RebuildRoutes plainRuntime (registryApp registryRouter "app" [] [urlB] [])
        ⟨[], [], [urlB, urlB]⟩).state.routes = [] := by
  decide

/-- C17 at a concrete input: the routes `http://10.0.0.2:8080` and
`https://10.0.0.2:8080` in this order, the second one being the desired
address; the second one is removed and the first one, which does not come
again, is not. -/
theorem duplicate_route_hosts_witness :
    Call.Routes "app" [urlB, urlB2] none ∈
        (RebuildRoutes plainRuntime (memApp [urlB2] []) [urlB, urlB2]).trace ∧
      Call.RoutableAddresses [urlB2] none ∈
        (RebuildRoutes plainRuntime (memApp [urlB2] []) [urlB, urlB2]).trace ∧
      urlB2.Host ∈ [urlB2].map URL.Host ∧ urlB2.Host ∈ [urlB].map URL.Host ∧
      (RebuildRoutes plainRuntime (memApp [urlB2] []) [urlB, urlB2]).err = none ∧
      urlB2 ∈ toRemoveOf [urlB, urlB2] [urlB2] ∧
      Call.RemoveRoute "app" urlB2 none ∈
        (RebuildRoutes plainRuntime (memApp [urlB2] []) [urlB, urlB2]).trace ∧
      removedOf (RebuildRoutes plainRuntime (memApp [urlB2] []) [urlB, urlB2]).trace =
        [urlB2] ∧
      (RebuildRoutes plainRuntime (memApp [urlB2] []) [urlB, urlB2]).state = [urlB] :=
  have h := (duplicate_route_hosts plainRuntime (memApp [urlB2] []) [urlB, urlB2]
    [urlB, urlB2] [urlB2] "app" none (by decide) (by decide) [urlB] [] urlB2 rfl
    (by decide)).2.1 (by decide)
  ⟨by decide, by decide, by decide, by decide, by decide, h.1, h.2 (by decide), by decide,
    by decide⟩

/-- C18 at a concrete input: the desired addresses `http://10.0.0.2:8080` and
`https://10.0.0.2:8080` share a host that has no route; `AddRoute` is called
once, with the second. -/
theorem duplicate_desired_hosts_witness :
    Call.Routes "app" [urlC] none ∈
        (RebuildRoutes plainRuntime (memApp [urlB, urlB2] []) [urlC]).trace ∧
      Call.RoutableAddresses [urlB, urlB2] none ∈
        (RebuildRoutes plainRuntime (memApp [urlB, urlB2] []) [urlC]).trace ∧
      urlB2.Host ∉ ([] : List URL).map URL.Host ∧ urlB2.Host ∉ [urlC].map URL.Host ∧
      addedOf (RebuildRoutes plainRuntime (memApp [urlB, urlB2] []) [urlC]).trace =
        [urlB2] ∧
      (addedOf (RebuildRoutes plainRuntime (memApp [urlB, urlB2] []) [urlC]).trace).filter
        (fun v => decide (v.Host = urlB2.Host)) = [urlB2] ∧
      Call.AddRoute "app" urlB2 none ∈
        (RebuildRoutes plainRuntime (memApp [urlB, urlB2] []) [urlC]).trace :=
  have h := (duplicate_desired_hosts plainRuntime (memApp [urlB, urlB2] []) [urlC] [urlC]
    [urlB, urlB2] "app" none (by decide) (by decide) [urlB] [] urlB2 rfl (by decide)
    (by decide)).2.2.1 (by decide)
  ⟨by decide, by decide, by decide, by decide, by decide, h.1, h.2⟩

/-- C19 at concrete inputs: a pass with one addition and two removals, and a
pass whose first `AddRoute` fails, after which the route that was there is
still there. -/
theorem additions_precede_removals_witness :
    ((RebuildRoutes plainRuntime (memApp [urlA] []) [urlB, urlC]).trace =
        [Call.GetRouter none, Call.AddBackend "app" (some Error.ErrBackendExists),
          Call.UpdateAddr none, Call.Routes "app" [urlB, urlC] none,
          Call.RoutableAddresses [urlA] none, Call.AddRoute "app" urlA none] ++
          Call.RemoveRoute "app" urlB none :: [Call.RemoveRoute "app" urlC none] ∧
      ∀ x ∈ [Call.RemoveRoute "app" urlC none], x.added? = none) ∧
      Call.AddRoute "app" urlA (some (Error.other "backend down")) ∈
        (RebuildRoutes plainRuntime (brokenApp [urlA, urlB]) [urlC]).trace ∧
      removedOf (RebuildRoutes plainRuntime (brokenApp [urlA, urlB]) [urlC]).trace = [] ∧
      [urlC].toFinset ⊆
        (RebuildRoutes plainRuntime (brokenApp [urlA, urlB]) [urlC]).state.toFinset :=
  ⟨⟨by decide,
      (additions_precede_removals plainRuntime (memApp [urlA] []) [urlB, urlC]).1
        [Call.GetRouter none, Call.AddBackend "app" (some Error.ErrBackendExists),
          Call.UpdateAddr none, Call.Routes "app" [urlB, urlC] none,
          Call.RoutableAddresses [urlA] none, Call.AddRoute "app" urlA none]
        [Call.RemoveRoute "app" urlC none] (Call.RemoveRoute "app" urlB none)
        (by decide) rfl⟩,
    by decide,
    (additions_precede_removals plainRuntime (brokenApp [urlA, urlB]) [urlC]).2.1 "app" urlA
      (Error.other "backend down") (by decide),
    (additions_precede_removals plainRuntime (brokenApp [urlA, urlB]) [urlC]).2.2
      (fun s => s.toFinset) (brokenApp_frame _ _)
      (fun s0 r hr s' u => by
        simp only [brokenApp, Except.ok.injEq] at hr
        subst hr
        exact Finset.Subset.refl _)
      "app" urlA (Error.other "backend down") (by decide)⟩

end Rebuild

namespace Kubernetes

/-! ## Bounded polling -/

theorem waitForFrom_evaluations (text : String) (fn : Nat → Bool × Option String) :
    ∀ left i, i + 1 ≤ (waitForFrom text fn left i).evaluations := by
  intro left
  induction left with
  | zero =>
    intro i
    rw [waitForFrom]
    split <;> simp
  | succ left ih =>
    intro i
    rw [waitForFrom]
    split
    · simp
    · simp
    · have := ih (i + 1)
      omega

/-- The first evaluation that does not return `(false, nil)` ends the wait
with what it returned as error. -/
theorem waitForFrom_stop (text : String) (fn : Nat → Bool × Option String) :
    ∀ left i k, k ≤ left → (∀ j, j < k → fn (i + j) = (false, none)) →
      fn (i + k) ≠ (false, none) →
        waitForFrom text fn left i = ⟨(fn (i + k)).2, i + k + 1⟩ := by
  intro left
  induction left with
  | zero =>
    intro i k hk _ hne
    have hk0 : k = 0 := by omega
    subst hk0
    rw [waitForFrom]
    simp only [Nat.add_zero] at hne ⊢
    split
    · rename_i heq; simp [heq]
    · rename_i heq; simp [heq]
    · rename_i heq; exact absurd heq hne
  | succ left ih =>
    intro i k hk hpre hne
    rw [waitForFrom]
    cases k with
    | zero =>
      simp only [Nat.add_zero] at hne ⊢
      split
      · rename_i heq; simp [heq]
      · rename_i heq; simp [heq]
      · rename_i heq; exact absurd heq hne
    | succ k =>
      have h0 := hpre 0 (by omega)
      simp only [Nat.add_zero] at h0
      rw [h0]
      simp only
      have := ih (i + 1) k (by omega)
        (fun j hj => by
          have := hpre (j + 1) (by omega)
          rw [← this]
          congr 1
          omega)
        (by
          have e : i + 1 + k = i + (k + 1) := by omega
          rw [e]
          exact hne)
      rw [this]
      have e : i + 1 + k = i + (k + 1) := by omega
      rw [e]

theorem waitForFrom_timeout (text : String) (fn : Nat → Bool × Option String) :
    ∀ left i, (∀ j, j ≤ left → fn (i + j) = (false, none)) →
      waitForFrom text fn left i = ⟨some ("timeout after " ++ text), i + left + 1⟩ := by
  intro left
  induction left with
  | zero =>
    intro i h
    have h0 := h 0 (by omega)
    simp only [Nat.add_zero] at h0
    rw [waitForFrom, h0]
  | succ left ih =>
    intro i h
    have h0 := h 0 (by omega)
    simp only [Nat.add_zero] at h0
    rw [waitForFrom, h0]
    simp only
    rw [ih (i + 1) (fun j hj => by
      have := h (j + 1) (by omega)
      rw [← this]
      congr 1
      omega)]
    have e : i + 1 + left = i + (left + 1) := by omega
    rw [e]

/-- C11 (outcome of `waitFor`).  The predicate is evaluated at least once.
If the evaluations before the `k`-th all return `(false, nil)` and the
`k`-th is still within the window: when it returns an error, with `done`
true or false, `waitFor` returns that error; when it returns `done` without
error, `waitFor` returns nil.  If every evaluation within the window returns
`(false, nil)`, `waitFor` returns the error `timeout after <duration>`. -/
theorem waitFor_outcome (timeout : Duration) (fn : Nat → Bool × Option String) :
    1 ≤ (waitFor timeout fn).evaluations ∧
      (∀ k, k ≤ timeout.polls → (∀ j, j < k → fn j = (false, none)) →
        (∀ d e, fn k = (d, some e) → waitFor timeout fn = ⟨some e, k + 1⟩) ∧
          (fn k = (true, none) → waitFor timeout fn = ⟨none, k + 1⟩)) ∧
      ((∀ j, j ≤ timeout.polls → fn j = (false, none)) →
        waitFor timeout fn =
          ⟨some ("timeout after " ++ timeout.text), timeout.polls + 1⟩) := by
  refine ⟨?_, ?_, ?_⟩
  · have := waitForFrom_evaluations timeout.text fn timeout.polls 0
    simpa [waitFor] using this
  · intro k hk hpre
    have hstop := waitForFrom_stop timeout.text fn timeout.polls 0 k hk
      (fun j hj => by simpa using hpre j hj)
    simp only [Nat.zero_add] at hstop
    refine ⟨?_, ?_⟩
    · intro d e he
      rw [waitFor, hstop (by rw [he]; simp), he]
    · intro he
      rw [waitFor, hstop (by rw [he]; simp), he]
  · intro h
    have := waitForFrom_timeout timeout.text fn timeout.polls 0
      (fun j hj => by simpa using h j hj)
    simpa [waitFor] using this

/-- C11 at concrete inputs, the three cases of `TestWaitFor`. -/
theorem waitFor_outcome_witness :
    waitFor ⟨3, "100ms"⟩ (fun _ => (true, none)) = ⟨none, 1⟩ ∧
      waitFor ⟨3, "100ms"⟩ (fun _ => (false, none)) = ⟨some "timeout after 100ms", 4⟩ ∧
      waitFor ⟨3, "100ms"⟩ (fun _ => (true, some "myerr")) = ⟨some "myerr", 1⟩ ∧
      waitFor ⟨0, "0s"⟩ (fun _ => (false, none)) = ⟨some "timeout after 0s", 1⟩ :=
  ⟨((waitFor_outcome ⟨3, "100ms"⟩ (fun _ => (true, none))).2.1 0 (by decide)
      (fun j hj => absurd hj (by omega))).2 rfl,
    (waitFor_outcome ⟨3, "100ms"⟩ (fun _ => (false, none))).2.2 (fun _ _ => rfl),
    ((waitFor_outcome ⟨3, "100ms"⟩ (fun _ => (true, some "myerr"))).2.1 0 (by decide)
      (fun j hj => absurd hj (by omega))).1 true "myerr" rfl,
    (waitFor_outcome ⟨0, "0s"⟩ (fun _ => (false, none))).2.2 (fun _ _ => rfl)⟩

/-! ## Pod readiness -/

theorem waitFor_first (timeout : Duration) (fn : Nat → Bool × Option String)
    (h : fn 0 ≠ (false, none)) : waitFor timeout fn = ⟨(fn 0).2, 1⟩ := by
  have := waitForFrom_stop timeout.text fn timeout.polls 0 0 (Nat.zero_le _)
    (fun j hj => absurd hj (by omega)) (by simpa using h)
  simpa [waitFor] using this

theorem waitFor_pending (timeout : Duration) (fn : Nat → Bool × Option String)
    (h : ∀ j, j ≤ timeout.polls → fn j = (false, none)) :
    waitFor timeout fn = ⟨some ("timeout after " ++ timeout.text), timeout.polls + 1⟩ := by
  have := waitForFrom_timeout timeout.text fn timeout.polls 0
    (fun j hj => by simpa using h j hj)
  simpa [waitFor] using this

theorem getPod_name (c : Cluster) (name : String) (pod : Pod)
    (h : getPod c name = some pod) : pod.Name = name := by
  have := List.find?_some h
  simpa using this

theorem lastEventFor_eq_none (c : Cluster) (name : String) :
    lastEventFor c name = none ↔
      ∀ e ∈ c.events, ¬(e.InvolvedKind = "Pod" ∧ e.InvolvedName = name) := by
  simp only [lastEventFor, List.getLast?_eq_none_iff, List.filter_eq_nil_iff, Bool.and_eq_true,
    beq_iff_eq]

theorem lastEventFor_mem (c : Cluster) (name : String) (evt : Event)
    (h : lastEventFor c name = some evt) :
    evt ∈ c.events ∧ evt.InvolvedKind = "Pod" ∧ evt.InvolvedName = name := by
  have := List.mem_of_getLast?_eq_some h
  simpa [List.mem_filter] using this

/-- C12 (outcome of `waitForPod` as a function of the pod's state).  An absent
pod fails with `Pod "<name>" not found`; phase `Succeeded` returns nil;
`Unknown` fails with `invalid pod phase "Unknown"`; `Failed` fails with the
message of the most recent event that has the pod as involved object if
there is one, otherwise with the pod's status message if it is not empty,
otherwise with the phase alone; `Pending` held until the deadline times out;
`Running` held until the deadline times out in the default mode and returns
nil in running mode.  An event for the pod is found exactly when the cluster
has an event whose involved object is the pod. -/
theorem waitForPod_outcome (cluster : Nat → Cluster) (name : String) (running : Bool)
    (timeout : Duration) :
    (getPod (cluster 0) name = none →
        (waitForPod cluster name running timeout).err =
          some ("Pod " ++ quote name ++ " not found")) ∧
      (∀ pod, getPod (cluster 0) name = some pod →
        (pod.Phase = PodPhase.Succeeded →
          (waitForPod cluster name running timeout).err = none) ∧
        (pod.Phase = PodPhase.Unknown →
          (waitForPod cluster name running timeout).err =
            some "invalid pod phase \"Unknown\"") ∧
        (pod.Phase = PodPhase.Failed →
          (∀ evt, lastEventFor (cluster 0) name = some evt →
            (waitForPod cluster name running timeout).err =
              some ("invalid pod phase \"Failed\": " ++ evt.Message)) ∧
          (lastEventFor (cluster 0) name = none → pod.Message ≠ "" →
            (waitForPod cluster name running timeout).err =
              some ("invalid pod phase \"Failed\"(" ++ quote pod.Message ++ ")")) ∧
          (lastEventFor (cluster 0) name = none → pod.Message = "" →
            (waitForPod cluster name running timeout).err =
              some "invalid pod phase \"Failed\""))) ∧
      ((∀ i, i ≤ timeout.polls →
          ∃ pod, getPod (cluster i) name = some pod ∧ pod.Phase = PodPhase.Pending) →
        (waitForPod cluster name running timeout).err =
          some ("timeout after " ++ timeout.text)) ∧
      ((∀ i, i ≤ timeout.polls →
          ∃ pod, getPod (cluster i) name = some pod ∧ pod.Phase = PodPhase.Running) →
        (waitForPod cluster name running timeout).err =
          if running then none else some ("timeout after " ++ timeout.text)) ∧
      (∀ c : Cluster, (∃ evt, lastEventFor c name = some evt) ↔
        ∃ e ∈ c.events, e.InvolvedKind = "Pod" ∧ e.InvolvedName = name) := by
  refine ⟨?_, ?_, ?_, ?_, ?_⟩
  · intro hget
    rw [waitForPod, waitFor_first _ _ (by simp [classifyPod, hget, ReadinessOutcome.toPoll])]
    simp [classifyPod, hget, ReadinessOutcome.toPoll]
  · intro pod hget
    have hname := getPod_name _ _ _ hget
    refine ⟨?_, ?_, ?_⟩
    · intro hp
      rw [waitForPod,
        waitFor_first _ _ (by simp [classifyPod, hget, hp, ReadinessOutcome.toPoll])]
      simp [classifyPod, hget, hp, ReadinessOutcome.toPoll]
    · intro hp
      rw [waitForPod,
        waitFor_first _ _ (by simp [classifyPod, hget, hp, ReadinessOutcome.toPoll])]
      simp only [classifyPod, hget, hp, ReadinessOutcome.toPoll, Option.some.injEq]
      decide
    · intro hp
      have hfirst : (waitForPod cluster name running timeout).err =
          some (failedReason (cluster 0) pod) := by
        rw [waitForPod,
          waitFor_first _ _ (by simp [classifyPod, hget, hp, ReadinessOutcome.toPoll])]
        simp [classifyPod, hget, hp, ReadinessOutcome.toPoll]
      rw [hfirst]
      have hA : "invalid pod phase " ++ quote PodPhase.Failed.text ++ ": " =
          "invalid pod phase \"Failed\": " := by decide
      have hB : "invalid pod phase " ++ quote PodPhase.Failed.text ++ "(" =
          "invalid pod phase \"Failed\"(" := by decide
      have hC : "invalid pod phase " ++ quote PodPhase.Failed.text =
          "invalid pod phase \"Failed\"" := by decide
      refine ⟨?_, ?_, ?_⟩
      · intro evt hevt
        simp only [failedReason, hname, hevt, hp, hA]
      · intro hnone hmsg
        simp only [failedReason, hname, hnone, hp, hmsg, if_false, hB]
      · intro hnone hmsg
        simp only [failedReason, hname, hnone, hp, hmsg, if_true, hC]
  · intro hall
    rw [waitForPod, waitFor_pending]
    intro j hj
    obtain ⟨pod, hget, hp⟩ := hall j hj
    simp [classifyPod, hget, hp, ReadinessOutcome.toPoll]
  · intro hall
    cases running with
    | true =>
      obtain ⟨pod, hget, hp⟩ := hall 0 (Nat.zero_le _)
      rw [waitForPod,
        waitFor_first _ _ (by simp [classifyPod, hget, hp, ReadinessOutcome.toPoll])]
      simp [classifyPod, hget, hp, ReadinessOutcome.toPoll]
    | false =>
      rw [waitForPod, waitFor_pending]
      · simp
      · intro j hj
        obtain ⟨pod, hget, hp⟩ := hall j hj
        simp [classifyPod, hget, hp, ReadinessOutcome.toPoll]
  · intro c
    constructor
    · rintro ⟨evt, hevt⟩
      exact ⟨evt, lastEventFor_mem c name evt hevt⟩
    · rintro ⟨e, he, hk⟩
      cases h : lastEventFor c name with
      | some evt => exact ⟨evt, rfl⟩
      | none => exact absurd hk ((lastEventFor_eq_none c name).1 h e he)

/-- C12 at concrete inputs, cases of `TestWaitForPod`: a failed pod with an
event, with a status message, with neither; a pod held in `Running` in the
two modes. -/
theorem waitForPod_outcome_witness :
    (lastEventFor ⟨[testPod PodPhase.Failed "" []], [⟨"Pod", "pod1", "my evt message"⟩]⟩
        "pod1" = some ⟨"Pod", "pod1", "my evt message"⟩ ∧
      (waitForPod (fun _ => ⟨[testPod PodPhase.Failed "" []],
        [⟨"Pod", "pod1", "my evt message"⟩]⟩) "pod1" false ⟨3, "100ms"⟩).err =
          some "invalid pod phase \"Failed\": my evt message") ∧
      (waitForPod (fun _ => ⟨[testPod PodPhase.Failed "my error msg" []], []⟩) "pod1" false
        ⟨3, "100ms"⟩).err = some "invalid pod phase \"Failed\"(\"my error msg\")" ∧
      (waitForPod (fun _ => ⟨[testPod PodPhase.Failed "" []], []⟩) "pod1" false
        ⟨3, "100ms"⟩).err = some "invalid pod phase \"Failed\"" ∧
      (waitForPod (fun _ => ⟨[testPod PodPhase.Running "" []], []⟩) "pod1" false
        ⟨3, "100ms"⟩).err = some "timeout after 100ms" ∧
      (waitForPod (fun _ => ⟨[testPod PodPhase.Running "" []], []⟩) "pod1" true
        ⟨3, "100ms"⟩).err = none ∧
      (waitForPod (fun _ => ⟨[], []⟩) "pod1" false ⟨3, "100ms"⟩).err =
        some "Pod \"pod1\" not found" :=
  ⟨⟨by decide,
      ((waitForPod_outcome (fun _ => ⟨[testPod PodPhase.Failed "" []],
        [⟨"Pod", "pod1", "my evt message"⟩]⟩) "pod1" false ⟨3, "100ms"⟩).2.1
        (testPod PodPhase.Failed "" []) (by decide)).2.2 rfl |>.1
          ⟨"Pod", "pod1", "my evt message"⟩ (by decide)⟩,
    ((waitForPod_outcome (fun _ => ⟨[testPod PodPhase.Failed "my error msg" []], []⟩)
      "pod1" false ⟨3, "100ms"⟩).2.1 (testPod PodPhase.Failed "my error msg" [])
      (by decide)).2.2 rfl |>.2.1 (by decide) (by decide),
    ((waitForPod_outcome (fun _ => ⟨[testPod PodPhase.Failed "" []], []⟩)
      "pod1" false ⟨3, "100ms"⟩).2.1 (testPod PodPhase.Failed "" [])
      (by decide)).2.2 rfl |>.2.2 (by decide) (by decide),
    (waitForPod_outcome (fun _ => ⟨[testPod PodPhase.Running "" []], []⟩)
      "pod1" false ⟨3, "100ms"⟩).2.2.2.1
      (fun _ _ => ⟨testPod PodPhase.Running "" [], by decide, rfl⟩),
    (waitForPod_outcome (fun _ => ⟨[testPod PodPhase.Running "" []], []⟩)
      "pod1" true ⟨3, "100ms"⟩).2.2.2.1
      (fun _ _ => ⟨testPod PodPhase.Running "" [], by decide, rfl⟩),
    (waitForPod_outcome (fun _ => ⟨[], []⟩) "pod1" false ⟨3, "100ms"⟩).1 (by decide)⟩

/-! ## Container states of a running pod -/

theorem firstTerminated_split (pre post : List ContainerStatus) (st : ContainerStatus)
    (t : ContainerStateTerminated) (hpre : ∀ x ∈ pre, x.State.Terminated = none)
    (hst : st.State.Terminated = some t) :
    firstTerminated (pre ++ st :: post) = some (st, t) := by
  induction pre with
  | nil => simp [firstTerminated, hst]
  | cons x rest ih =>
    have hx := hpre x (List.mem_cons_self _ _)
    rw [List.cons_append, firstTerminated, hx]
    exact ih (fun y hy => hpre y (List.mem_cons_of_mem _ hy))

theorem firstTerminated_none (statuses : List ContainerStatus)
    (h : ∀ x ∈ statuses, x.State.Terminated = none) : firstTerminated statuses = none := by
  induction statuses with
  | nil => rfl
  | cons x rest ih =>
    rw [firstTerminated, h x (List.mem_cons_self _ _)]
    exact ih (fun y hy => h y (List.mem_cons_of_mem _ hy))

theorem classifyRunning_of_running (c : Cluster) (name : String) (pod : Pod)
    (hget : getPod c name = some pod) (hp : pod.Phase = PodPhase.Running) :
    classifyRunning c name = classifyContainers pod.ContainerStatuses := by
  simp [classifyRunning, classifyPod, hget, hp]

/-- C13 (classification of a running pod by `waitForPodContainersRunning`).
For a pod in phase `Running`: if a container is in the terminated state, the
wait fails with `unexpected container "<name>" termination: Exit <code> -
Reason: "<reason>" - Message: "<message>"`, built from the first such
container in the order of the statuses, whatever the other containers do;
if none is terminated and all are running, the wait returns nil; if none is
terminated and some container is not running, and the pod is held so until
the deadline, the wait times out. -/
theorem waitForPodContainersRunning_outcome (cluster : Nat → Cluster) (name : String)
    (timeout : Duration) :
    (∀ pod, getPod (cluster 0) name = some pod → pod.Phase = PodPhase.Running →
        (∀ (pre post : List ContainerStatus) (st : ContainerStatus)
            (t : ContainerStateTerminated),
          pod.ContainerStatuses = pre ++ st :: post →
            (∀ x ∈ pre, x.State.Terminated = none) → st.State.Terminated = some t →
              (waitForPodContainersRunning cluster name timeout).err =
                some ("unexpected container " ++ quote st.Name ++ " termination: Exit " ++
                  toString t.ExitCode ++ " - Reason: " ++ quote t.Reason ++
                  " - Message: " ++ quote t.Message)) ∧
        ((∀ x ∈ pod.ContainerStatuses,
            x.State.Terminated = none ∧ x.State.Running = true) →
          (waitForPodContainersRunning cluster name timeout).err = none)) ∧
      ((∀ i, i ≤ timeout.polls →
          ∃ pod, getPod (cluster i) name = some pod ∧ pod.Phase = PodPhase.Running ∧
            (∀ x ∈ pod.ContainerStatuses, x.State.Terminated = none) ∧
            ∃ x ∈ pod.ContainerStatuses, x.State.Running = false) →
        (waitForPodContainersRunning cluster name timeout).err =
          some ("timeout after " ++ timeout.text)) := by
  refine ⟨?_, ?_⟩
  · intro pod hget hp
    have hcls := classifyRunning_of_running (cluster 0) name pod hget hp
    refine ⟨?_, ?_⟩
    · intro pre post st t hsplit hpre hst
      have hft := firstTerminated_split pre post st t hpre hst
      rw [← hsplit] at hft
      rw [waitForPodContainersRunning,
        waitFor_first _ _ (by simp [hcls, classifyContainers, hft, ReadinessOutcome.toPoll])]
      simp [hcls, classifyContainers, hft, ReadinessOutcome.toPoll, terminationReason]
    · intro hall
      have hft := firstTerminated_none pod.ContainerStatuses (fun x hx => (hall x hx).1)
      have hrun : pod.ContainerStatuses.all (fun st => st.State.Running) = true := by
        rw [List.all_eq_true]
        intro x hx
        exact (hall x hx).2
      rw [waitForPodContainersRunning,
        waitFor_first _ _
          (by simp [hcls, classifyContainers, hft, hrun, ReadinessOutcome.toPoll])]
      simp [hcls, classifyContainers, hft, hrun, ReadinessOutcome.toPoll]
  · intro hall
    rw [waitForPodContainersRunning, waitFor_pending]
    intro j hj
    obtain ⟨pod, hget, hp, hterm, x, hx, hxr⟩ := hall j hj
    have hcls := classifyRunning_of_running (cluster j) name pod hget hp
    have hft := firstTerminated_none pod.ContainerStatuses hterm
    have hrun : pod.ContainerStatuses.all (fun st => st.State.Running) = false := by
      rw [Bool.eq_false_iff]
      intro h
      rw [List.all_eq_true] at h
      have := h x hx
      rw [hxr] at this
      exact absurd this (by simp)
    simp [hcls, classifyContainers, hft, hrun, ReadinessOutcome.toPoll]

/-- C13 at concrete inputs, cases of `TestWaitForPodContainersRunning`: a
running and a terminated container; two running containers; a running
container and one that is neither running nor terminated. -/
theorem waitForPodContainersRunning_outcome_witness :
    (waitForPodContainersRunning (fun _ => ⟨[testPod PodPhase.Running ""
        [⟨"c-0", ⟨true, none⟩⟩, ⟨"c-1", ⟨false, some ⟨9, "x", "y"⟩⟩⟩]], []⟩) "pod1"
        ⟨3, "100ms"⟩).err =
        some "unexpected container \"c-1\" termination: Exit 9 - Reason: \"x\" - Message: \"y\"" ∧
      (waitForPodContainersRunning (fun _ => ⟨[testPod PodPhase.Running ""
        [⟨"c-0", ⟨true, none⟩⟩, ⟨"c-1", ⟨true, none⟩⟩]], []⟩) "pod1"
        ⟨3, "100ms"⟩).err = none ∧
      (waitForPodContainersRunning (fun _ => ⟨[testPod PodPhase.Running ""
        [⟨"c-0", ⟨true, none⟩⟩, ⟨"c-1", ⟨false, none⟩⟩]], []⟩) "pod1"
        ⟨3, "100ms"⟩).err = some "timeout after 100ms" :=
  ⟨((waitForPodContainersRunning_outcome (fun _ => ⟨[testPod PodPhase.Running ""
        [⟨"c-0", ⟨true, none⟩⟩, ⟨"c-1", ⟨false, some ⟨9, "x", "y"⟩⟩⟩]], []⟩) "pod1"
        ⟨3, "100ms"⟩).1 (testPod PodPhase.Running ""
        [⟨"c-0", ⟨true, none⟩⟩, ⟨"c-1", ⟨false, some ⟨9, "x", "y"⟩⟩⟩]) (by decide) rfl).1
      [⟨"c-0", ⟨true, none⟩⟩] [] ⟨"c-1", ⟨false, some ⟨9, "x", "y"⟩⟩⟩ ⟨9, "x", "y"⟩ rfl
      (by decide) rfl,
    ((waitForPodContainersRunning_outcome (fun _ => ⟨[testPod PodPhase.Running ""
        [⟨"c-0", ⟨true, none⟩⟩, ⟨"c-1", ⟨true, none⟩⟩]], []⟩) "pod1"
        ⟨3, "100ms"⟩).1 (testPod PodPhase.Running ""
        [⟨"c-0", ⟨true, none⟩⟩, ⟨"c-1", ⟨true, none⟩⟩]) (by decide) rfl).2 (by decide),
    (waitForPodContainersRunning_outcome (fun _ => ⟨[testPod PodPhase.Running ""
        [⟨"c-0", ⟨true, none⟩⟩, ⟨"c-1", ⟨false, none⟩⟩]], []⟩) "pod1"
        ⟨3, "100ms"⟩).2
      (fun _ _ => ⟨testPod PodPhase.Running ""
        [⟨"c-0", ⟨true, none⟩⟩, ⟨"c-1", ⟨false, none⟩⟩], by decide, rfl, by decide,
        ⟨"c-1", ⟨false, none⟩⟩, by decide, rfl⟩)⟩

/-! ## Selector-scoped cleanup -/

theorem getPod_eq_none (c : Cluster) (name : String) :
    getPod c name = none ↔ ∀ p ∈ c.pods, p.Name ≠ name := by
  simp [getPod, List.find?_eq_none]

theorem deletePod_cases (fail : String → Option String) (name : String) (c : Cluster) :
    (getPod c name = none ∧ deletePod fail name c = (some DeleteError.NotFound, c)) ∨
      (∃ e, fail name = some e ∧ deletePod fail name c = (some (DeleteError.Other e), c)) ∨
      (fail name = none ∧ deletePod fail name c =
        (none, { c with pods := c.pods.filter (fun p => !(p.Name == name)) })) := by
  unfold deletePod
  cases hg : getPod c name with
  | none => exact Or.inl ⟨rfl, rfl⟩
  | some p =>
    cases hf : fail name with
    | some e => exact Or.inr (Or.inl ⟨e, rfl, rfl⟩)
    | none => exact Or.inr (Or.inr ⟨rfl, rfl⟩)

/-- A batch of deletes that returns no error leaves the cluster without the
pods of the names given, and otherwise as it was. -/
theorem deletePods_done (fail : String → Option String) (names : List String) :
    ∀ c : Cluster, (deletePods fail names c).1 = none →
      (deletePods fail names c).2 =
        { c with pods := c.pods.filter (fun p => decide (p.Name ∉ names)) } := by
  induction names with
  | nil =>
    intro c _
    simp [deletePods]
  | cons name rest ih =>
    intro c h
    rw [deletePods] at h ⊢
    rcases deletePod_cases fail name c with ⟨hg, hd⟩ | ⟨e, _, hd⟩ | ⟨_, hd⟩
    · rw [hd] at h ⊢
      simp only at h ⊢
      rw [ih c h]
      congr 1
      apply List.filter_congr
      intro p hp
      have := (getPod_eq_none c name).1 hg p hp
      simp [this]
    · rw [hd] at h
      simp at h
    · rw [hd] at h ⊢
      simp only at h ⊢
      rw [ih _ h]
      simp only [List.filter_filter]
      congr 1
      apply List.filter_congr
      intro p _
      by_cases e : p.Name = name <;> simp [e]

theorem deletePods_ok (fail : String → Option String) (hf : ∀ n, fail n = none)
    (names : List String) : ∀ c : Cluster, (deletePods fail names c).1 = none := by
  induction names with
  | nil => intro c; rfl
  | cons name rest ih =>
    intro c
    rw [deletePods]
    rcases deletePod_cases fail name c with ⟨_, hd⟩ | ⟨e, he, _⟩ | ⟨_, hd⟩
    · rw [hd]
      exact ih c
    · rw [hf name] at he
      simp at he
    · rw [hd]
      exact ih _

theorem cleanupPods_of_no_match (fail : String → Option String)
    (selector : List (String × String)) (c : Cluster)
    (h : ∀ p ∈ c.pods, selectorMatches selector p.Labels = false) :
    cleanupPods fail selector c = (none, c) := by
  have : c.pods.filter (fun p => selectorMatches selector p.Labels) = [] := by
    rw [List.filter_eq_nil_iff]
    intro p hp
    simp [h p hp]
  simp [cleanupPods, this, deletePods]

theorem cleanupPods_done (fail : String → Option String)
    (selector : List (String × String)) (c : Cluster)
    (hn : (c.pods.map Pod.Name).Nodup) (h : (cleanupPods fail selector c).1 = none) :
    (cleanupPods fail selector c).2 =
      { c with pods := c.pods.filter (fun p => !selectorMatches selector p.Labels) } := by
  rw [cleanupPods] at h ⊢
  rw [deletePods_done fail _ c h]
  congr 1
  apply List.filter_congr
  intro p hp
  have hiff : p.Name ∈ (c.pods.filter (fun p => selectorMatches selector p.Labels)).map
      Pod.Name ↔ selectorMatches selector p.Labels = true := by
    simp only [List.mem_map, List.mem_filter]
    constructor
    · rintro ⟨q, ⟨hq, hm⟩, hqn⟩
      have := List.inj_on_of_nodup_map hn hq hp hqn
      rw [← this]
      exact hm
    · intro hm
      exact ⟨p, ⟨hp, hm⟩, rfl⟩
  by_cases hm : selectorMatches selector p.Labels = true
  · simp [hm, hiff.2 hm]
  · have : p.Name ∉ (c.pods.filter (fun p => selectorMatches selector p.Labels)).map
        Pod.Name := fun x => hm (hiff.1 x)
    simp [hm, this]

/-- C14 (selector-scoped cleanup).  In a namespace, where no two pods have the
same name: a `cleanupPods` call that returns no error leaves exactly the
pods whose labels do not match the selector, each as it was, and the rest of
the cluster untouched; when no pod matches it returns no error and changes
nothing; hence a second call right after a successful one returns no error
and changes nothing; and the call returns no error whenever the cluster
refuses no delete. -/
theorem cleanupPods_scoped (fail : String → Option String)
    (selector : List (String × String)) (c : Cluster)
    (hn : (c.pods.map Pod.Name).Nodup) :
    ((cleanupPods fail selector c).1 = none →
        (cleanupPods fail selector c).2 =
          { c with pods := c.pods.filter (fun p => !selectorMatches selector p.Labels) }) ∧
      ((∀ p ∈ c.pods, selectorMatches selector p.Labels = false) →
        cleanupPods fail selector c = (none, c)) ∧
      ((cleanupPods fail selector c).1 = none →
        ∀ fail', cleanupPods fail' selector (cleanupPods fail selector c).2 =
          (none, (cleanupPods fail selector c).2)) ∧
      ((∀ n, fail n = none) → (cleanupPods fail selector c).1 = none) := by
  refine ⟨cleanupPods_done fail selector c hn, cleanupPods_of_no_match fail selector c, ?_,
    fun hf => deletePods_ok fail hf _ c⟩
  intro h fail'
  apply cleanupPods_of_no_match
  rw [cleanupPods_done fail selector c hn h]
  intro p hp
  simp only [List.mem_filter] at hp
  simpa using hp.2

/-- C14 at a concrete input, the case of `TestCleanupPods`: pods labelled
`a=x`, `a=x` and `a=y`, selector `a=x`; only the third pod remains. -/
theorem cleanupPods_scoped_witness :
    (([labelledPod "pod-0" "x", labelledPod "pod-1" "x", labelledPod "pod-2" "y"].map
        Pod.Name).Nodup) ∧
      (cleanupPods (fun _ => none) [("a", "x")]
        ⟨[labelledPod "pod-0" "x", labelledPod "pod-1" "x", labelledPod "pod-2" "y"],
          []⟩).1 = none ∧
      (cleanupPods (fun _ => none) [("a", "x")]
        ⟨[labelledPod "pod-0" "x", labelledPod "pod-1" "x", labelledPod "pod-2" "y"],
          []⟩).2 = ⟨[labelledPod "pod-2" "y"], []⟩ :=
  ⟨by decide, by decide,
    ((cleanupPods_scoped (fun _ => none) [("a", "x")]
      ⟨[labelledPod "pod-0" "x", labelledPod "pod-1" "x", labelledPod "pod-2" "y"], []⟩
      (by decide)).1 (by decide)).trans (by decide)⟩

/-! ## Labels and annotations -/

theorem mem_setKey (m : List (String × String)) (k v : String) (p : String × String) :
    p ∈ setKey m k v ↔ (p ∈ m ∧ p.1 ≠ k) ∨ p = (k, v) := by
  simp [setKey]

theorem keys_setKey (m : List (String × String)) (k v : String) :
    (setKey m k v).map Prod.fst = (m.map Prod.fst).filter (fun h => !(h == k)) ++ [k] := by
  simp [setKey, List.filter_map, Function.comp_def]

theorem keys_setKey_nodup (m : List (String × String)) (k v : String)
    (h : (m.map Prod.fst).Nodup) : ((setKey m k v).map Prod.fst).Nodup := by
  rw [keys_setKey, List.nodup_append]
  refine ⟨h.filter _, by simp, ?_⟩
  intro x hx hk
  simp only [List.mem_singleton] at hk
  simp [hk] at hx

theorem keys_foldl_setKey_nodup (l : List (String × String)) :
    ∀ m : List (String × String), (m.map Prod.fst).Nodup →
      ((l.foldl (fun m p => setKey m p.1 p.2) m).map Prod.fst).Nodup := by
  induction l with
  | nil => intro m h; simpa using h
  | cons q rest ih => intro m h; exact ih _ (keys_setKey_nodup m q.1 q.2 h)

theorem mem_foldl_setKey (l : List (String × String)) :
    ∀ m : List (String × String), (l.map Prod.fst).Nodup →
      (∀ p ∈ m, p.1 ∉ l.map Prod.fst) →
        ∀ p, p ∈ l.foldl (fun m p => setKey m p.1 p.2) m ↔ p ∈ m ∨ p ∈ l := by
  induction l with
  | nil => intro m _ _ p; simp
  | cons q rest ih =>
    intro m hn hm p
    rw [List.map_cons, List.nodup_cons] at hn
    rw [List.foldl_cons, ih (setKey m q.1 q.2) hn.2]
    · rw [mem_setKey, List.mem_cons]
      constructor
      · rintro ((⟨h1, _⟩ | h1) | h1)
        · exact Or.inl h1
        · exact Or.inr (Or.inl h1)
        · exact Or.inr (Or.inr h1)
      · rintro (h1 | h1 | h1)
        · refine Or.inl (Or.inl ⟨h1, ?_⟩)
          intro e
          exact hm p h1 (by simp [e])
        · exact Or.inl (Or.inr h1)
        · exact Or.inr h1
    · intro x hx
      rw [mem_setKey] at hx
      rcases hx with ⟨hx, _⟩ | hx
      · intro hc
        exact hm x hx (List.mem_cons_of_mem _ hc)
      · rw [hx]
        exact hn.1

/-- C15 (`labelSetFromMeta` is the union of labels and annotations).  For
metadata whose two maps have no key in common, the map of the result holds
exactly the entries of the labels and those of the annotations, each key
with its value, whatever the key looks like, one entry per key; and its
prefix is `tsuruLabelPrefix`. -/
theorem labelSetFromMeta_union (meta : ObjectMeta)
    (hl : (meta.Labels.map Prod.fst).Nodup) (ha : (meta.Annotations.map Prod.fst).Nodup)
    (hd : ∀ k ∈ meta.Labels.map Prod.fst, k ∉ meta.Annotations.map Prod.fst) :
    (∀ p, p ∈ (labelSetFromMeta meta).Labels ↔ p ∈ meta.Labels ∨ p ∈ meta.Annotations) ∧
      ((labelSetFromMeta meta).Labels.map Prod.fst).Nodup ∧
      (labelSetFromMeta meta).Prefix = tsuruLabelPrefix := by
  refine ⟨?_, keys_foldl_setKey_nodup _ [] (by simp), rfl⟩
  intro p
  have hnodup : ((meta.Labels ++ meta.Annotations).map Prod.fst).Nodup := by
    rw [List.map_append, List.nodup_append]
    exact ⟨hl, ha, fun k hk hk' => hd k hk hk'⟩
  have := mem_foldl_setKey (meta.Labels ++ meta.Annotations) [] hnodup (by simp) p
  simpa [labelSetFromMeta] using this

/-- C15 at a concrete input, the metadata of `TestLabelSetFromMeta`. -/
theorem labelSetFromMeta_union_witness :
    ([("tsuru.io/x", "a"), ("y", "b")].map Prod.fst).Nodup ∧
      ([("tsuru.io/a", "1"), ("b", "2")].map Prod.fst).Nodup ∧
      (∀ k ∈ [("tsuru.io/x", "a"), ("y", "b")].map Prod.fst,
        k ∉ [("tsuru.io/a", "1"), ("b", "2")].map Prod.fst) ∧
      labelSetFromMeta ⟨[("tsuru.io/x", "a"), ("y", "b")], [("tsuru.io/a", "1"), ("b", "2")]⟩ =
        ⟨[("tsuru.io/x", "a"), ("y", "b"), ("tsuru.io/a", "1"), ("b", "2")], "tsuru.io/"⟩ ∧
      (∀ p, p ∈ (labelSetFromMeta
          ⟨[("tsuru.io/x", "a"), ("y", "b")], [("tsuru.io/a", "1"), ("b", "2")]⟩).Labels ↔
        p ∈ [("tsuru.io/x", "a"), ("y", "b")] ∨ p ∈ [("tsuru.io/a", "1"), ("b", "2")]) :=
  ⟨by decide, by decide, by decide, by decide,
    (labelSetFromMeta_union
      ⟨[("tsuru.io/x", "a"), ("y", "b")], [("tsuru.io/a", "1"), ("b", "2")]⟩
      (by decide) (by decide) (by decide)).1⟩

/-! ## Resource names -/

theorem toLower_of_upper (c : Char) (h : c.toNat ≥ 65 ∧ c.toNat ≤ 90) :
    c.toLower = Char.ofNat (c.toNat + 32) := by
  simp [Char.toLower, h]

theorem toLower_of_not_upper (c : Char) (h : ¬(c.toNat ≥ 65 ∧ c.toNat ≤ 90)) :
    c.toLower = c := by
  unfold Char.toLower
  simp only
  rw [if_neg h]

theorem isUpper_iff (c : Char) : c.isUpper = true ↔ (c.toNat ≥ 65 ∧ c.toNat ≤ 90) := by
  simp only [Char.isUpper, Char.toNat, Bool.and_eq_true, decide_eq_true_eq, ge_iff_le]
  constructor
  · rintro ⟨h1, h2⟩
    exact ⟨by simpa [UInt32.le_def] using h1, by simpa [UInt32.le_def] using h2⟩
  · rintro ⟨h1, h2⟩
    exact ⟨by simpa [UInt32.le_def] using h1, by simpa [UInt32.le_def] using h2⟩

theorem lowered_letter (n : Nat) (h1 : 65 ≤ n) (h2 : n ≤ 90) :
    (Char.ofNat (n + 32)).isUpper = false ∧ Char.ofNat (n + 32) ≠ '_' := by
  interval_cases n <;> decide

theorem toLower_not_upper (c : Char) : c.toLower.isUpper = false := by
  by_cases h : c.toNat ≥ 65 ∧ c.toNat ≤ 90
  · rw [toLower_of_upper c h]
    exact (lowered_letter c.toNat h.1 h.2).1
  · rw [toLower_of_not_upper c h, Bool.eq_false_iff]
    intro hu
    exact h ((isUpper_iff c).1 hu)

theorem toLower_eq_underscore (c : Char) : c.toLower = '_' ↔ c = '_' := by
  by_cases h : c.toNat ≥ 65 ∧ c.toNat ≤ 90
  · rw [toLower_of_upper c h]
    constructor
    · intro e
      exact absurd e (lowered_letter c.toNat h.1 h.2).2
    · intro e
      subst e
      revert h
      decide
  · rw [toLower_of_not_upper c h]

theorem hyphenate_toLower (c : Char) : (hyphenate c).toLower = hyphenate c.toLower := by
  unfold hyphenate
  by_cases h : c = '_'
  · subst h
    decide
  · have h' : ¬c.toLower = '_' := fun e => h ((toLower_eq_underscore c).1 e)
    rw [if_neg h, if_neg h']

theorem kubeName_data (s : String) :
    (kubeName s).data = (s.data.map Char.toLower).map hyphenate := by
  simp only [kubeName, List.map_map]
  apply List.map_congr_left
  intro c _
  exact hyphenate_toLower c

theorem kubeName_clean (s : String) :
    ∀ c ∈ (kubeName s).data, c.isUpper = false ∧ c ≠ '_' := by
  intro c hc
  simp only [kubeName, List.mem_map] at hc
  obtain ⟨y, ⟨x, _, rfl⟩, rfl⟩ := hc
  refine ⟨toLower_not_upper _, ?_⟩
  intro e
  have := (toLower_eq_underscore _).1 e
  unfold hyphenate at this
  by_cases h : x = '_'
  · rw [if_pos h] at this
    exact absurd this (by decide)
  · rw [if_neg h] at this
    exact h this

/-- C16 (resource-name derivation).  `deploymentNameForApp` gives the
application name and the process name, each with its underscores turned into
hyphens and then put in lower case, joined by a hyphen.  Names that differ
only in letter case give the same result, and the result holds no upper-case
letter and no underscore. -/
theorem deploymentNameForApp_normalised (appName process : String) :
    (deploymentNameForApp appName process).data =
        (appName.data.map hyphenate).map Char.toLower ++
          '-' :: (process.data.map hyphenate).map Char.toLower ∧
      (∀ appName' process' : String,
        appName.data.map Char.toLower = appName'.data.map Char.toLower →
          process.data.map Char.toLower = process'.data.map Char.toLower →
            deploymentNameForApp appName process = deploymentNameForApp appName' process') ∧
      (∀ c ∈ (deploymentNameForApp appName process).data, c.isUpper = false ∧ c ≠ '_') := by
  refine ⟨?_, ?_, ?_⟩
  · simp [deploymentNameForApp, kubeName]
  · intro appName' process' hn hp
    have h1 : kubeName appName = kubeName appName' := by
      apply String.ext
      rw [kubeName_data, kubeName_data, hn]
    have h2 : kubeName process = kubeName process' := by
      apply String.ext
      rw [kubeName_data, kubeName_data, hp]
    rw [deploymentNameForApp, deploymentNameForApp, h1, h2]
  · intro c hc
    simp only [deploymentNameForApp, String.data_append, List.mem_append] at hc
    rcases hc with (hc | hc) | hc
    · exact kubeName_clean appName c hc
    · have : c = '-' := by simpa using hc
      subst this
      decide
    · exact kubeName_clean process c hc

/-- C16 at concrete inputs, the cases of `TestDeploymentNameForApp`. -/
theorem deploymentNameForApp_normalised_witness :
    deploymentNameForApp "my-app_app" "P_1-1" = "my-app-app-p-1-1" ∧
      deploymentNameForApp "myapp" "p1" = "myapp-p1" ∧
      deploymentNameForApp "MYAPP" "p-1" = "myapp-p-1" ∧
      deploymentNameForApp "MYAPP" "p-1" = deploymentNameForApp "myapp" "P-1" ∧
      ∀ c ∈ (deploymentNameForApp "my-app_app" "P_1-1").data, c.isUpper = false ∧ c ≠ '_' :=
  ⟨by decide, by decide, by decide,
    (deploymentNameForApp_normalised "MYAPP" "p-1").2.1 "myapp" "P-1" (by decide) (by decide),
    (deploymentNameForApp_normalised "my-app_app" "P_1-1").2.2⟩

end Kubernetes
